import Mathlib

/-!
sixit-core: byte-buffer family (`sixit/core/cpual/simd/simd_byte_buffer*.h`)

A shallow embedding of the fixed-capacity byte buffers of `sixit::core::cpual::simd`
and proofs about their digit conversion (`atoi`), their comparison masks, the in-place
subtraction `sub`, and the cursor operations (`fill_from`, `store`, `consume`,
`erase_and_shift_left`, `get`, `wanna_fill`); further the 64 x 64 bit product
`umult64x64_default` of `sixit/core/cpual/integer_math.h`, `is_representable` and
`narrow_cast` of `sixit/core/guidelines.h`, and `presume_throws` of
`sixit/core/testing/test.h`.

Modelling conventions
* A hardware register (`__m128i`, `__m256i`, `__m512i`, `uint64_t`) is the natural number
  whose little-endian bytes are the bytes of the register: byte `i` is `lane 8 i x`.
  Wider lanes (`epi16`, `epi32`, `epi64`, the `uint64_t[...]` views made by the store
  intrinsics) are `lane 16`, `lane 32`, `lane 64` of the same number.
* C++ `int` cursors (`begin`, `end`, `n_bytes`, `length`, ...) are `Int`.
* `uint64_t` arithmetic is arithmetic modulo `2 ^ 64`, written out explicitly.
* The vector intrinsics are not code of the repository; they are modelled lane by lane
  after the vendor's pseudo-code, with the lane count as a parameter.
* Preprocessor alternatives (`__SSSE3__`, `__AVX512VL__ && __AVX512BW__`) are a boolean
  parameter of the function that contains them.
* A local array and the memory behind a destination pointer are the list of their bytes;
  a member that accesses them returns an `Option`, `none` when an access leaves the array.
* A shift of a `uint64_t` whose count is not known to be below 64 is `shl64_checked` or
  `shr64_checked`, `none` when the count is out of range.
* The addresses of the local arrays that `simd_buffer256::atoi` and `simd_buffer512::atoi`
  reach with 32- and 64-byte aligned accesses are parameters of these members; an access at
  an address that is not aligned is `none`.
* An integral type is its signedness and width (`IntegralType`), a value of it an `Int`.
* A call that may throw returns an `Except`: `Except.error` carries what was thrown.
-/

namespace Sixit

/-! ## Registers and lanes -/

/-- Lane `i` (counted from the least significant end) of width `w` bits of `x`. -/
def lane (w i x : Nat) : Nat := x / 2 ^ (w * i) % 2 ^ w

/-- Pack a list of lane values, first element in the lowest lane; every value is truncated
to `w` bits. -/
def packL (w : Nat) : List Nat → Nat
  | [] => 0
  | a :: as => a % 2 ^ w + 2 ^ w * packL w as

/-- The register of `n` lanes of width `w` whose lane `i` holds `g i` truncated to `w` bits. -/
def mkLanes (w n : Nat) (g : Nat → Nat) : Nat := packL w ((List.range n).map g)

/-- The first `n` lanes of width `w` of `x`, lowest lane first. -/
def lanes (w n x : Nat) : List Nat := (List.range n).map (fun i => lane w i x)

/-- Two's complement reading of a `w`-bit lane value. -/
def toSigned (w x : Nat) : Int := if x < 2 ^ (w - 1) then (x : Int) else (x : Int) - 2 ^ w

/-- Two's complement encoding of an integer into `w` bits. -/
def ofSigned (w : Nat) (z : Int) : Nat := (z % 2 ^ w).toNat

/-- Signed saturation to 8 bits. -/
def saturate8 (z : Int) : Int := if z > 127 then 127 else if z < -128 then -128 else z

/-- Signed saturation to 16 bits. -/
def saturate16 (z : Int) : Int := if z > 32767 then 32767 else if z < -32768 then -32768 else z

/-- Truncation to `uint64_t`. -/
def u64 (x : Nat) : Nat := x % 2 ^ 64

/-- Left shift of a `uint64_t`: `x << s`. -/
def shl64 (x s : Nat) : Nat := (x <<< s) % 2 ^ 64

/-- Subtraction of `uint64_t` values: `a - b`. -/
def sub64 (a b : Nat) : Nat := (a + 2 ^ 64 - b % 2 ^ 64) % 2 ^ 64

/-- Bitwise complement of a `uint64_t`: `~x`. -/
def not64 (x : Nat) : Nat := 2 ^ 64 - 1 - x % 2 ^ 64

/-! ## Vector intrinsics (vendor semantics; `n` is the number of result lanes) -/

/-- Intrinsics `_mm_set1_epi8`, `_mm256_set1_epi8`, `_mm512_set1_epi8`. -/
def set1_epi8 (n b : Nat) : Nat := mkLanes 8 n (fun _ => b)

/-- Intrinsics `_mm_set_epi8`, `_mm256_set_epi8`, `_mm512_set_epi8`: arguments are listed
from the highest lane down to lane 0. -/
def set_epi8 (es : List Nat) : Nat := packL 8 es.reverse

/-- Intrinsic `_mm256_setr_epi8`: arguments are listed from lane 0 upwards. -/
def setr_epi8 (es : List Nat) : Nat := packL 8 es

/-- Intrinsics `_mm_set_epi16`, `_mm256_set_epi16`. -/
def set_epi16 (es : List Nat) : Nat := packL 16 es.reverse

/-- Intrinsics `_mm_set_epi32`, `_mm256_set_epi32`. -/
def set_epi32 (es : List Nat) : Nat := packL 32 es.reverse

/-- Intrinsics `_mm_sub_epi8`, `_mm256_sub_epi8`: wrapping byte subtraction. -/
def sub_epi8 (n a b : Nat) : Nat :=
  mkLanes 8 n (fun i => (lane 8 i a + 256 - lane 8 i b) % 256)

/-- Intrinsic `_mm512_subs_epi8`: signed saturating byte subtraction. -/
def subs_epi8 (n a b : Nat) : Nat :=
  mkLanes 8 n (fun i => ofSigned 8 (saturate8 (toSigned 8 (lane 8 i a) - toSigned 8 (lane 8 i b))))

/-- Intrinsics `_mm_maddubs_epi16`, `_mm256_maddubs_epi16`, `_mm512_maddubs_epi16`:
unsigned bytes of `a` times signed bytes of `b`, adjacent products added with signed
saturation to 16 bits. -/
def maddubs_epi16 (n a b : Nat) : Nat :=
  mkLanes 16 n (fun i => ofSigned 16 (saturate16
    ((lane 8 (2 * i) a : Int) * toSigned 8 (lane 8 (2 * i) b)
      + (lane 8 (2 * i + 1) a : Int) * toSigned 8 (lane 8 (2 * i + 1) b))))

/-- Intrinsics `_mm_madd_epi16`, `_mm256_madd_epi16`: signed 16-bit products, adjacent
products added into 32-bit lanes. -/
def madd_epi16 (n a b : Nat) : Nat :=
  mkLanes 32 n (fun i => ofSigned 32
    (toSigned 16 (lane 16 (2 * i) a) * toSigned 16 (lane 16 (2 * i) b)
      + toSigned 16 (lane 16 (2 * i + 1) a) * toSigned 16 (lane 16 (2 * i + 1) b)))

/-- Intrinsic `_mm_mullo_epi16`: low 16 bits of the 16-bit products. -/
def mullo_epi16 (n a b : Nat) : Nat := mkLanes 16 n (fun i => lane 16 i a * lane 16 i b)

/-- Intrinsic `_mm256_mullo_epi64`: low 64 bits of the 64-bit products. -/
def mullo_epi64 (n a b : Nat) : Nat := mkLanes 64 n (fun i => lane 64 i a * lane 64 i b)

/-- Intrinsic `_mm_mul_epu32`: product of the low unsigned 32 bits of every 64-bit lane. -/
def mul_epu32 (n a b : Nat) : Nat := mkLanes 64 n (fun i => lane 32 (2 * i) a * lane 32 (2 * i) b)

/-- Intrinsic `_mm_add_epi16`. -/
def add_epi16 (n a b : Nat) : Nat := mkLanes 16 n (fun i => lane 16 i a + lane 16 i b)

/-- Intrinsic `_mm_add_epi32`. -/
def add_epi32 (n a b : Nat) : Nat := mkLanes 32 n (fun i => lane 32 i a + lane 32 i b)

/-- Intrinsics `_mm_add_epi64`, `_mm256_add_epi64`. -/
def add_epi64 (n a b : Nat) : Nat := mkLanes 64 n (fun i => lane 64 i a + lane 64 i b)

/-- Intrinsic `_mm_srli_epi16`: logical right shift of every 16-bit lane. -/
def srli_epi16 (n a s : Nat) : Nat := mkLanes 16 n (fun i => lane 16 i a >>> s)

/-- Intrinsic `_mm_srli_epi32`. -/
def srli_epi32 (n a s : Nat) : Nat := mkLanes 32 n (fun i => lane 32 i a >>> s)

/-- Intrinsics `_mm_srli_epi64`, `_mm256_srli_epi64`. -/
def srli_epi64 (n a s : Nat) : Nat := mkLanes 64 n (fun i => lane 64 i a >>> s)

/-- Intrinsic `_mm_shuffle_epi32`: 32-bit lane `i` of the result is the lane of `a`
selected by bits `2i+1..2i` of the immediate. -/
def shuffle_epi32 (a imm : Nat) : Nat := mkLanes 32 4 (fun i => lane 32 (lane 2 i imm) a)

/-- Intrinsic `_mm256_shuffle_epi8`: within each 128-bit half, byte `i` of the result is
zero when bit 7 of the selector byte is set, else the byte of the same half selected by
the low four selector bits. -/
def shuffle_epi8_256 (a sel : Nat) : Nat :=
  mkLanes 8 32 (fun i =>
    if lane 8 i sel ≥ 128 then 0 else lane 8 (16 * (i / 16) + lane 8 i sel % 16) a)

/-- Intrinsics `_mm512_cvtepi16_epi8`, `_mm256_cvtepi16_epi8`: truncate every 16-bit lane
to a byte. -/
def cvtepi16_epi8 (n a : Nat) : Nat := mkLanes 8 n (fun i => lane 16 i a)

/-- Intrinsics `_mm_cmpeq_epi8`, `_mm256_cmpeq_epi8`: byte `0xFF` where equal, else 0. -/
def cmpeq_epi8 (n a b : Nat) : Nat :=
  mkLanes 8 n (fun i => if lane 8 i a = lane 8 i b then 255 else 0)

/-- Intrinsic `_mm_cmplt_epi8`: byte `0xFF` where `a < b` as signed bytes, else 0. -/
def cmplt_epi8 (n a b : Nat) : Nat :=
  mkLanes 8 n (fun i => if toSigned 8 (lane 8 i a) < toSigned 8 (lane 8 i b) then 255 else 0)

/-- Intrinsic `_mm256_cmpgt_epi8`: byte `0xFF` where `a > b` as signed bytes, else 0. -/
def cmpgt_epi8 (n a b : Nat) : Nat :=
  mkLanes 8 n (fun i => if toSigned 8 (lane 8 i a) > toSigned 8 (lane 8 i b) then 255 else 0)

/-- Intrinsics `_mm_movemask_epi8`, `_mm256_movemask_epi8`: bit `i` is the top bit of
byte `i`.  The result is an `int`; for 32 lanes a set bit 31 makes it negative. -/
def movemask_epi8 (n a : Nat) : Int :=
  toSigned 32 (mkLanes 1 n (fun i => lane 8 i a / 128))

/-- Intrinsics `_mm256_cmpeq_epi8_mask`, `_mm512_cmpeq_epu8_mask`: bit `i` set where the
bytes are equal. -/
def cmpeq_epi8_mask (n a b : Nat) : Nat :=
  mkLanes 1 n (fun i => if lane 8 i a = lane 8 i b then 1 else 0)

/-- Intrinsic `_mm256_cmplt_epi8_mask`: bit `i` set where `a < b` as signed bytes. -/
def cmplt_epi8_mask (n a b : Nat) : Nat :=
  mkLanes 1 n (fun i => if toSigned 8 (lane 8 i a) < toSigned 8 (lane 8 i b) then 1 else 0)

/-- Intrinsic `_mm512_cmplt_epu8_mask`: bit `i` set where `a < b` as unsigned bytes. -/
def cmplt_epu8_mask (n a b : Nat) : Nat :=
  mkLanes 1 n (fun i => if lane 8 i a < lane 8 i b then 1 else 0)

/-- Right shift of a C++ `int`: arithmetic shift (sign bit replicated). -/
def sar (m : Int) (s : Int) : Int := m / 2 ^ s.toNat

/-! ## The 16-byte buffer `simd_buffer128` -/

/-- State of `class simd_buffer128`: the register and the two cursors. -/
structure simd_buffer128 where
  /-- Field `__m128i data`. -/
  data : Nat
  /-- Field `int begin`. -/
  begin : Int
  /-- Field `int end`. -/
  end_ : Int
deriving DecidableEq, Repr

namespace simd_buffer128

/-- A default-constructed buffer: `begin = end = 0`; the register is not initialised by the
constructor, so its content `d` is arbitrary. -/
def init (d : Nat) : simd_buffer128 := { data := d, begin := 0, end_ := 0 }

/-- Member `n_left()`. -/
def n_left (s : simd_buffer128) : Int := s.end_ - s.begin

/-- Member `fill_from(const plain_type& p)`: the returned flag and the new state. -/
def fill_from (s : simd_buffer128) (p : Nat) : Bool × simd_buffer128 :=
  if s.begin ≠ s.end_ then (true, s)
  else (false, { data := p, begin := 0, end_ := 16 })

/-- Member `consume(n)`: the returned count and the new state. -/
def consume (s : simd_buffer128) (n : Int) : Int × simd_buffer128 :=
  (s.end_ - (s.begin + n), { s with begin := s.begin + n })

/-- Member `get(int idx)` (the branch compiled under `if constexpr (true)`). -/
def get (s : simd_buffer128) (idx : Int) : Nat := lane 8 (idx + s.begin).toNat s.data

/-- The first `len` logical bytes `get(0), ..., get(len - 1)`. -/
def logical (s : simd_buffer128) (len : Nat) : List Nat :=
  (List.range len).map (fun i : Nat => get s (i : Int))

/-- Member `equal_to<b>()`; `mask_type` is `int32_t`. -/
def equal_to (b : Nat) (s : simd_buffer128) : Int :=
  sar (movemask_epi8 16 (cmpeq_epi8 16 s.data (set1_epi8 16 b))) s.begin

/-- Member `lt_than<b>()`. -/
def lt_than (b : Nat) (s : simd_buffer128) : Int :=
  sar (movemask_epi8 16 (cmplt_epi8 16 s.data (set1_epi8 16 b))) s.begin

/-- First half of the realignment block of `atoi`: the two words `tmp_value[0]`,
`tmp_value[1]` are moved down by `b` bytes. -/
def realign_shr (t0 t1 : Nat) (b : Int) : Nat × Nat :=
  -- if (b > 7) { b -= 8; tmp_value[0] = tmp_value[1]; tmp_value[1] = 0; }
  let t0a := if b > 7 then t1 else t0
  let t1a := if b > 7 then 0 else t1
  let b1 := if b > 7 then b - 8 else b
  -- b <<= 3;
  let b2 := b1 * 8
  -- tmp_value[0] = (tmp_value[0] >> b) | (b ? (tmp_value[1] << (64 - b)) : 0);
  let t0b := (t0a >>> b2.toNat) ||| (if b2 ≠ 0 then shl64 t1a (64 - b2).toNat else 0)
  -- tmp_value[1] >>= b;
  let t1b := t1a >>> b2.toNat
  (t0b, t1b)

/-- Second half of the realignment block of `atoi`: the two words are moved up so that the
run of `length` bytes ends at byte 15. -/
def realign_shl (t0 t1 : Nat) (length : Int) : Nat × Nat :=
  -- if (length < 9) { length += 8; tmp_value[1] = tmp_value[0]; tmp_value[0] = 0; }
  let t1c := if length < 9 then t0 else t1
  let t0c := if length < 9 then 0 else t0
  let l1 := if length < 9 then length + 8 else length
  -- length = (16 - length) << 3;
  let l2 := (16 - l1) * 8
  -- tmp_value[1] = (tmp_value[1] << length) | (length ? (tmp_value[0] >> (64 - length)) : 0);
  let t1d := shl64 t1c l2.toNat ||| (if l2 ≠ 0 then t0c >>> (64 - l2).toNat else 0)
  -- tmp_value[0] <<= length;
  let t0d := shl64 t0c l2.toNat
  (t0d, t1d)

/-- The realignment block of `atoi` (`if (b || length < 16) { ... }`), acting on the two
`uint64_t` words `tmp_value[0]`, `tmp_value[1]` stored from `calculation_data`. -/
def realign (calculation_data : Nat) (b length : Int) : Nat :=
  let r := realign_shr (lane 64 0 calculation_data) (lane 64 1 calculation_data) b
  let l := realign_shl r.1 r.2 length
  packL 64 [l.1, l.2]

/-- The reduction tree of `atoi` ("high * 10 + low" up to "high * 1 0000 0000 + low"),
applied to the realigned register. -/
def reduce (ssse3 : Bool) (calculation_data : Nat) : Nat :=
  -- high * 10 + low
  let c1 :=
    if ssse3 then
      let MUL_1_8BIT := set_epi8 [1, 10, 1, 10, 1, 10, 1, 10, 1, 10, 1, 10, 1, 10, 1, 10]
      maddubs_epi16 8 calculation_data MUL_1_8BIT
    else
      let MUL_1_8BIT := set_epi8 [0, 10, 0, 10, 0, 10, 0, 10, 0, 10, 0, 10, 0, 10, 0, 10]
      let MASK_8 := set_epi32 [0xff00ff, 0xff00ff, 0xff00ff, 0xff00ff]
      let tmp_storage := mullo_epi16 8 calculation_data MUL_1_8BIT
      let c := add_epi16 8 tmp_storage (srli_epi16 8 calculation_data 8)
      c &&& MASK_8
  -- high * 100 + low
  let c2 :=
    if ssse3 then
      let MUL_2_16BIT := set_epi16 [1, 100, 1, 100, 1, 100, 1, 100]
      madd_epi16 4 c1 MUL_2_16BIT
    else
      let MUL_2_16BIT := set_epi16 [0, 100, 0, 100, 0, 100, 0, 100]
      let MASK_16 := set_epi32 [0xffff, 0xffff, 0xffff, 0xffff]
      let tmp_storage := mullo_epi16 8 c1 MUL_2_16BIT
      let c := add_epi32 4 tmp_storage (srli_epi32 4 c1 16)
      c &&& MASK_16
  -- high * 1 0000 + low
  let MASK_32 := set_epi32 [0, 0xffffffff, 0, 0xffffffff]
  let MUL_4_32BIT := set_epi32 [0, 10000, 0, 10000]
  let tmp3 := mul_epu32 2 c2 MUL_4_32BIT
  let c3 := MASK_32 &&& add_epi64 2 tmp3 (srli_epi64 2 c2 32)
  -- high * 1 0000 0000 + low
  let MUL_8_64BIT := set_epi32 [0, 0, 0, 100000000]
  let tmp4 := mul_epu32 2 c3 MUL_8_64BIT
  let c4 := add_epi64 2 tmp4 (shuffle_epi32 c3 78)
  -- _mm_cvtsi128_si64
  lane 64 0 c4

/-- Member `atoi(int length)`.  `ssse3` selects the `#ifdef __SSSE3__` alternatives. -/
def atoi (ssse3 : Bool) (s : simd_buffer128) (length : Int) : Nat :=
  let calculation_data := sub_epi8 16 s.data (set1_epi8 16 48)
  let b := s.begin
  let calculation_data :=
    if b ≠ 0 ∨ length < 16 then realign calculation_data b length else calculation_data
  reduce ssse3 calculation_data

end simd_buffer128

/-! ## The packed 7-byte buffer `simd_buffer64` -/

/-- Library function `std::popcount` on a `uint64_t`. -/
def popcount64 (m : Nat) : Nat := ((List.range 64).filter (fun i => m.testBit i)).length

/-- Library function `std::countl_zero` on a `uint64_t`. -/
def countl_zero64 (m : Nat) : Nat := if m = 0 then 64 else 63 - Nat.log2 m

/-- State of `class simd_buffer64`: the packed word and the byte count. -/
structure simd_buffer64 where
  /-- Field `uint64_t data`. -/
  data : Nat
  /-- Field `int n_bytes`. -/
  n_bytes : Int
deriving DecidableEq, Repr

namespace simd_buffer64

/-- Constant `max_bytes`. -/
def max_bytes : Int := 7

/-- Constant `guard_mask_low`. -/
def guard_mask_low : Nat :=
  (1 <<< 0) ||| (1 <<< 9) ||| (1 <<< 18) ||| (1 <<< 27) ||| (1 <<< 36) ||| (1 <<< 45) ||| (1 <<< 54)

/-- Constant `guard_mask`. -/
def guard_mask : Nat := guard_mask_low ||| (1 <<< 63)

/-- Constant `neg_guard_mask`. -/
def neg_guard_mask : Nat := not64 guard_mask

/-- Static member `repeat<b>()`; the template argument is a `uint8_t`. -/
def repeat_ (b : Nat) : Nat :=
  let b := b % 256
  (b <<< 1) ||| (b <<< 10) ||| (b <<< 19) ||| (b <<< 28) ||| (b <<< 37) ||| (b <<< 46) ||| (b <<< 55)

/-- Cell `j` of the packed word `x`, a proof device: for `1 ≤ j ≤ 7` the eight data bits
of the lane stored at bits `9(j-1)+1 .. 9(j-1)+8` (the byte `get(7 - j)`), with the guard
bit `9j` of that lane as bit 8; cell 0 holds only guard bit 0 (as bit 8). -/
def cell (j x : Nat) : Nat := lane 9 j (x * 2 ^ 8)

/-- Nested class `mask_type`: a wrapped `uint64_t`. -/
structure mask_type where
  /-- Field `uint64_t m`. -/
  m : Nat
deriving DecidableEq, Repr

/-- Member `mask_type::popcount()`. -/
def mask_type.popcount (x : mask_type) : Nat := popcount64 x.m

/-- Member `mask_type::countl_zero()`. -/
def mask_type.countl_zero (x : mask_type) : Nat := countl_zero64 x.m / 9

/-- A default-constructed buffer. -/
def init : simd_buffer64 := { data := 0x8000000000000000, n_bytes := 0 }

/-- Member `n_left()`. -/
def n_left (s : simd_buffer64) : Int := s.n_bytes

/-- Member `get(int idx)`. -/
def get (s : simd_buffer64) (idx : Int) : Nat :=
  (s.data >>> (1 + (max_bytes - idx - 1) * 9).toNat) % 256

/-- The first `len` logical bytes `get(0), ..., get(len - 1)`. -/
def logical (s : simd_buffer64) (len : Nat) : List Nat :=
  (List.range len).map (fun i : Nat => get s (i : Int))

/-- Member `fill_from(const uint64_t& u, int n_available)`: the returned count and the new
state. -/
def fill_from (s : simd_buffer64) (u : Nat) (n_available : Int) : Int × simd_buffer64 :=
  let not_readed := n_available - max_bytes + s.n_bytes
  let not_readed := if not_readed > 0 then not_readed else 0
  let n_available := n_available - not_readed
  let shift := 9 * (max_bytes - n_available)
  let n_bytes := s.n_bytes + (n_available - not_readed)
  let reverted := guard_mask
  let reverted := reverted ||| shl64 (u &&& 0xff) 55
  let reverted := reverted ||| shl64 (u &&& 0xff00) 38
  let reverted := reverted ||| shl64 (u &&& 0xff0000) 21
  let reverted := reverted ||| shl64 (u &&& 0xff000000) 4
  let reverted :=
    if n_available > 4 then
      let reverted := reverted ||| ((u &&& 0xff00000000) >>> 13)
      let reverted := reverted ||| ((u &&& 0xff0000000000) >>> 30)
      reverted ||| ((u &&& 0xff000000000000) >>> 47)
    else reverted
  (not_readed, { data := s.data ||| shl64 reverted shift.toNat, n_bytes := n_bytes })

/-- Member `consume(int n)`: the returned count and the new state. -/
def consume (s : simd_buffer64) (n : Int) : Int × simd_buffer64 :=
  (s.n_bytes - n, { data := shl64 s.data (n * 9).toNat, n_bytes := s.n_bytes - n })

/-- Member `equal_to<b>()`. -/
def equal_to (b : Nat) (s : simd_buffer64) : mask_type :=
  let b_data := repeat_ b
  let not_borrowed1 := sub64 s.data (shl64 b_data (9 * (max_bytes - s.n_bytes)).toNat)
  let b_data2 := repeat_ (b + 1)
  let not_borrowed2 := sub64 s.data (shl64 b_data2 (9 * (max_bytes - s.n_bytes)).toNat)
  let eq := not_borrowed1 &&& not64 not_borrowed2
  ⟨eq &&& guard_mask⟩

/-- Member `lt_than<b>()`. -/
def lt_than (b : Nat) (s : simd_buffer64) : mask_type :=
  let b_data := repeat_ b
  let not_borrowed := sub64 s.data (shl64 b_data (9 * (max_bytes - s.n_bytes)).toNat)
  let lt := not_borrowed
  ⟨lt &&& guard_mask⟩

/-- Member `sub<b>()`: the returned mask and the new state. -/
def sub (b : Nat) (s : simd_buffer64) : mask_type × simd_buffer64 :=
  let b_data := repeat_ b
  let data := sub64 s.data (shl64 b_data (9 * (max_bytes - s.n_bytes)).toNat)
  let lt := not64 data
  (⟨lt &&& guard_mask⟩, { s with data := data })

/-- First step of the arithmetic of `atoi`: `high * 10 + low` on adjacent lanes, kept in
the lanes selected by `odd_mask`. -/
def atoi_pairs (calculation_data : Nat) : Nat :=
  let odd_mask : Nat := (0xFF <<< 1) ||| (0xFF <<< 19) ||| (0xFF <<< 37) ||| (0xFF <<< 55)
  let mul2 := calculation_data >>> 8
  let mul8 := calculation_data >>> 6
  -- calculation_data += mul2 + mul8;
  let c := u64 (calculation_data + u64 (mul2 + mul8))
  -- calculation_data &= odd_mask;
  c &&& odd_mask

/-- Second step of the arithmetic of `atoi`: `high * 100 + low` on adjacent pairs. -/
def atoi_quads (calculation_data : Nat) : Nat :=
  let mul64 := calculation_data >>> 12
  let mul32 := calculation_data >>> 13
  let mul4 := calculation_data >>> 16
  -- calculation_data += mul4 + mul32 + mul64;
  u64 (calculation_data + u64 (u64 (mul4 + mul32) + mul64))

/-- Last step of the arithmetic of `atoi`: `low + hi * 10000`. -/
def atoi_fold (calculation_data : Nat) : Nat :=
  let low := (calculation_data >>> 1) &&& 0x1FFFF
  let hi := (calculation_data >>> 33) &&& 0x1FFFF
  -- low += hi << 6;
  let low := u64 (low + shl64 hi 6)
  -- hi += hi << 4;
  let hi := u64 (hi + shl64 hi 4)
  -- hi += hi << 5;
  let hi := u64 (hi + shl64 hi 5)
  u64 (low + hi)

/-- The arithmetic of `atoi` after the digits have been moved to the low end: from the
definition of `odd_mask` to the `return`. -/
def atoi_reduce (calculation_data : Nat) : Nat :=
  atoi_fold (atoi_quads (atoi_pairs calculation_data))

/-- Member `atoi(int length)`. -/
def atoi (s : simd_buffer64) (length : Int) : Nat :=
  let b_data := repeat_ 48
  let calculation_data := sub64 s.data (shl64 b_data (9 * (max_bytes - length)).toNat)
  let shift := max_bytes - length
  let calculation_data := (calculation_data &&& neg_guard_mask) >>> (9 * shift).toNat
  atoi_reduce calculation_data

end simd_buffer64

/-! ## The 32-byte buffer `simd_buffer256` -/

/-- Four `uint64_t` words: the array `uint64_t tmp_value[4]` of `simd_buffer256::atoi`. -/
structure Words4 where
  /-- Element `tmp_value[0]`. -/
  w0 : Nat
  /-- Element `tmp_value[1]`. -/
  w1 : Nat
  /-- Element `tmp_value[2]`. -/
  w2 : Nat
  /-- Element `tmp_value[3]`. -/
  w3 : Nat
deriving DecidableEq, Repr

/-- State of `class simd_buffer256`: the register and the two cursors. -/
structure simd_buffer256 where
  /-- Field `__m256i data`. -/
  data : Nat
  /-- Field `int begin`. -/
  begin : Int
  /-- Field `int end`. -/
  end_ : Int
deriving DecidableEq, Repr

namespace simd_buffer256

/-- A default-constructed buffer: `begin = end = 0`; the register content `d` is arbitrary. -/
def init (d : Nat) : simd_buffer256 := { data := d, begin := 0, end_ := 0 }

/-- Member `n_left()`. -/
def n_left (s : simd_buffer256) : Int := s.end_ - s.begin

/-- Member `fill_from(const plain_type& p)`: the returned flag and the new state. -/
def fill_from (s : simd_buffer256) (p : Nat) : Bool × simd_buffer256 :=
  if s.begin ≠ s.end_ then (true, s)
  else (false, { data := p, begin := 0, end_ := 32 })

/-- Member `consume(n)`: the returned count and the new state. -/
def consume (s : simd_buffer256) (n : Int) : Int × simd_buffer256 :=
  (s.end_ - (s.begin + n), { s with begin := s.begin + n })

/-- Member `get(int idx)`. -/
def get (s : simd_buffer256) (idx : Int) : Nat := lane 8 (idx + s.begin).toNat s.data

/-- The first `len` logical bytes `get(0), ..., get(len - 1)`. -/
def logical (s : simd_buffer256) (len : Nat) : List Nat :=
  (List.range len).map (fun i : Nat => get s (i : Int))

/-- Member `equal_to<b>()`; `mask_type` is `uint32_t`.  `avx512` selects the
`__AVX512VL__ && __AVX512BW__` alternative; in the other one the `int` returned by
`_mm256_movemask_epi8` is shifted arithmetically and then converted to `uint32_t`. -/
def equal_to (avx512 : Bool) (b : Nat) (s : simd_buffer256) : Nat :=
  if avx512 then cmpeq_epi8_mask 32 s.data (set1_epi8 32 b) >>> s.begin.toNat
  else ofSigned 32 (sar (movemask_epi8 32 (cmpeq_epi8 32 s.data (set1_epi8 32 b))) s.begin)

/-- Member `lt_than<b>()`. -/
def lt_than (avx512 : Bool) (b : Nat) (s : simd_buffer256) : Nat :=
  if avx512 then cmplt_epi8_mask 32 s.data (set1_epi8 32 b) >>> s.begin.toNat
  else ofSigned 32 (sar (movemask_epi8 32 (cmpgt_epi8 32 (set1_epi8 32 b) s.data)) s.begin)

/-- The words of `tmp_value` after the nested `if (b > 15) ... else ...` of `atoi`, which
moves whole words down. -/
def shr_words (t : Words4) (b : Int) : Words4 :=
  if b > 15 then
    if b > 23 then { w0 := t.w3, w1 := 0, w2 := 0, w3 := 0 }
    else { w0 := t.w2, w1 := t.w3, w2 := 0, w3 := 0 }
  else
    if b > 7 then { w0 := t.w1, w1 := t.w2, w2 := t.w3, w3 := 0 }
    else t

/-- The value of `b` after the nested `if (b > 15) ... else ...` of `atoi`. -/
def shr_count (b : Int) : Int :=
  if b > 15 then (if b > 23 then b - 24 else b - 16) else (if b > 7 then b - 8 else b)

/-- The block `if (b) { b <<= 3; ... }` of `atoi`: the words are moved down by `b` bytes,
`b < 8`. -/
def shr_bits (t : Words4) (b : Int) : Words4 :=
  if b ≠ 0 then
    let b2 := b * 8
    { w0 := (t.w0 >>> b2.toNat) ||| shl64 t.w1 (64 - b2).toNat,
      w1 := (t.w1 >>> b2.toNat) ||| shl64 t.w2 (64 - b2).toNat,
      w2 := (t.w2 >>> b2.toNat) ||| shl64 t.w3 (64 - b2).toNat,
      w3 := t.w3 >>> b2.toNat }
  else t

/-- The words of `tmp_value` after the nested `if (length > 15) ... else ...` of `atoi`,
which moves whole words up; `length` is the value after `length = 32 - length`. -/
def shl_words (t : Words4) (length : Int) : Words4 :=
  if length > 15 then
    if length > 23 then { w3 := t.w0, w2 := 0, w1 := 0, w0 := 0 }
    else { w3 := t.w1, w2 := t.w0, w1 := 0, w0 := 0 }
  else
    if length > 7 then { w3 := t.w2, w2 := t.w1, w1 := t.w0, w0 := 0 }
    else t

/-- The value of `length` after the nested `if (length > 15) ... else ...` of `atoi`. -/
def shl_count (length : Int) : Int :=
  if length > 15 then (if length > 23 then length - 24 else length - 16)
  else (if length > 7 then length - 8 else length)

/-- The block `if (length) { length <<= 3; ... }` of `atoi`: the words are moved up by
`length` bytes, `length < 8`. -/
def shl_bits (t : Words4) (length : Int) : Words4 :=
  if length ≠ 0 then
    let l2 := length * 8
    { w3 := shl64 t.w3 l2.toNat ||| (t.w2 >>> (64 - l2).toNat),
      w2 := shl64 t.w2 l2.toNat ||| (t.w1 >>> (64 - l2).toNat),
      w1 := shl64 t.w1 l2.toNat ||| (t.w0 >>> (64 - l2).toNat),
      w0 := shl64 t.w0 l2.toNat }
  else t

/-- The realignment block of `atoi` (`if (b || length < 32) { ... }`). -/
def realign (calculation_data256 : Nat) (b length : Int) : Nat :=
  let t : Words4 :=
    { w0 := lane 64 0 calculation_data256, w1 := lane 64 1 calculation_data256,
      w2 := lane 64 2 calculation_data256, w3 := lane 64 3 calculation_data256 }
  let r := shr_bits (shr_words t b) (shr_count b)
  -- length = 32 - length;
  let length := 32 - length
  let l := shl_bits (shl_words r length) (shl_count length)
  packL 64 [l.w0, l.w1, l.w2, l.w3]

/-- The reduction tree of `atoi`, applied to the realigned register.  Only the
`__SSSE3__` alternatives of the last stages are modelled: the file is compiled only under
`__AVX2__`, where `__SSSE3__` is defined as well. -/
def reduce (avx512 : Bool) (calculation_data256 : Nat) : Nat :=
  -- high * 10 + low
  let MUL_1_8BIT := set_epi8 [1, 10, 1, 10, 1, 10, 1, 10, 1, 10, 1, 10, 1, 10, 1, 10,
                              1, 10, 1, 10, 1, 10, 1, 10, 1, 10, 1, 10, 1, 10, 1, 10]
  let c256 := maddubs_epi16 16 calculation_data256 MUL_1_8BIT
  let calculation_data128 :=
    if avx512 then cvtepi16_epi8 16 c256
    else
      let tmp256 := shuffle_epi8_256 c256 (setr_epi8
        [0, 2, 4, 6, 8, 10, 12, 14, 1, 3, 5, 7, 9, 11, 13, 15,
         0, 2, 4, 6, 8, 10, 12, 14, 1, 3, 5, 7, 9, 11, 13, 15])
      -- intermediate_storage[1] |= intermediate_storage[2];
      packL 64 [lane 64 0 tmp256, lane 64 1 tmp256 ||| lane 64 2 tmp256]
  -- high * 100 + low
  let MUL_2_16BIT := set_epi8 [1, 100, 1, 100, 1, 100, 1, 100, 1, 100, 1, 100, 1, 100, 1, 100]
  let c2 := maddubs_epi16 8 calculation_data128 MUL_2_16BIT
  -- high * 1 0000 + low
  let MUL_4_32BIT := set_epi16 [1, 10000, 1, 10000, 1, 10000, 1, 10000]
  let c3 := madd_epi16 4 c2 MUL_4_32BIT
  -- high * 1 0000 0000 + low
  let MUL_8_64BIT := set_epi32 [0, 100000000, 0, 100000000]
  let tmp_storage := mul_epu32 2 c3 MUL_8_64BIT
  let c4 := add_epi64 2 tmp_storage (srli_epi64 2 c3 32)
  -- return result[0] * UINT64_C(10000'0000'0000'0000) + result[1];
  u64 (lane 64 0 c4 * 10000000000000000 + lane 64 1 c4)

/-- The arithmetic of `atoi(int length)`: realignment and reduction as a function of the
state, for shift counts below 64.  The member itself, with its accesses to the local arrays
and its shift counts checked, is `atoi` below. -/
def atoi_value (avx512 : Bool) (s : simd_buffer256) (length : Int) : Nat :=
  let calculation_data256 := sub_epi8 32 s.data (set1_epi8 32 48)
  let b := s.begin
  let calculation_data256 :=
    if b ≠ 0 ∨ length < 32 then realign calculation_data256 b length else calculation_data256
  reduce avx512 calculation_data256

end simd_buffer256

/-! ## The 64-byte buffer `simd_buffer512` -/

/-- State of `class simd_buffer512`: the register and the two cursors. -/
structure simd_buffer512 where
  /-- Field `__m512i data`. -/
  data : Nat
  /-- Field `int begin`. -/
  begin : Int
  /-- Field `int end`. -/
  end_ : Int
deriving DecidableEq, Repr

namespace simd_buffer512

/-- A default-constructed buffer: `begin = end = 0`; the register content `d` is arbitrary. -/
def init (d : Nat) : simd_buffer512 := { data := d, begin := 0, end_ := 0 }

/-- Member `n_left()`. -/
def n_left (s : simd_buffer512) : Int := s.end_ - s.begin

/-- Member `fill_from(const plain_type& p)`: the returned flag and the new state. -/
def fill_from (s : simd_buffer512) (p : Nat) : Bool × simd_buffer512 :=
  if s.begin ≠ s.end_ then (true, s)
  else (false, { data := p, begin := 0, end_ := 64 })

/-- Member `consume(n)`: the returned count and the new state. -/
def consume (s : simd_buffer512) (n : Int) : Int × simd_buffer512 :=
  (s.end_ - (s.begin + n), { s with begin := s.begin + n })

/-- Member `get(int idx)`. -/
def get (s : simd_buffer512) (idx : Int) : Nat := lane 8 (idx + s.begin).toNat s.data

/-- The first `len` logical bytes `get(0), ..., get(len - 1)`. -/
def logical (s : simd_buffer512) (len : Nat) : List Nat :=
  (List.range len).map (fun i : Nat => get s (i : Int))

/-- Member `equal_to<b>()`; `mask_type` is `uint64_t`. -/
def equal_to (b : Nat) (s : simd_buffer512) : Nat :=
  cmpeq_epi8_mask 64 s.data (set1_epi8 64 b) >>> s.begin.toNat

/-- Member `lt_than<b>()`. -/
def lt_than (b : Nat) (s : simd_buffer512) : Nat :=
  cmplt_epu8_mask 64 s.data (set1_epi8 64 b) >>> s.begin.toNat

/-- First loop of the realignment block of `atoi`, on the eight words of `tmp_value`:
`for (int i = 0; i < 8 && big_shift > 0; ++i)
   tmp_value[i] = i + big_shift < 8 ? tmp_value[i + big_shift] : 0;` -/
def shr_words (tmp_value : List Nat) (big_shift : Int) : List Nat :=
  [0, 1, 2, 3, 4, 5, 6, 7].foldl (fun t (i : Nat) =>
    if big_shift > 0 then
      t.set i (if (i : Int) + big_shift < 8 then t.getD (i + big_shift.toNat) 0 else 0)
    else t) tmp_value

/-- Second loop of the realignment block of `atoi`:
`for (int i = 0; i < 8 && small_shift > 0; ++i)
   tmp_value[i] = tmp_value[i] >> small_shift
                  | ((i < 7 ? tmp_value[i + 1] : 0) << (64 - small_shift));` -/
def shr_bits (tmp_value : List Nat) (small_shift : Int) : List Nat :=
  [0, 1, 2, 3, 4, 5, 6, 7].foldl (fun t (i : Nat) =>
    if small_shift > 0 then
      t.set i ((t.getD i 0 >>> small_shift.toNat)
        ||| shl64 (if i < 7 then t.getD (i + 1) 0 else 0) (64 - small_shift).toNat)
    else t) tmp_value

/-- Third loop of the realignment block of `atoi`:
`for (int i = 7; i >= 0 && big_shift > 0; --i)
   tmp_value[i] = i - big_shift >= 0 ? tmp_value[i - big_shift] : 0;` -/
def shl_words (tmp_value : List Nat) (big_shift : Int) : List Nat :=
  [7, 6, 5, 4, 3, 2, 1, 0].foldl (fun t (i : Nat) =>
    if big_shift > 0 then
      t.set i (if (i : Int) - big_shift ≥ 0 then t.getD (i - big_shift.toNat) 0 else 0)
    else t) tmp_value

/-- Fourth loop of the realignment block of `atoi`:
`for (int i = 7; i >= 0 && small_shift > 0; --i)
   tmp_value[i] = tmp_value[i] << small_shift
                  | ((i > 0 ? tmp_value[i - 1] : 0) >> (64 - small_shift));` -/
def shl_bits (tmp_value : List Nat) (small_shift : Int) : List Nat :=
  [7, 6, 5, 4, 3, 2, 1, 0].foldl (fun t (i : Nat) =>
    if small_shift > 0 then
      t.set i (shl64 (t.getD i 0) small_shift.toNat
        ||| ((if i > 0 then t.getD (i - 1) 0 else 0) >>> (64 - small_shift).toNat))
    else t) tmp_value

/-- The realignment block of `atoi` (`if (b || length < 64) { ... }`); for the
non-negative operands that occur, `b >> 3` is `b / 8` and `x << 3` is `x * 8`. -/
def realign (calculation_data512 : Nat) (b length : Int) : Nat :=
  let tmp_value := lanes 64 8 calculation_data512
  let tmp_value := shr_bits (shr_words tmp_value (b / 8)) ((b % 8) * 8)
  let tmp_value :=
    shl_bits (shl_words tmp_value ((64 - length) / 8)) (((64 - length) % 8) * 8)
  packL 64 tmp_value

/-- The reduction tree of `atoi`, applied to the realigned register. -/
def reduce (calculation_data512 : Nat) : Nat :=
  let MUL_1_8BIT := set_epi8 [1, 10, 1, 10, 1, 10, 1, 10, 1, 10, 1, 10, 1, 10, 1, 10,
                              1, 10, 1, 10, 1, 10, 1, 10, 1, 10, 1, 10, 1, 10, 1, 10,
                              1, 10, 1, 10, 1, 10, 1, 10, 1, 10, 1, 10, 1, 10, 1, 10,
                              1, 10, 1, 10, 1, 10, 1, 10, 1, 10, 1, 10, 1, 10, 1, 10]
  let c512 := maddubs_epi16 32 calculation_data512 MUL_1_8BIT
  let c256 := cvtepi16_epi8 32 c512
  let MUL_2_16BIT := set_epi8 [1, 100, 1, 100, 1, 100, 1, 100, 1, 100, 1, 100, 1, 100, 1, 100,
                               1, 100, 1, 100, 1, 100, 1, 100, 1, 100, 1, 100, 1, 100, 1, 100]
  let c2 := maddubs_epi16 16 c256 MUL_2_16BIT
  let MUL_4_32BIT := set_epi16 [1, 10000, 1, 10000, 1, 10000, 1, 10000,
                                1, 10000, 1, 10000, 1, 10000, 1, 10000]
  let c3 := madd_epi16 8 c2 MUL_4_32BIT
  let MUL_8_64BIT := set_epi32 [0, 100000000, 0, 100000000, 0, 100000000, 0, 100000000]
  let MASK_32_1 := set_epi32 [0, 0xffffffff, 0, 0xffffffff, 0, 0xffffffff, 0, 0xffffffff]
  let tmp_data := c3 &&& MASK_32_1
  let c3s := srli_epi64 4 c3 32
  let tmp_data := mullo_epi64 4 tmp_data MUL_8_64BIT
  let c4 := add_epi64 4 tmp_data c3s
  -- return result[2] * 10000000000000000 + result[3];
  u64 (lane 64 2 c4 * 10000000000000000 + lane 64 3 c4)

/-- The arithmetic of `atoi(int length)`: realignment and reduction as a function of the
state.  The member itself, with its accesses to the local arrays, is `atoi` below. -/
def atoi_value (s : simd_buffer512) (length : Int) : Nat :=
  let calculation_data512 := subs_epi8 64 s.data (set1_epi8 64 48)
  let b := s.begin
  let calculation_data512 :=
    if b ≠ 0 ∨ length < 64 then realign calculation_data512 b length else calculation_data512
  reduce calculation_data512

end simd_buffer512

/-! ## Specification-side vocabulary -/

/-- Base-`B` value of a digit list, first element most significant. -/
def hval (B : Nat) (l : List Nat) : Nat := l.foldl (fun acc d => acc * B + d) 0

/-- Base-10 value of a list of ASCII digit bytes, first byte most significant. -/
def decimalValue (bytes : List Nat) : Nat := hval 10 (bytes.map (fun c => c - 48))

/-- Every byte of the list is an ASCII digit `'0'..'9'`. -/
def allDigits (bytes : List Nat) : Prop := ∀ c ∈ bytes, 48 ≤ c ∧ c ≤ 57

instance allDigits.decidable (bytes : List Nat) : Decidable (allDigits bytes) :=
  inferInstanceAs (Decidable (∀ c ∈ bytes, 48 ≤ c ∧ c ≤ 57))

/-- The four vector-backed or packed width variants that have an `atoi(length)`. -/
inductive Variant where
  /-- The packed 7-byte buffer `simd_buffer64`. -/
  | b7
  /-- The 16-byte buffer `simd_buffer128`. -/
  | b16
  /-- The 32-byte buffer `simd_buffer256`. -/
  | b32
  /-- The 64-byte buffer `simd_buffer512`. -/
  | b64
deriving DecidableEq, Repr

/-- Capacity (`max_bytes`) of a variant. -/
def Variant.capacity : Variant → Nat
  | .b7 => 7
  | .b16 => 16
  | .b32 => 32
  | .b64 => 64

/-- The register content after moving the bytes `b, b+1, ...` of `c` so that the run of
`len` bytes starting at byte `b` ends at the top byte of an `N`-byte register, with zeros
below it. -/
def alignTop (N c b len : Nat) : Nat := c / 2 ^ (8 * b) * 2 ^ (8 * (N - len)) % 2 ^ (8 * N)

/-- The `len` bytes of the register `r` starting at byte `k`, in memory order. -/
def bytesAt (r k len : Nat) : List Nat := (List.range len).map (fun j => lane 8 (k + j) r)

/-- The register whose bytes, lowest lane first, are the given list. -/
def ofBytes (bytes : List Nat) : Nat := packL 8 bytes

/-- A 64-byte register for the examples: `"abc12345"` followed by 56 bytes `0xC8`. -/
def exampleRegister512 : Nat :=
  ofBytes ([97, 98, 99, 49, 50, 51, 52, 53] ++ List.replicate 56 200)

/-- A state of `simd_buffer512` for the examples: `begin = 3`, `end = 64`. -/
def exampleState512 : simd_buffer512 := { data := exampleRegister512, begin := 3, end_ := 64 }

/-- A 32-byte register for the examples: `"abc12345"` followed by 24 bytes `0xC8`. -/
def exampleRegister256 : Nat :=
  ofBytes ([97, 98, 99, 49, 50, 51, 52, 53] ++ List.replicate 24 200)

/-- A state of `simd_buffer256` for the examples: `begin = 3`, `end = 32`. -/
def exampleState256 : simd_buffer256 := { data := exampleRegister256, begin := 3, end_ := 32 }

/-- A 16-byte register for the examples: `"abc12345"` followed by 8 bytes `0xC8`. -/
def exampleRegister128 : Nat :=
  ofBytes ([97, 98, 99, 49, 50, 51, 52, 53] ++ List.replicate 8 200)

/-- A state of `simd_buffer128` for the examples: `begin = 3`, `end = 16`. -/
def exampleState128 : simd_buffer128 := { data := exampleRegister128, begin := 3, end_ := 16 }

/-! ## Local arrays and destination memory

The members `fill_from(simd_bufferN&)` and `store` go through local `uint8_t` arrays and a
caller-supplied destination pointer.  An array (or the memory a pointer designates) is the
list of its bytes; an access that leaves the array has no defined result (`none`). -/

/-- Store intrinsics `_mm_store_si128`, `_mm256_store_si256`, `_mm512_store_si512` to the
start of the array `arr`: the `n` bytes of the register `x` are written; defined only when
the array has at least `n` elements. -/
def vector_store (arr : List Nat) (n x : Nat) : Option (List Nat) :=
  if n ≤ arr.length then some (lanes 8 n x ++ arr.drop n) else none

/-- A vector load `*reinterpret_cast<__mNi*>(arr)` of `n` bytes from the start of the array
`arr`; defined only when the array has at least `n` elements. -/
def vector_load (arr : List Nat) (n : Nat) : Option Nat :=
  if n ≤ arr.length then some (packL 8 (arr.take n)) else none

/-- Library function `memcpy(dst + d, src + s, n)` on arrays: the count is converted to
`size_t`, so a negative `n` is out of range like every access outside the arrays. -/
def memcpy (dst : List Nat) (d : Int) (src : List Nat) (s n : Int) : Option (List Nat) :=
  if 0 ≤ d ∧ 0 ≤ s ∧ 0 ≤ n ∧ d + n ≤ dst.length ∧ s + n ≤ src.length then
    some ((List.range dst.length).map (fun i =>
      if d.toNat ≤ i ∧ i < d.toNat + n.toNat then src.getD (s.toNat + (i - d.toNat)) 0
      else dst.getD i 0))
  else none

namespace simd_buffer128

/-- Member `fill_from(simd_buffer128& other)`: the new states of `*this` and of `other`.
The local arrays are declared as `uint8_t a[8]`, `b[8]`, `c[8]`; their indeterminate
initial content is written as zeros. -/
def fill_from_other (s other : simd_buffer128) : Option (simd_buffer128 × simd_buffer128) := do
  -- uint8_t a[8]; uint8_t b[8]; uint8_t c[8] = {0, 0, 0, 0, 0, 0, 0, 0};
  let a := List.replicate 8 0
  let b := List.replicate 8 0
  let c := List.replicate 8 0
  -- _mm_store_si128(reinterpret_cast<__m128i*>(a), data);
  let a ← vector_store a 16 s.data
  -- _mm_store_si128(reinterpret_cast<__m128i*>(b), other.data);
  let b ← vector_store b 16 other.data
  -- end -= begin;
  let end_ := s.end_ - s.begin
  -- memcpy(c, a + begin, end * sizeof(uint8_t));
  let c ← memcpy c 0 a s.begin end_
  -- begin = 0;
  let begin := 0
  let add_size :=
    if (16 - end_) < (other.end_ - other.begin) then 16 - end_ else other.end_ - other.begin
  -- memcpy(c + end, b + other.begin, add_size * sizeof(uint8_t));
  let c ← memcpy c end_ b other.begin add_size
  -- end += add_size;
  let end_ := end_ + add_size
  -- _mm_store_si128(&data, *reinterpret_cast<__m128i*>(c));
  let data ← vector_load c 16
  some ({ data := data, begin := begin, end_ := end_ }, other)

/-- Member `store(uint8_t* p, int n, int overwrite_size)` (the branch compiled under
`if constexpr (false) ... else`): the memory at `p` after the call. -/
def store (s : simd_buffer128) (p : List Nat) (n overwrite_size : Int) : Option (List Nat) :=
  if n + overwrite_size ≥ 16 then vector_store p 16 s.data
  else do
    let storage ← vector_store (List.replicate 16 0) 16 s.data
    memcpy p 0 storage 0 n

/-- Member `sub<b>()`: the returned mask and the new state. -/
def sub (b : Nat) (s : simd_buffer128) : Int × simd_buffer128 :=
  let comp_mask := cmplt_epi8 16 s.data (set1_epi8 16 b)
  let data := sub_epi8 16 s.data (set1_epi8 16 b)
  (sar (movemask_epi8 16 comp_mask) s.begin, { s with data := data })

end simd_buffer128

namespace simd_buffer256

/-- Member `fill_from(simd_buffer256& other)`: the new states of `*this` and of `other`.
The local arrays are `uint8_t a[32]`, `b[32]`, `c[32]`. -/
def fill_from_other (s other : simd_buffer256) : Option (simd_buffer256 × simd_buffer256) := do
  let a := List.replicate 32 0
  let b := List.replicate 32 0
  let c := List.replicate 32 0
  -- _mm256_store_si256(reinterpret_cast<__m256i*>(a), data);
  let a ← vector_store a 32 s.data
  -- _mm256_store_si256(reinterpret_cast<__m256i*>(b), other.data);
  let b ← vector_store b 32 other.data
  -- end -= begin;
  let end_ := s.end_ - s.begin
  -- memcpy(c, a + begin, end * sizeof(uint8_t));
  let c ← memcpy c 0 a s.begin end_
  -- begin = 0;
  let begin := 0
  let add_size :=
    if (32 - end_) < (other.end_ - other.begin) then 32 - end_ else other.end_ - other.begin
  -- memcpy(c + end, b + other.begin, add_size * sizeof(uint8_t));
  let c ← memcpy c end_ b other.begin add_size
  -- end += add_size;
  let end_ := end_ + add_size
  -- _mm256_store_si256(&data, *reinterpret_cast<__m256i*>(c));
  let data ← vector_load c 32
  some ({ data := data, begin := begin, end_ := end_ }, other)

/-- Member `store(uint8_t* p, int n, int overwrite_size)`: the memory at `p` after the
call. -/
def store (s : simd_buffer256) (p : List Nat) (n overwrite_size : Int) : Option (List Nat) :=
  if n + overwrite_size ≥ 32 then vector_store p 32 s.data
  else do
    let storage ← vector_store (List.replicate 32 0) 32 s.data
    memcpy p 0 storage 0 n

/-- Member `sub<b>()`: the returned mask and the new state.  The mask of `lt_than<b>()`
passes through the local `int32_t comp_mask` and back to `uint32_t`. -/
def sub (avx512 : Bool) (b : Nat) (s : simd_buffer256) : Nat × simd_buffer256 :=
  let comp_mask : Int := toSigned 32 (lt_than avx512 b s)
  let data := sub_epi8 32 s.data (set1_epi8 32 b)
  (ofSigned 32 comp_mask, { s with data := data })

end simd_buffer256

namespace simd_buffer512

/-- Member `fill_from(simd_buffer512& other)`: the new states of `*this` and of `other`.
The local arrays are `uint8_t a[64]`, `b[64]`, `c[64]`. -/
def fill_from_other (s other : simd_buffer512) : Option (simd_buffer512 × simd_buffer512) := do
  let a := List.replicate 64 0
  let b := List.replicate 64 0
  let c := List.replicate 64 0
  -- _mm512_store_si512(reinterpret_cast<__m512i*>(a), data);
  let a ← vector_store a 64 s.data
  -- _mm512_store_si512(reinterpret_cast<__m512i*>(b), other.data);
  let b ← vector_store b 64 other.data
  -- end -= begin;
  let end_ := s.end_ - s.begin
  -- memcpy(c, a + begin, end * sizeof(uint8_t));
  let c ← memcpy c 0 a s.begin end_
  -- begin = 0;
  let begin := 0
  let add_size :=
    if (64 - end_) < (other.end_ - other.begin) then 64 - end_ else other.end_ - other.begin
  -- memcpy(c + end, b + other.begin, add_size * sizeof(uint8_t));
  let c ← memcpy c end_ b other.begin add_size
  -- end += add_size;
  let end_ := end_ + add_size
  -- _mm512_store_si512(&data, *reinterpret_cast<__m512i*>(c));
  let data ← vector_load c 64
  some ({ data := data, begin := begin, end_ := end_ }, other)

/-- Member `store(uint8_t* p, int n, int overwrite_size)`: the memory at `p` after the
call. -/
def store (s : simd_buffer512) (p : List Nat) (n overwrite_size : Int) : Option (List Nat) :=
  if n + overwrite_size ≥ 64 then vector_store p 64 s.data
  else do
    let storage ← vector_store (List.replicate 64 0) 64 s.data
    memcpy p 0 storage 0 n

/-- Member `sub<b>()`: the returned mask and the new state.  The mask of `lt_than<b>()`
passes through the local `int64_t comp_mask` and back to `uint64_t`; the subtraction is
`_mm512_sub_epi8`. -/
def sub (b : Nat) (s : simd_buffer512) : Nat × simd_buffer512 :=
  let comp_mask : Int := toSigned 64 (lt_than b s)
  let data := sub_epi8 64 s.data (set1_epi8 64 b)
  (ofSigned 64 comp_mask, { s with data := data })

end simd_buffer512

namespace simd_buffer64

/-- Member `store(uint8_t* p, int n)`: the memory at `p` after the loop
`for (int i = 0; i < n; ++i, ++p) *p = get(i);`. -/
def store (s : simd_buffer64) (p : List Nat) (n : Int) : Option (List Nat) :=
  (List.range n.toNat).foldlM
    (fun mem (i : Nat) => if i < mem.length then some (mem.set i (get s (i : Int))) else none) p

end simd_buffer64

/-! ## The scalar 1-byte buffer `simd_buffer8` -/

/-- State of `class simd_buffer8`: the byte and the byte count. -/
structure simd_buffer8 where
  /-- Field `uint8_t data`. -/
  data : Nat
  /-- Field `int n_bytes`. -/
  n_bytes : Int
deriving DecidableEq, Repr

namespace simd_buffer8

/-- A default-constructed buffer. -/
def init : simd_buffer8 := { data := 0, n_bytes := 0 }

/-- Member `n_left()`. -/
def n_left (s : simd_buffer8) : Int := s.n_bytes

/-- Member `get()`. -/
def get (s : simd_buffer8) : Nat := s.data

/-- Member `fill_from(const uint8_t& u)`. -/
def fill_from (_s : simd_buffer8) (u : Nat) : simd_buffer8 := { data := u, n_bytes := 1 }

/-- Member `consume()`. -/
def consume (s : simd_buffer8) : simd_buffer8 := { s with n_bytes := 0 }

/-- Member `equal_to<b>()`. -/
def equal_to (b : Nat) (s : simd_buffer8) : Bool := decide (s.data = b)

/-- Member `lt_than<b>()`. -/
def lt_than (b : Nat) (s : simd_buffer8) : Bool := decide (s.data < b)

/-- Member `sub<b>()`: `data -= b; return data < (255 - b);`.  The assignment truncates to
`uint8_t`; the comparison is made on `int` operands. -/
def sub (b : Nat) (s : simd_buffer8) : Bool × simd_buffer8 :=
  let data := ((s.data : Int) - (b : Int)) % 256
  (decide (data < 255 - (b : Int)), { s with data := data.toNat })

end simd_buffer8

/-! ## Erasing, compile-time indexing and `wanna_fill` -/

/-- A left shift `x << s` of a `uint64_t` by an `int` count; the behaviour is undefined
(`none`) when the count is negative or not below 64. -/
def shl64_checked (x : Nat) (s : Int) : Option Nat :=
  if 0 ≤ s ∧ s < 64 then some (shl64 x s.toNat) else none

namespace simd_buffer128

/-- Member `wanna_fill()`. -/
def wanna_fill (s : simd_buffer128) : Bool := decide (s.end_ - s.begin < 8)

/-- Member template `get<idx>()`.  `_mm_cvtsi128_si32` and `_mm_cvtsi128_si64` give the low
32 and 64 bits as signed integers, `_mm_extract_epi16` a zero-extended 16-bit lane; the
result of the shift is converted to `uint8_t`. -/
def get_const (idx : Nat) (s : simd_buffer128) : Nat :=
  if idx < 4 then ofSigned 8 (sar (toSigned 32 (lane 32 0 s.data)) (idx : Int))
  else if idx < 8 then ofSigned 8 (sar (toSigned 64 (lane 64 0 s.data)) (idx : Int))
  else ofSigned 8 (sar ((lane 16 (idx >>> 1) s.data : Nat) : Int) (((idx &&& 1) <<< 3 : Nat) : Int))

/-- Member `erase_and_shift_left(int idx)` on the two words `tmp_storage[0]`,
`tmp_storage[1]`. -/
def erase_and_shift_left (s : simd_buffer128) (idx : Int) : Option simd_buffer128 := do
  -- idx += begin;
  let idx := idx + s.begin
  let t0 := lane 64 0 s.data
  let t1 := lane 64 1 s.data
  -- uint64_t *processed_part = tmp_storage + (idx > 7);
  let second := decide (idx > 7)
  let part := if second then t1 else t0
  -- idx &= ~8;
  let idx := idx - 8 * (idx / 8 % 2)
  -- idx = (idx + 1) << 3;
  let idx := (idx + 1) * 8
  -- uint64_t u2 = (UINT64_C(1) << idx) - 1;
  let one ← shl64_checked 1 idx
  let u2 := sub64 one 1
  -- uint64_t u1 = u2 >> 8;
  let u1 := u2 >>> 8
  -- *processed_part = ((*processed_part) & ~u2) | (((*processed_part) & u1) << 8);
  let part := (part &&& not64 u2) ||| shl64 (part &&& u1) 8
  -- if (processed_part != tmp_storage) { *processed_part |= (*tmp_storage) >> 56; *tmp_storage <<= 8; }
  let t1 := if second then part ||| (t0 >>> 56) else t1
  let t0 := if second then shl64 t0 8 else part
  -- ++begin;
  some { data := packL 64 [t0, t1], begin := s.begin + 1, end_ := s.end_ }

end simd_buffer128

namespace simd_buffer256

/-- Member `wanna_fill()`. -/
def wanna_fill (s : simd_buffer256) : Bool := decide (s.end_ - s.begin < 16)

/-- One level of the nested `if (processed_part >= tmp_storage)` of
`erase_and_shift_left`, for the word `j` below the one just written:
`*(processed_part + 1) |= *processed_part >> 56; *processed_part-- <<= 8;`. -/
def erase_carry (t : List Nat) (j : Nat) : List Nat :=
  let t := t.set (j + 1) (t.getD (j + 1) 0 ||| (t.getD j 0 >>> 56))
  t.set j (shl64 (t.getD j 0) 8)

/-- Member `erase_and_shift_left(int idx)` on the four words of `tmp_storage`. -/
def erase_and_shift_left (s : simd_buffer256) (idx : Int) : Option simd_buffer256 := do
  -- idx += begin;
  let idx := idx + s.begin
  let t := lanes 64 4 s.data
  -- uint64_t *processed_part = tmp_storage + (idx > 7) + (idx > 15) + (idx > 23);
  let w : Nat := (if idx > 7 then 1 else 0) + (if idx > 15 then 1 else 0) + (if idx > 23 then 1 else 0)
  -- idx &= ~24;
  let idx := idx - 8 * (idx / 8 % 4)
  -- idx = (idx + 1) << 3;
  let idx := (idx + 1) * 8
  -- uint64_t u2 = (UINT64_C(1) << idx) - 1;
  let one ← shl64_checked 1 idx
  let u2 := sub64 one 1
  -- uint64_t u1 = u2 >> 8;
  let u1 := u2 >>> 8
  -- *processed_part = ((*processed_part) & ~u2) | (((*processed_part) & u1) << 8);
  let t := t.set w ((t.getD w 0 &&& not64 u2) ||| shl64 (t.getD w 0 &&& u1) 8)
  -- --processed_part; if (processed_part >= tmp_storage) { ... three levels ... }
  let t := if w ≥ 1 then erase_carry t (w - 1) else t
  let t := if w ≥ 2 then erase_carry t (w - 2) else t
  let t := if w ≥ 3 then erase_carry t (w - 3) else t
  -- ++begin;
  some { data := packL 64 t, begin := s.begin + 1, end_ := s.end_ }

end simd_buffer256

namespace simd_buffer512

/-- Member `wanna_fill()`. -/
def wanna_fill (s : simd_buffer512) : Bool := decide (s.end_ - s.begin < 32)

/-- The statements of `erase_and_shift_left` that remove byte `small_shift` from one word:
`mask_low = (UINT64_C(1) << (small_shift * 8)) - 1; mask_high = ~mask_low << 8;` and the
value `((w & mask_high) >> 8) | (w & mask_low)` assigned to `storage[big_shift]`. -/
def erase_in_word (small_shift : Int) (w : Nat) : Nat :=
  let mask_low := sub64 (shl64 1 (small_shift * 8).toNat) 1
  let mask_high := shl64 (not64 mask_low) 8
  ((w &&& mask_high) >>> 8) ||| (w &&& mask_low)

/-- The loop of `erase_and_shift_left`, for `big_shift` running down to 1:
`while (big_shift) { storage[big_shift] = (storage[big_shift] << 8)
                                          | (storage[big_shift - 1] >> 56); --big_shift; }`. -/
def erase_loop (storage : List Nat) (big_shift : Nat) : List Nat :=
  (List.range big_shift).reverse.foldl (fun t (j : Nat) =>
    t.set (j + 1) (shl64 (t.getD (j + 1) 0) 8 ||| (t.getD j 0 >>> 56))) storage

/-- Member `erase_and_shift_left(int idx)` on the eight words of `storage`; for the
non-negative `idx` that occur, `idx & 7` is `idx % 8` and `idx >> 3` is `idx / 8`. -/
def erase_and_shift_left (s : simd_buffer512) (idx : Int) : simd_buffer512 :=
  -- idx += begin;
  let idx := idx + s.begin
  let storage := lanes 64 8 s.data
  let small_shift := idx % 8
  let big_shift := (idx / 8).toNat
  -- storage[big_shift] = ((storage[big_shift] & mask_high) >> 8) | (storage[big_shift] & mask_low);
  let storage := storage.set big_shift (erase_in_word small_shift (storage.getD big_shift 0))
  -- while (big_shift) { ...; --big_shift; }
  let storage := erase_loop storage big_shift
  -- storage[big_shift] <<= 8;   (big_shift is 0 after the loop)
  let storage := storage.set 0 (shl64 (storage.getD 0 0) 8)
  -- ++begin;
  { data := packL 64 storage, begin := s.begin + 1, end_ := s.end_ }

end simd_buffer512

namespace simd_buffer64

/-- Member `erase_and_shift_left(int idx)`. -/
def erase_and_shift_left (s : simd_buffer64) (idx : Int) : simd_buffer64 :=
  -- uint64_t u2 = (UINT64_C(1) << ((max_bytes - idx) * 9)) - 1;
  let u2 := sub64 (shl64 1 ((max_bytes - idx) * 9).toNat) 1
  -- uint64_t u1 = u2 >> 9;
  let u1 := u2 >>> 9
  -- data = ( ( data & u1 ) << 9 ) | (data & ~u2);  n_bytes -= 1;
  { data := shl64 (s.data &&& u1) 9 ||| (s.data &&& not64 u2), n_bytes := s.n_bytes - 1 }

/-- A call of `consume(n)`, of `erase_and_shift_left(idx)` or of `sub<b>()`. -/
inductive Call where
  /-- The call `consume(n)`. -/
  | consume (n : Nat)
  /-- The call `erase_and_shift_left(idx)`. -/
  | erase (idx : Nat)
  /-- The call `sub<b>()`. -/
  | sub (b : Nat)
deriving DecidableEq, Repr

/-- The state after a sequence of calls, each made within its precondition
(`n ≤ n_left()`, `idx < n_left()`, the template argument `b` a `uint8_t`); `none` when a
call is made outside it. -/
def run_calls (s : simd_buffer64) : List Call → Option simd_buffer64
  | [] => some s
  | Call.consume n :: cs =>
    if (n : Int) ≤ n_left s then run_calls (consume s (n : Int)).2 cs else none
  | Call.erase idx :: cs =>
    if (idx : Int) < n_left s then run_calls (erase_and_shift_left s (idx : Int)) cs else none
  | Call.sub b :: cs =>
    if b ≤ 255 then run_calls (sub b s).2 cs else none

/-- No lane borrows in `sub<b>()`: every byte `get(i)` with `i < n_left()` is at least
`b`. -/
def no_borrow (b : Nat) (s : simd_buffer64) : Bool :=
  (List.range (n_left s).toNat).all (fun i => decide (b ≤ get s (i : Int)))

/-- Every `sub<b>()` of the sequence of calls is made on a state in which no lane
borrows. -/
def subs_without_borrow (s : simd_buffer64) : List Call → Bool
  | [] => true
  | Call.consume n :: cs => subs_without_borrow (consume s (n : Int)).2 cs
  | Call.erase idx :: cs => subs_without_borrow (erase_and_shift_left s (idx : Int)) cs
  | Call.sub b :: cs => no_borrow b s && subs_without_borrow (sub b s).2 cs

end simd_buffer64

/-! ## `atoi` with the shift counts and the local arrays checked

The realignment blocks of `simd_buffer128::atoi` and `simd_buffer256::atoi` shift
`uint64_t` words by counts computed from `begin` and `length`.  The definitions
`simd_buffer128.atoi` and `simd_buffer256.atoi_value` above read every shift as the shift of
the mathematical value (a count of 64 gives 0); the definitions below have no result
(`none`) as soon as a shift that is executed has a count outside `0 .. 63`.

`simd_buffer256::atoi` and `simd_buffer512::atoi` move the register through local arrays
declared as `uint64_t tmp_value[4]`, `uint64_t intermediate_storage[4]`,
`uint64_t tmp_value[8]` and `uint64_t result[4]` with the aligned intrinsics
`_mm256_store_si256` and `_mm512_store_si512`.  The address at which an array is placed is
chosen by the compiler: the declaration asks for a multiple of 8, the x86-64 ABI gives a
local array of at least 16 bytes a multiple of 16 (which covers the 16-byte accesses of the
three classes), the 32- and 64-byte intrinsics need a multiple of 32 and 64.  The addresses
are parameters of these two members, and an access at an address that is not aligned has no
result (`none`).  The local arrays of the other members (the merge, `store`,
`erase_and_shift_left`) are modelled as byte lists and words, without addresses. -/

/-- An aligned vector access of `n` bytes (`_mm256_store_si256`, `_mm512_store_si512`, the
dereference of a `__m256i*` or `__m512i*`) at the address `addr`; the behaviour is undefined
(`none`) unless the address is a multiple of `n`. -/
def aligned_access (n addr : Nat) : Option Unit :=
  if addr % n = 0 then some () else none

/-- A right shift `x >> s` of a `uint64_t` by an `int` count; the behaviour is undefined
(`none`) when the count is negative or not below 64. -/
def shr64_checked (x : Nat) (s : Int) : Option Nat :=
  if 0 ≤ s ∧ s < 64 then some (x >>> s.toNat) else none

namespace simd_buffer128

/-- First half of the realignment block of `atoi`, shift counts checked. -/
def realign_shr_checked (t0 t1 : Nat) (b : Int) : Option (Nat × Nat) := do
  -- if (b > 7) { b -= 8; tmp_value[0] = tmp_value[1]; tmp_value[1] = 0; }
  let t0a := if b > 7 then t1 else t0
  let t1a := if b > 7 then 0 else t1
  let b1 := if b > 7 then b - 8 else b
  -- b <<= 3;
  let b2 := b1 * 8
  -- tmp_value[0] = (tmp_value[0] >> b) | (b ? (tmp_value[1] << (64 - b)) : 0);
  let lo ← shr64_checked t0a b2
  let hi ← if b2 ≠ 0 then shl64_checked t1a (64 - b2) else some 0
  -- tmp_value[1] >>= b;
  let t1b ← shr64_checked t1a b2
  some (lo ||| hi, t1b)

/-- Second half of the realignment block of `atoi`, shift counts checked. -/
def realign_shl_checked (t0 t1 : Nat) (length : Int) : Option (Nat × Nat) := do
  -- if (length < 9) { length += 8; tmp_value[1] = tmp_value[0]; tmp_value[0] = 0; }
  let t1c := if length < 9 then t0 else t1
  let t0c := if length < 9 then 0 else t0
  let l1 := if length < 9 then length + 8 else length
  -- length = (16 - length) << 3;
  let l2 := (16 - l1) * 8
  -- tmp_value[1] = (tmp_value[1] << length) | (length ? (tmp_value[0] >> (64 - length)) : 0);
  let hi ← shl64_checked t1c l2
  let lo ← if l2 ≠ 0 then shr64_checked t0c (64 - l2) else some 0
  -- tmp_value[0] <<= length;
  let t0d ← shl64_checked t0c l2
  some (t0d, hi ||| lo)

/-- The realignment block of `atoi`, shift counts checked. -/
def realign_checked (calculation_data : Nat) (b length : Int) : Option Nat := do
  let r ← realign_shr_checked (lane 64 0 calculation_data) (lane 64 1 calculation_data) b
  let l ← realign_shl_checked r.1 r.2 length
  some (packL 64 [l.1, l.2])

/-- Member `atoi(int length)`, shift counts checked. -/
def atoi_checked (ssse3 : Bool) (s : simd_buffer128) (length : Int) : Option Nat := do
  let calculation_data := sub_epi8 16 s.data (set1_epi8 16 48)
  let b := s.begin
  let calculation_data ←
    if b ≠ 0 ∨ length < 16 then realign_checked calculation_data b length
    else some calculation_data
  some (reduce ssse3 calculation_data)

end simd_buffer128

namespace simd_buffer256

/-- The block `if (b) { b <<= 3; ... }` of `atoi`, shift counts checked. -/
def shr_bits_checked (t : Words4) (b : Int) : Option Words4 :=
  if b ≠ 0 then do
    let b2 := b * 8
    let a0 ← shr64_checked t.w0 b2
    let c0 ← shl64_checked t.w1 (64 - b2)
    let a1 ← shr64_checked t.w1 b2
    let c1 ← shl64_checked t.w2 (64 - b2)
    let a2 ← shr64_checked t.w2 b2
    let c2 ← shl64_checked t.w3 (64 - b2)
    let a3 ← shr64_checked t.w3 b2
    some { w0 := a0 ||| c0, w1 := a1 ||| c1, w2 := a2 ||| c2, w3 := a3 }
  else some t

/-- The block `if (length) { length <<= 3; ... }` of `atoi`, shift counts checked. -/
def shl_bits_checked (t : Words4) (length : Int) : Option Words4 :=
  if length ≠ 0 then do
    let l2 := length * 8
    let a3 ← shl64_checked t.w3 l2
    let c3 ← shr64_checked t.w2 (64 - l2)
    let a2 ← shl64_checked t.w2 l2
    let c2 ← shr64_checked t.w1 (64 - l2)
    let a1 ← shl64_checked t.w1 l2
    let c1 ← shr64_checked t.w0 (64 - l2)
    let a0 ← shl64_checked t.w0 l2
    some { w3 := a3 ||| c3, w2 := a2 ||| c2, w1 := a1 ||| c1, w0 := a0 }
  else some t

/-- The realignment block of `atoi`, shift counts checked. -/
def realign_checked (calculation_data256 : Nat) (b length : Int) : Option Nat := do
  let t : Words4 :=
    { w0 := lane 64 0 calculation_data256, w1 := lane 64 1 calculation_data256,
      w2 := lane 64 2 calculation_data256, w3 := lane 64 3 calculation_data256 }
  let r ← shr_bits_checked (shr_words t b) (shr_count b)
  -- length = 32 - length;
  let length := 32 - length
  let l ← shl_bits_checked (shl_words r length) (shl_count length)
  some (packL 64 [l.w0, l.w1, l.w2, l.w3])

/-- Member `atoi(int length)`.  `tmp_value` and `intermediate_storage` are the addresses of
the two local arrays of these names; the second array exists only without
`__AVX512VL__ && __AVX512BW__`. -/
def atoi (avx512 : Bool) (tmp_value intermediate_storage : Nat) (s : simd_buffer256)
    (length : Int) : Option Nat := do
  let calculation_data256 := sub_epi8 32 s.data (set1_epi8 32 48)
  let b := s.begin
  let calculation_data256 ←
    if b ≠ 0 ∨ length < 32 then do
      -- uint64_t tmp_value[4];
      -- _mm256_store_si256(reinterpret_cast<__m256i*>(tmp_value), calculation_data256);
      aligned_access 32 tmp_value
      -- ... _mm256_store_si256(&calculation_data256, *reinterpret_cast<__m256i*>(tmp_value));
      realign_checked calculation_data256 b length
    else some calculation_data256
  -- uint64_t intermediate_storage[4];
  -- _mm256_store_si256(reinterpret_cast<__m256i*>(intermediate_storage), tmp256);
  if avx512 then some () else aligned_access 32 intermediate_storage
  some (reduce avx512 calculation_data256)

end simd_buffer256

namespace simd_buffer512

/-- Member `atoi(int length)`.  `tmp_value` and `result` are the addresses of the two local
arrays of these names.  The shifts of the realignment loops run only for
`small_shift > 0`, with counts `small_shift` and `64 - small_shift` between 8 and 56. -/
def atoi (tmp_value result : Nat) (s : simd_buffer512) (length : Int) : Option Nat := do
  let calculation_data512 := subs_epi8 64 s.data (set1_epi8 64 48)
  let b := s.begin
  let calculation_data512 ←
    if b ≠ 0 ∨ length < 64 then do
      -- uint64_t tmp_value[8];
      -- _mm512_store_si512(reinterpret_cast<__m512i*>(tmp_value), calculation_data512);
      aligned_access 64 tmp_value
      -- ... _mm512_store_si512(&calculation_data512, *reinterpret_cast<__m512i*>(tmp_value));
      some (realign calculation_data512 b length)
    else some calculation_data512
  -- uint64_t result[4];
  -- _mm256_store_si256(reinterpret_cast<__m256i*>(result), calculation_data256);
  aligned_access 32 result
  some (reduce calculation_data512)

end simd_buffer512

/-- The scenario "fill a default-constructed buffer with the register `r`, consume `o`
bytes, call `atoi(len)`" on a variant.  `ssse3` and `avx512` are the build alternatives,
`d` the uninitialised register content of the default-constructed vector buffers, `a1` and
`a2` the addresses of the two local arrays of `simd_buffer256::atoi` and
`simd_buffer512::atoi`. -/
def atoiAt (ssse3 avx512 : Bool) (d a1 a2 : Nat) (v : Variant) (r o len : Nat) : Option Nat :=
  match v with
  | .b7 => some (simd_buffer64.atoi
      (simd_buffer64.consume (simd_buffer64.fill_from simd_buffer64.init r 7).2 (o : Int)).2
      (len : Int))
  | .b16 => some (simd_buffer128.atoi ssse3
      (simd_buffer128.consume (simd_buffer128.fill_from (simd_buffer128.init d) r).2
        (o : Int)).2 (len : Int))
  | .b32 => simd_buffer256.atoi avx512 a1 a2
      (simd_buffer256.consume (simd_buffer256.fill_from (simd_buffer256.init d) r).2
        (o : Int)).2 (len : Int)
  | .b64 => simd_buffer512.atoi a1 a2
      (simd_buffer512.consume (simd_buffer512.fill_from (simd_buffer512.init d) r).2
        (o : Int)).2 (len : Int)

/-! ## `sixit/core/cpual/integer_math.h` -/

/-- Function `umult64x64_default(a, b, low, high)`: the pair `(low, high)` it leaves in its
two reference parameters.  `a_arr = (uint32_t*)(&a)` views the 64-bit operand as two 32-bit
words; on a little-endian target `a_arr[0]` is the low word and `a_arr[1]` the high one. -/
def umult64x64_default (a b : Nat) : Nat × Nat :=
  let a_arr0 := lane 32 0 a
  let a_arr1 := lane 32 1 a
  let b_arr0 := lane 32 0 b
  let b_arr1 := lane 32 1 b
  -- low = uint64_t(a_arr[0]) * b_arr[0];
  let low := u64 (a_arr0 * b_arr0)
  -- high = uint64_t(a_arr[1]) * b_arr[1];
  let high := u64 (a_arr1 * b_arr1)
  -- middle = uint64_t(a_arr[0]) * b_arr[1];
  let middle := u64 (a_arr0 * b_arr1)
  -- tmp = middle;
  let tmp := middle
  -- middle += uint64_t(a_arr[1]) * b_arr[0];
  let middle := u64 (middle + u64 (a_arr1 * b_arr0))
  -- high += uint64_t(middle < tmp) << 32;
  let high := u64 (high + shl64 (if middle < tmp then 1 else 0) 32)
  -- tmp = low;
  let tmp := low
  -- low += middle << 32;
  let low := u64 (low + shl64 middle 32)
  -- high += (middle >> 32) + (low < tmp);
  let high := u64 (high + u64 ((middle >>> 32) + (if low < tmp then 1 else 0)))
  (low, high)

/-! ## `sixit/core/guidelines.h`: `is_representable` and `narrow_cast` -/

/-- An integral type, by `std::is_signed_v` and its width in bits. -/
structure IntegralType where
  /-- The value of `std::is_signed_v<T>`. -/
  is_signed : Bool
  /-- The number of bits, `8 * sizeof(T)`. -/
  bits : Nat
deriving DecidableEq, Repr

/-- The value `std::numeric_limits<T>::max()`. -/
def IntegralType.max (t : IntegralType) : Int :=
  if t.is_signed then 2 ^ (t.bits - 1) - 1 else 2 ^ t.bits - 1

/-- The value `std::numeric_limits<T>::lowest()`. -/
def IntegralType.lowest (t : IntegralType) : Int :=
  if t.is_signed then -(2 ^ (t.bits - 1)) else 0

/-- Type `int8_t`. -/
def int8_t : IntegralType := { is_signed := true, bits := 8 }

/-- Type `uint8_t`. -/
def uint8_t : IntegralType := { is_signed := false, bits := 8 }

/-- Type `int32_t`. -/
def int32_t : IntegralType := { is_signed := true, bits := 32 }

/-- Type `uint32_t`. -/
def uint32_t : IntegralType := { is_signed := false, bits := 32 }

/-- Type `int64_t`. -/
def int64_t : IntegralType := { is_signed := true, bits := 64 }

/-- Type `uint64_t`. -/
def uint64_t : IntegralType := { is_signed := false, bits := 64 }

/-- The functional cast `unsigned(value)`: conversion to `unsigned int`, which is 32 bits
wide; the value is reduced modulo `2 ^ 32`. -/
def cast_unsigned (value : Int) : Int := value % 2 ^ 32

/-- The functional cast `signed(value)`: conversion to `int`, which is 32 bits wide; the
value is reduced modulo `2 ^ 32` into `-2 ^ 31 .. 2 ^ 31 - 1`. -/
def cast_signed (value : Int) : Int := toSigned 32 (ofSigned 32 value)

/-- Function template `is_representable<OutputT>(auto value)` with `InputT = decltype(value)`.
The three `if constexpr` conditions exclude each other and cover every pair of types.  The
comparisons are between integers of one signedness, so they compare the values. -/
def is_representable (InputT OutputT : IntegralType) (value : Int) : Bool :=
  if InputT.is_signed = true ∧ OutputT.is_signed = false then
    -- return value >= 0 && unsigned(value) <= std::numeric_limits<OutputT>::max();
    decide (value ≥ 0) && decide (cast_unsigned value ≤ OutputT.max)
  else if InputT.is_signed = false ∧ OutputT.is_signed = true then
    -- return signed(value) <= std::numeric_limits<OutputT>::max() && signed(value) >= 0;
    decide (cast_signed value ≤ OutputT.max) && decide (cast_signed value ≥ 0)
  else
    -- return value <= std::numeric_limits<OutputT>::max()
    --     && value >= std::numeric_limits<OutputT>::lowest();
    decide (value ≤ OutputT.max) && decide (value ≥ OutputT.lowest)

/-- The conversion `static_cast<OutputT>(value)` between integral types: the value is
reduced modulo `2 ^ bits` into the range of `OutputT`. -/
def static_cast (OutputT : IntegralType) (value : Int) : Int :=
  if OutputT.is_signed then toSigned OutputT.bits (ofSigned OutputT.bits value)
  else (ofSigned OutputT.bits value : Nat)

/-- Function template `narrow_cast<OutputT>(auto value)`: `none` when the `assert` on
`is_representable<OutputT>(value)` fails, the converted value otherwise. -/
def narrow_cast (InputT OutputT : IntegralType) (value : Int) : Option Int :=
  if is_representable InputT OutputT value then some (static_cast OutputT value) else none

/-! ## `sixit/core/testing/test.h`: `presume_no_throw` and `presume_throws`

A call `l()` of the callable either completes (`Except.ok`) or throws (`Except.error`);
the functions complete (`Except.ok`) or throw `assumption_failed` (`Except.error`). -/

/-- Exception class `assumption_failed` with its member `reason`. -/
structure assumption_failed where
  /-- Member `std::string reason`. -/
  reason : String
deriving DecidableEq, Repr

/-- Overload `presume_no_throw(L&& l, std::string reason)`. -/
def presume_no_throw {ε : Type} (l : Unit → Except ε Unit) (reason : String) :
    Except assumption_failed Unit :=
  -- try { l(); } catch (...) { throw assumption_failed{ reason }; }
  match l () with
  | Except.ok _ => Except.ok ()
  | Except.error _ => Except.error { reason := reason }

/-- Overload `presume_throws(L&& l, std::string reason)`. -/
def presume_throws {ε : Type} (l : Unit → Except ε Unit) (reason : String) :
    Except assumption_failed Unit :=
  -- bool ok = false; try { l(); } catch (...) { ok = true; }
  let ok : Bool :=
    match l () with
    | Except.ok _ => false
    | Except.error _ => true
  -- if (!ok) { throw assumption_failed{ reason }; }
  if !ok then Except.error { reason := reason } else Except.ok ()

/-- Overload `presume_throws(L&& l)`; its body is
`presume_no_throw(std::move(l), "'throws' assumption failed");`. -/
def presume_throws_default {ε : Type} (l : Unit → Except ε Unit) :
    Except assumption_failed Unit :=
  presume_no_throw l "\x27throws\x27 assumption failed"

/-- Overload `presume_throws(L&& l, const char* file, uint32_t line)`; the reason is built by
`fmt::format("file \"{}\", line {}: 'throws' assumption failed", file, line)`. -/
def presume_throws_at {ε : Type} (l : Unit → Except ε Unit) (file : String) (line : Nat) :
    Except assumption_failed Unit :=
  let reason := "file \x22" ++ file ++ "\x22, line " ++ toString line
    ++ ": \x27throws\x27 assumption failed"
  presume_throws l reason

/-- A 64-byte state whose register holds 64 ASCII digits (byte `i` is the digit
`(7 * i + 3) mod 10`), with `begin = 0` and `end = 64`. -/
def exampleDigits512 : simd_buffer512 :=
  { data := ofBytes ((List.range 64).map (fun i => 48 + (i * 7 + 3) % 10)),
    begin := 0, end_ := 64 }

/-- The packed 7-byte buffer after `fill_from(u, 7)` with `u = "1234567"` on a
default-constructed buffer. -/
def exampleFilled64 : simd_buffer64 :=
  (simd_buffer64.fill_from simd_buffer64.init (ofBytes [49, 50, 51, 52, 53, 54, 55]) 7).2

/-- The 16-byte buffer after `fill_from` with `"1234567"` followed by nine bytes `'0'` on a
default-constructed buffer. -/
def exampleFilled128 : simd_buffer128 :=
  (simd_buffer128.fill_from (simd_buffer128.init 0)
    (ofBytes ([49, 50, 51, 52, 53, 54, 55] ++ List.replicate 9 48))).2

/-! ## The cursors of the 16-, 32- and 64-byte buffers -/

/-- The cursor invariant `0 ≤ begin ≤ end ≤ capacity`. -/
def cursors_ok (capacity : Nat) (begin end_ : Int) : Prop :=
  0 ≤ begin ∧ begin ≤ end_ ∧ end_ ≤ (capacity : Int)

instance cursors_ok.decidable (capacity : Nat) (begin end_ : Int) :
    Decidable (cursors_ok capacity begin end_) := by
  unfold cursors_ok
  infer_instance

namespace simd_buffer128

end simd_buffer128

namespace simd_buffer256

end simd_buffer256

end Sixit

/-! ## Lane algebra -/

namespace Sixit

theorem lane_lt (w i x : Nat) : lane w i x < 2 ^ w :=
  Nat.mod_lt _ (Nat.two_pow_pos _)

theorem lane_zero_idx (w x : Nat) : lane w 0 x = x % 2 ^ w := by
  simp [lane]

theorem lane_cons_zero (w a : Nat) (r : Nat) : lane w 0 (a % 2 ^ w + 2 ^ w * r) = a % 2 ^ w := by
  rw [lane_zero_idx, Nat.add_mul_mod_self_left, Nat.mod_mod]

theorem lane_cons_succ (w i a r : Nat) :
    lane w (i + 1) (a % 2 ^ w + 2 ^ w * r) = lane w i r := by
  unfold lane
  have h : 2 ^ (w * (i + 1)) = 2 ^ w * 2 ^ (w * i) := by
    rw [Nat.mul_succ, Nat.pow_add, Nat.mul_comm]
  rw [h, ← Nat.div_div_eq_div_mul, Nat.add_mul_div_left _ _ (Nat.two_pow_pos _),
    Nat.div_eq_of_lt (Nat.mod_lt _ (Nat.two_pow_pos _)), Nat.zero_add]

theorem lane_packL (w : Nat) (l : List Nat) (i : Nat) :
    lane w i (packL w l) = l.getD i 0 % 2 ^ w := by
  induction l generalizing i with
  | nil => simp [packL, lane]
  | cons a as ih =>
    cases i with
    | zero => simp [packL, lane_cons_zero]
    | succ i => simp [packL, lane_cons_succ, ih]

theorem lane_mkLanes (w n : Nat) (g : Nat → Nat) (i : Nat) (h : i < n) :
    lane w i (mkLanes w n g) = g i % 2 ^ w := by
  unfold mkLanes
  rw [lane_packL]
  simp [List.getD, h]

theorem lane_mkLanes_of_le (w n : Nat) (g : Nat → Nat) (i : Nat) (h : n ≤ i) :
    lane w i (mkLanes w n g) = 0 := by
  unfold mkLanes
  rw [lane_packL]
  have : ((List.range n).map g)[i]? = none := by
    apply List.getElem?_eq_none; simpa using h
  simp [List.getD, this]

theorem packL_lt (w : Nat) (l : List Nat) : packL w l < 2 ^ (w * l.length) := by
  induction l with
  | nil => simp [packL]
  | cons a as ih =>
    simp only [packL, List.length_cons, Nat.mul_succ, Nat.pow_add]
    have h1 : a % 2 ^ w < 2 ^ w := Nat.mod_lt _ (Nat.two_pow_pos _)
    have h2 : packL w as + 1 ≤ 2 ^ (w * as.length) := ih
    calc a % 2 ^ w + 2 ^ w * packL w as < 2 ^ w + 2 ^ w * packL w as := by omega
      _ = 2 ^ w * (packL w as + 1) := by ring
      _ ≤ 2 ^ w * 2 ^ (w * as.length) := Nat.mul_le_mul_left _ h2
      _ = 2 ^ (w * as.length) * 2 ^ w := Nat.mul_comm _ _

theorem mkLanes_lt (w n : Nat) (g : Nat → Nat) : mkLanes w n g < 2 ^ (w * n) := by
  have := packL_lt w ((List.range n).map g)
  simpa [mkLanes] using this

/-- Lane of a right shift by whole lanes. -/
theorem lane_div (w j k x : Nat) : lane w j (x / 2 ^ (w * k)) = lane w (j + k) x := by
  unfold lane
  rw [Nat.div_div_eq_div_mul, ← Nat.pow_add, ← Nat.mul_add, Nat.add_comm k j]

/-- Lane of a left shift by whole lanes. -/
theorem lane_mul (w j s x : Nat) :
    lane w j (x * 2 ^ (w * s)) = if j < s then 0 else lane w (j - s) x := by
  unfold lane
  split
  · rename_i h
    obtain ⟨d, rfl⟩ : ∃ d, s = j + (d + 1) := ⟨s - j - 1, by omega⟩
    have : x * 2 ^ (w * (j + (d + 1))) = (x * 2 ^ (w * d) * 2 ^ w) * 2 ^ (w * j) := by
      rw [Nat.mul_add, Nat.mul_add, Nat.pow_add, Nat.pow_add, Nat.mul_one]; ring
    rw [this, Nat.mul_div_cancel _ (Nat.two_pow_pos _), Nat.mul_mod_left]
  · rename_i h
    obtain ⟨d, rfl⟩ : ∃ d, j = s + d := ⟨j - s, by omega⟩
    have : 2 ^ (w * (s + d)) = 2 ^ (w * d) * 2 ^ (w * s) := by
      rw [Nat.mul_add, Nat.pow_add, Nat.mul_comm]
    rw [this, Nat.mul_div_mul_right _ _ (Nat.two_pow_pos _), Nat.add_sub_cancel_left]

/-- Lane of a truncation to whole lanes. -/
theorem lane_mod (w j n x : Nat) :
    lane w j (x % 2 ^ (w * n)) = if j < n then lane w j x else 0 := by
  unfold lane
  split
  · rename_i h
    obtain ⟨d, rfl⟩ : ∃ d, n = j + (d + 1) := ⟨n - j - 1, by omega⟩
    have : 2 ^ (w * (j + (d + 1))) = 2 ^ (w * j) * (2 ^ w * 2 ^ (w * d)) := by
      rw [Nat.mul_add, Nat.mul_add, Nat.pow_add, Nat.pow_add, Nat.mul_one,
        Nat.mul_comm (2 ^ (w * d))]
    rw [this, Nat.mod_mul_right_div_self, Nat.mod_mul_right_mod]
  · rename_i h
    have hle : 2 ^ (w * n) ≤ 2 ^ (w * j) :=
      Nat.pow_le_pow_right (by decide) (Nat.mul_le_mul_left _ (by omega))
    rw [Nat.div_eq_of_lt (lt_of_lt_of_le (Nat.mod_lt _ (Nat.two_pow_pos _)) hle)]
    simp

/-- A double-width lane is made of two adjacent lanes. -/
theorem lane_split (w i x : Nat) :
    lane (2 * w) i x = lane w (2 * i) x + 2 ^ w * lane w (2 * i + 1) x := by
  unfold lane
  have e1 : 2 * w * i = w * (2 * i) := by ring
  have e2 : 2 ^ (w * (2 * i + 1)) = 2 ^ (w * (2 * i)) * 2 ^ w := by
    rw [Nat.mul_add, Nat.pow_add, Nat.mul_one]
  have e3 : 2 ^ (2 * w) = 2 ^ w * 2 ^ w := by rw [Nat.two_mul, Nat.pow_add]
  rw [e1, e2, e3, ← Nat.div_div_eq_div_mul, Nat.mod_mul, Nat.mul_comm]


theorem testBit_lane (w i x j : Nat) :
    (lane w i x).testBit j = (decide (j < w) && x.testBit (w * i + j)) := by
  unfold lane
  rw [Nat.testBit_mod_two_pow, ← Nat.shiftRight_eq_div_pow, Nat.testBit_shiftRight]

theorem lane_and (w i x y : Nat) : lane w i (x &&& y) = lane w i x &&& lane w i y := by
  apply Nat.eq_of_testBit_eq
  intro j
  simp only [testBit_lane, Nat.testBit_and]
  cases decide (j < w) <;> simp

theorem lane_or (w i x y : Nat) : lane w i (x ||| y) = lane w i x ||| lane w i y := by
  apply Nat.eq_of_testBit_eq
  intro j
  simp only [testBit_lane, Nat.testBit_or]
  cases decide (j < w) <;> simp

theorem hval_append_one (B : Nat) (l : List Nat) (a : Nat) :
    hval B (l ++ [a]) = hval B l * B + a := by
  simp [hval, List.foldl_append]

theorem hval_pairs (B m : Nat) (f : Nat → Nat) :
    hval (B * B) ((List.range m).map (fun i => B * f (2 * i) + f (2 * i + 1)))
      = hval B ((List.range (2 * m)).map f) := by
  induction m with
  | zero => simp [hval]
  | succ m ih =>
    have e : 2 * (m + 1) = 2 * m + 1 + 1 := by ring
    rw [e, List.range_succ, List.range_succ, List.range_succ]
    simp only [List.map_append, List.map_cons, List.map_nil, hval_append_one, ih]
    ring

theorem toSigned_of_lt (w x : Nat) (h : x < 2 ^ (w - 1)) : toSigned w x = (x : Int) := by
  simp [toSigned, h]

theorem ofSigned_natCast (w v : Nat) : ofSigned w (v : Int) = v % 2 ^ w := by
  unfold ofSigned
  have : ((v : Int) % 2 ^ w) = ((v % 2 ^ w : Nat) : Int) := by push_cast; rfl
  rw [this, Int.toNat_ofNat]

theorem lane_maddubs (n a b i p q : Nat) (hi : i < n)
    (hp : lane 8 (2 * i) b = p) (hq : lane 8 (2 * i + 1) b = q)
    (hp' : p < 128) (hq' : q < 128)
    (hs : lane 8 (2 * i) a * p + lane 8 (2 * i + 1) a * q < 32768) :
    lane 16 i (maddubs_epi16 n a b) = lane 8 (2 * i) a * p + lane 8 (2 * i + 1) a * q := by
  unfold maddubs_epi16
  rw [lane_mkLanes _ _ _ _ hi, hp, hq, toSigned_of_lt 8 p (by simpa using hp'),
    toSigned_of_lt 8 q (by simpa using hq')]
  have e : ((lane 8 (2 * i) a : Int) * (p : Int) + (lane 8 (2 * i + 1) a : Int) * (q : Int))
      = ((lane 8 (2 * i) a * p + lane 8 (2 * i + 1) a * q : Nat) : Int) := by push_cast; rfl
  rw [e]
  generalize lane 8 (2 * i) a * p + lane 8 (2 * i + 1) a * q = v at hs ⊢
  have hsat : saturate16 (v : Int) = (v : Int) := by
    unfold saturate16
    rw [if_neg (by omega), if_neg (by omega)]
  rw [hsat, ofSigned_natCast]
  omega

theorem lane_madd (n a b i p q : Nat) (hi : i < n)
    (hp : lane 16 (2 * i) b = p) (hq : lane 16 (2 * i + 1) b = q)
    (hp' : p < 32768) (hq' : q < 32768)
    (ha0 : lane 16 (2 * i) a < 32768) (ha1 : lane 16 (2 * i + 1) a < 32768) :
    lane 32 i (madd_epi16 n a b) = lane 16 (2 * i) a * p + lane 16 (2 * i + 1) a * q := by
  unfold madd_epi16
  rw [lane_mkLanes _ _ _ _ hi, hp, hq, toSigned_of_lt 16 p (by simpa using hp'),
    toSigned_of_lt 16 q (by simpa using hq'), toSigned_of_lt 16 _ (by simpa using ha0),
    toSigned_of_lt 16 _ (by simpa using ha1)]
  have e : ((lane 16 (2 * i) a : Int) * (p : Int) + (lane 16 (2 * i + 1) a : Int) * (q : Int))
      = ((lane 16 (2 * i) a * p + lane 16 (2 * i + 1) a * q : Nat) : Int) := by push_cast; rfl
  rw [e, ofSigned_natCast]
  have h1 : lane 16 (2 * i) a * p < 32768 * 32768 := Nat.mul_lt_mul'' ha0 hp'
  have h2 : lane 16 (2 * i + 1) a * q < 32768 * 32768 := Nat.mul_lt_mul'' ha1 hq'
  generalize lane 16 (2 * i) a * p = u at h1 ⊢
  generalize lane 16 (2 * i + 1) a * q = v at h2 ⊢
  omega

theorem lane_mul_epu32 (n a b i : Nat) (hi : i < n) :
    lane 64 i (mul_epu32 n a b) = lane 32 (2 * i) a * lane 32 (2 * i) b := by
  unfold mul_epu32
  rw [lane_mkLanes _ _ _ _ hi]
  apply Nat.mod_eq_of_lt
  have h1 := lane_lt 32 (2 * i) a
  have h2 := lane_lt 32 (2 * i) b
  calc lane 32 (2 * i) a * lane 32 (2 * i) b < 2 ^ 32 * 2 ^ 32 := Nat.mul_lt_mul'' h1 h2
    _ = 2 ^ 64 := by norm_num

theorem lane_add_epi64 (n a b i : Nat) (hi : i < n) :
    lane 64 i (add_epi64 n a b) = (lane 64 i a + lane 64 i b) % 2 ^ 64 := by
  unfold add_epi64
  rw [lane_mkLanes _ _ _ _ hi]

theorem lane_srli_epi64_32 (n a i : Nat) (hi : i < n) :
    lane 64 i (srli_epi64 n a 32) = lane 32 (2 * i + 1) a := by
  unfold srli_epi64
  rw [lane_mkLanes _ _ _ _ hi, Nat.shiftRight_eq_div_pow]
  have hs := lane_split 32 i a
  have h1 := lane_lt 32 (2 * i) a
  have h2 := lane_lt 32 (2 * i + 1) a
  norm_num at hs h1 h2 ⊢
  omega


theorem hval_congr_range (B n : Nat) (f g : Nat → Nat) (h : ∀ i, i < n → f i = g i) :
    hval B ((List.range n).map f) = hval B ((List.range n).map g) := by
  congr 1
  apply List.map_congr_left
  intro i hi
  exact h i (List.mem_range.1 hi)

theorem and_low_mask (x n m : Nat) (hm : m = 2 ^ n - 1) : x &&& m = x % 2 ^ n := by
  subst hm
  exact Nat.and_pow_two_sub_one_eq_mod x n

namespace simd_buffer128

/-- First stage of `reduce`: every 16-bit lane holds a two-digit value. -/
theorem reduce_stage1 (ssse3 : Bool) (x : Nat) (hx : ∀ i, i < 16 → lane 8 i x ≤ 9) (i : Nat)
    (hi : i < 8) :
    lane 16 i
      (if ssse3 then
        maddubs_epi16 8 x (set_epi8 [1, 10, 1, 10, 1, 10, 1, 10, 1, 10, 1, 10, 1, 10, 1, 10])
      else
        add_epi16 8 (mullo_epi16 8 x
            (set_epi8 [0, 10, 0, 10, 0, 10, 0, 10, 0, 10, 0, 10, 0, 10, 0, 10]))
          (srli_epi16 8 x 8) &&& set_epi32 [0xff00ff, 0xff00ff, 0xff00ff, 0xff00ff])
      = 10 * lane 8 (2 * i) x + lane 8 (2 * i + 1) x := by
  have h0 := hx (2 * i) (by omega)
  have h1 := hx (2 * i + 1) (by omega)
  cases ssse3 with
  | true =>
    rw [if_pos rfl, lane_maddubs 8 x _ i 10 1 hi (by interval_cases i <;> rfl)
      (by interval_cases i <;> rfl) (by decide) (by decide) (by omega)]
    omega
  | false =>
    rw [if_neg (by decide), lane_and]
    have hm : lane 16 i (set_epi32 [0xff00ff, 0xff00ff, 0xff00ff, 0xff00ff]) = 2 ^ 8 - 1 := by
      interval_cases i <;> rfl
    have hc : lane 16 i (set_epi8 [0, 10, 0, 10, 0, 10, 0, 10, 0, 10, 0, 10, 0, 10, 0, 10])
        = 10 := by
      interval_cases i <;> rfl
    rw [and_low_mask _ 8 _ hm]
    unfold add_epi16 mullo_epi16 srli_epi16
    rw [lane_mkLanes _ _ _ _ hi, lane_mkLanes _ _ _ _ hi, lane_mkLanes _ _ _ _ hi, hc,
      Nat.shiftRight_eq_div_pow]
    have hs : lane 16 i x = lane 8 (2 * i) x + 2 ^ 8 * lane 8 (2 * i + 1) x := lane_split 8 i x
    rw [hs]
    generalize lane 8 (2 * i) x = a at h0 ⊢
    generalize lane 8 (2 * i + 1) x = b at h1 ⊢
    have e1 : (a + 2 ^ 8 * b) / 2 ^ 8 = b := by omega
    have e2 : (a + 2 ^ 8 * b) * 10 % 2 ^ 16 = 10 * a + 2560 * b := by omega
    rw [e1, e2]
    omega


/-- Second stage of `reduce`: every 32-bit lane holds a four-digit value. -/
theorem reduce_stage2 (ssse3 : Bool) (c1 : Nat) (hc : ∀ i, i < 8 → lane 16 i c1 ≤ 99) (i : Nat)
    (hi : i < 4) :
    lane 32 i
      (if ssse3 then madd_epi16 4 c1 (set_epi16 [1, 100, 1, 100, 1, 100, 1, 100])
      else
        add_epi32 4 (mullo_epi16 8 c1 (set_epi16 [0, 100, 0, 100, 0, 100, 0, 100]))
          (srli_epi32 4 c1 16) &&& set_epi32 [0xffff, 0xffff, 0xffff, 0xffff])
      = 100 * lane 16 (2 * i) c1 + lane 16 (2 * i + 1) c1 := by
  have h0 := hc (2 * i) (by omega)
  have h1 := hc (2 * i + 1) (by omega)
  cases ssse3 with
  | true =>
    rw [if_pos rfl, lane_madd 4 c1 _ i 100 1 hi (by interval_cases i <;> rfl)
      (by interval_cases i <;> rfl) (by decide) (by decide) (by omega) (by omega)]
    omega
  | false =>
    rw [if_neg (by decide), lane_and]
    have hm : lane 32 i (set_epi32 [0xffff, 0xffff, 0xffff, 0xffff]) = 2 ^ 16 - 1 := by
      interval_cases i <;> rfl
    have hk0 : lane 16 (2 * i) (set_epi16 [0, 100, 0, 100, 0, 100, 0, 100]) = 100 := by
      interval_cases i <;> rfl
    have hk1 : lane 16 (2 * i + 1) (set_epi16 [0, 100, 0, 100, 0, 100, 0, 100]) = 0 := by
      interval_cases i <;> rfl
    rw [and_low_mask _ 16 _ hm]
    unfold add_epi32 srli_epi32
    rw [lane_mkLanes _ _ _ _ hi, lane_mkLanes _ _ _ _ hi, Nat.shiftRight_eq_div_pow,
      lane_split 16 i (mullo_epi16 _ _ _), lane_split 16 i c1]
    unfold mullo_epi16
    rw [lane_mkLanes _ _ _ _ (by omega : 2 * i < 8),
      lane_mkLanes _ _ _ _ (by omega : 2 * i + 1 < 8), hk0, hk1]
    generalize lane 16 (2 * i) c1 = a at h0 ⊢
    generalize lane 16 (2 * i + 1) c1 = b at h1 ⊢
    have e1 : (a + 2 ^ 16 * b) / 2 ^ 16 = b := by omega
    have e2 : a * 100 % 2 ^ 16 = 100 * a := by omega
    rw [e1, e2]
    omega

/-- Third stage of `reduce`: every 64-bit lane holds an eight-digit value. -/
theorem reduce_stage3 (c2 : Nat) (hc : ∀ i, i < 4 → lane 32 i c2 ≤ 9999) (i : Nat) (hi : i < 2) :
    lane 64 i (set_epi32 [0, 0xffffffff, 0, 0xffffffff] &&&
        add_epi64 2 (mul_epu32 2 c2 (set_epi32 [0, 10000, 0, 10000])) (srli_epi64 2 c2 32))
      = 10000 * lane 32 (2 * i) c2 + lane 32 (2 * i + 1) c2 := by
  have h0 := hc (2 * i) (by omega)
  have h1 := hc (2 * i + 1) (by omega)
  have hm : lane 64 i (set_epi32 [0, 0xffffffff, 0, 0xffffffff]) = 2 ^ 32 - 1 := by
    interval_cases i <;> rfl
  have hk : lane 32 (2 * i) (set_epi32 [0, 10000, 0, 10000]) = 10000 := by
    interval_cases i <;> rfl
  rw [lane_and, Nat.and_comm, and_low_mask _ 32 _ hm, lane_add_epi64 _ _ _ _ hi,
    lane_mul_epu32 _ _ _ _ hi, lane_srli_epi64_32 _ _ _ hi, hk]
  generalize lane 32 (2 * i) c2 = a at h0 ⊢
  generalize lane 32 (2 * i + 1) c2 = b at h1 ⊢
  omega

/-- Last stage of `reduce`: the low 64-bit lane holds the sixteen-digit value. -/
theorem reduce_stage4 (c3 : Nat) (hc : ∀ i, i < 2 → lane 64 i c3 ≤ 99999999) :
    lane 64 0 (add_epi64 2 (mul_epu32 2 c3 (set_epi32 [0, 0, 0, 100000000]))
        (shuffle_epi32 c3 78))
      = 100000000 * lane 64 0 c3 + lane 64 1 c3 := by
  have h0 := hc 0 (by omega)
  have h1 := hc 1 (by omega)
  have hk : lane 32 (2 * 0) (set_epi32 [0, 0, 0, 100000000]) = 100000000 := rfl
  have hsh : lane 64 0 (shuffle_epi32 c3 78) = lane 64 1 c3 := by
    rw [lane_split 32 0, lane_split 32 1]
    unfold shuffle_epi32
    rw [lane_mkLanes _ _ _ _ (by omega), lane_mkLanes _ _ _ _ (by omega)]
    have e0 : lane 2 (2 * 0) 78 = 2 := rfl
    have e1 : lane 2 (2 * 0 + 1) 78 = 3 := rfl
    rw [e0, e1, Nat.mod_eq_of_lt (lane_lt 32 _ _), Nat.mod_eq_of_lt (lane_lt 32 _ _)]
  have hlow : lane 32 (2 * 0) c3 = lane 64 0 c3 := by
    have hs : lane 64 0 c3 = lane 32 (2 * 0) c3 + 2 ^ 32 * lane 32 (2 * 0 + 1) c3 :=
      lane_split 32 0 c3
    generalize lane 32 (2 * 0) c3 = a at hs ⊢
    generalize lane 32 (2 * 0 + 1) c3 = b at hs
    generalize lane 64 0 c3 = c at hs h0 ⊢
    omega
  rw [lane_add_epi64 _ _ _ _ (by omega), lane_mul_epu32 _ _ _ _ (by omega), hk, hsh, hlow]
  generalize lane 64 0 c3 = a at h0 ⊢
  generalize lane 64 1 c3 = b at h1 ⊢
  omega


/-- The reduction tree computes the base-10 value of the sixteen lanes, lane 0 most
significant, whenever every lane holds a digit value. -/
theorem reduce_eq128 (ssse3 : Bool) (x : Nat) (hx : ∀ i, i < 16 → lane 8 i x ≤ 9) :
    reduce ssse3 x = hval 10 (lanes 8 16 x) := by
  unfold reduce
  simp only []
  have H1 := reduce_stage1 ssse3 x hx
  generalize (if ssse3 then
        maddubs_epi16 8 x (set_epi8 [1, 10, 1, 10, 1, 10, 1, 10, 1, 10, 1, 10, 1, 10, 1, 10])
      else
        add_epi16 8 (mullo_epi16 8 x
            (set_epi8 [0, 10, 0, 10, 0, 10, 0, 10, 0, 10, 0, 10, 0, 10, 0, 10]))
          (srli_epi16 8 x 8) &&& set_epi32 [0xff00ff, 0xff00ff, 0xff00ff, 0xff00ff]) = c1
    at H1 ⊢
  have B1 : ∀ i, i < 8 → lane 16 i c1 ≤ 99 := by
    intro i hi
    have h0 := hx (2 * i) (by omega)
    have h1 := hx (2 * i + 1) (by omega)
    rw [H1 i hi]; omega
  have H2 := reduce_stage2 ssse3 c1 B1
  generalize (if ssse3 then madd_epi16 4 c1 (set_epi16 [1, 100, 1, 100, 1, 100, 1, 100])
      else
        add_epi32 4 (mullo_epi16 8 c1 (set_epi16 [0, 100, 0, 100, 0, 100, 0, 100]))
          (srli_epi32 4 c1 16) &&& set_epi32 [0xffff, 0xffff, 0xffff, 0xffff]) = c2 at H2 ⊢
  have B2 : ∀ i, i < 4 → lane 32 i c2 ≤ 9999 := by
    intro i hi
    have h0 := B1 (2 * i) (by omega)
    have h1 := B1 (2 * i + 1) (by omega)
    rw [H2 i hi]; omega
  have H3 := reduce_stage3 c2 B2
  generalize (set_epi32 [0, 0xffffffff, 0, 0xffffffff] &&&
        add_epi64 2 (mul_epu32 2 c2 (set_epi32 [0, 10000, 0, 10000])) (srli_epi64 2 c2 32)) = c3
    at H3 ⊢
  have B3 : ∀ i, i < 2 → lane 64 i c3 ≤ 99999999 := by
    intro i hi
    have h0 := B2 (2 * i) (by omega)
    have h1 := B2 (2 * i + 1) (by omega)
    rw [H3 i hi]; omega
  rw [reduce_stage4 c3 B3]
  have e4 : 100000000 * lane 64 0 c3 + lane 64 1 c3
      = hval (10000 * 10000) ((List.range 2).map (fun i => lane 64 i c3)) := by
    simp [hval, List.range_succ]; ring
  rw [e4, hval_congr_range _ 2 _ _ H3, hval_pairs 10000 2 (fun i => lane 32 i c2)]
  have e100 : (10000 : Nat) = 100 * 100 := by norm_num
  rw [e100, hval_congr_range _ (2 * 2) _ _ H2, hval_pairs 100 (2 * 2) (fun i => lane 16 i c1)]
  have e10 : (100 : Nat) = 10 * 10 := by norm_num
  rw [e10, hval_congr_range _ (2 * (2 * 2)) _ _ H1,
    hval_pairs 10 (2 * (2 * 2)) (fun i => lane 8 i x)]
  rfl

end simd_buffer128

theorem testBit_shl64 (x s j : Nat) :
    (shl64 x s).testBit j = (decide (j < 64) && (decide (s ≤ j) && x.testBit (j - s))) := by
  unfold shl64
  rw [Nat.testBit_mod_two_pow, Nat.testBit_shiftLeft]

/-- Word `i` of a register shifted right by `s < 64` bits, as the C code composes it. -/
theorem lane64_shr (W s i : Nat) (hs0 : 0 < s) (hs : s < 64) :
    lane 64 i (W / 2 ^ s) = (lane 64 i W >>> s) ||| shl64 (lane 64 (i + 1) W) (64 - s) := by
  apply Nat.eq_of_testBit_eq
  intro j
  simp only [testBit_lane, Nat.testBit_or, Nat.testBit_shiftRight, testBit_shl64,
    ← Nat.shiftRight_eq_div_pow]
  by_cases hj : j < 64
  · by_cases h2 : s + j < 64
    · have h3 : ¬ (64 - s ≤ j) := by omega
      have e : 64 * i + (s + j) = s + (64 * i + j) := by omega
      simp [hj, h2, h3, e]
    · have h3 : 64 - s ≤ j := by omega
      have h4 : j - (64 - s) < 64 := by omega
      have e : 64 * (i + 1) + (j - (64 - s)) = s + (64 * i + j) := by omega
      simp [hj, h2, h3, h4, e]
  · have h2 : ¬ (s + j < 64) := by omega
    simp [hj, h2]

/-- Word `i + 1` of a register shifted left by `s < 64` bits, as the C code composes it. -/
theorem lane64_shl_succ (W s i : Nat) (hs0 : 0 < s) (hs : s < 64) :
    lane 64 (i + 1) (W * 2 ^ s)
      = shl64 (lane 64 (i + 1) W) s ||| (lane 64 i W >>> (64 - s)) := by
  apply Nat.eq_of_testBit_eq
  intro j
  simp only [testBit_lane, Nat.testBit_or, Nat.testBit_shiftRight, testBit_shl64,
    ← Nat.shiftLeft_eq, Nat.testBit_shiftLeft]
  by_cases hj : j < 64
  · by_cases h2 : s ≤ j
    · have h3 : ¬ (64 - s + j < 64) := by omega
      have h4 : s ≤ 64 * (i + 1) + j := by omega
      have e : 64 * (i + 1) + j - s = 64 * (i + 1) + (j - s) := by omega
      have h5 : j - s < 64 := by omega
      simp [hj, h2, h3, h4, e, h5]
    · have h3 : 64 - s + j < 64 := by omega
      have h4 : s ≤ 64 * (i + 1) + j := by omega
      have e : 64 * (i + 1) + j - s = 64 * i + (64 - s + j) := by omega
      simp [hj, h2, h3, h4, e]
  · simp [hj]
    omega

/-- Word 0 of a register shifted left by `s` bits. -/
theorem lane64_shl_zero (W s : Nat) :
    lane 64 0 (W * 2 ^ s) = shl64 (lane 64 0 W) s := by
  apply Nat.eq_of_testBit_eq
  intro j
  simp only [testBit_lane, testBit_shl64, ← Nat.shiftLeft_eq, Nat.testBit_shiftLeft]
  by_cases hj : j < 64
  · by_cases h2 : s ≤ j
    · have h5 : j - s < 64 := by omega
      simp [hj, h2, h5]
    · simp [hj, h2]
  · simp [hj]

theorem lane_eq_zero_of_lt (w i x : Nat) (h : x < 2 ^ (w * i)) : lane w i x = 0 := by
  unfold lane
  rw [Nat.div_eq_of_lt h, Nat.zero_mod]

theorem lanes_succ (w n x : Nat) :
    lanes w (n + 1) x = x % 2 ^ w :: lanes w n (x / 2 ^ w) := by
  unfold lanes
  rw [List.range_succ_eq_map, List.map_cons, List.map_map, lane_zero_idx]
  congr 1
  apply List.map_congr_left
  intro i _
  have := lane_div w i 1 x
  simpa using this.symm

theorem packL_lanes (w n x : Nat) : packL w (lanes w n x) = x % 2 ^ (w * n) := by
  induction n generalizing x with
  | zero => simp [lanes, packL, Nat.mod_one]
  | succ n ih =>
    rw [lanes_succ, packL, ih, Nat.mod_mod, Nat.mul_succ, Nat.pow_add, Nat.mul_comm (2 ^ (w * n)),
      Nat.mod_mul]

namespace simd_buffer128

theorem realign_shr_eq (c k : Nat) (hc : c < 2 ^ 128) (hk : k ≤ 15) :
    realign_shr (lane 64 0 c) (lane 64 1 c) (k : Int)
      = (lane 64 0 (c / 2 ^ (8 * k)), lane 64 1 (c / 2 ^ (8 * k))) := by
  have hl2 : ∀ W, W < 2 ^ 128 → lane 64 2 W = 0 := fun W hW =>
    lane_eq_zero_of_lt 64 2 W (by simpa using hW)
  unfold realign_shr
  by_cases h7 : k ≤ 7
  · have hn : ¬ ((k : Int) > 7) := by omega
    simp only [hn, if_false]
    have e1 : ((k : Int) * 8).toNat = 8 * k := by omega
    by_cases h0 : k = 0
    · subst h0; simp
    · have hne : (k : Int) * 8 ≠ 0 := by omega
      have e2 : (64 - (k : Int) * 8).toNat = 64 - 8 * k := by omega
      simp only [hne, ne_eq, not_false_eq_true, if_true, e1, e2]
      rw [lane64_shr c (8 * k) 0 (by omega) (by omega),
        lane64_shr c (8 * k) 1 (by omega) (by omega), hl2 c hc]
      simp [shl64]
  · have hp : (k : Int) > 7 := by omega
    simp only [hp, if_true]
    have e1 : (((k : Int) - 8) * 8).toNat = 8 * (k - 8) := by omega
    have e3 : 2 ^ (8 * k) = 2 ^ (64 * 1) * 2 ^ (8 * (k - 8)) := by
      rw [← Nat.pow_add]; congr 1; omega
    have e4 : c / 2 ^ (8 * k) = c / 2 ^ (64 * 1) / 2 ^ (8 * (k - 8)) := by
      rw [e3, Nat.div_div_eq_div_mul]
    have hc1 : c / 2 ^ (64 * 1) < 2 ^ 64 := by
      rw [Nat.div_lt_iff_lt_mul (Nat.two_pow_pos _)]; simpa using hc
    have hd : c / 2 ^ (64 * 1) / 2 ^ (8 * (k - 8)) < 2 ^ 64 :=
      lt_of_le_of_lt (Nat.div_le_self _ _) hc1
    have hl1 : lane 64 1 c = c / 2 ^ (64 * 1) := by
      unfold lane; exact Nat.mod_eq_of_lt hc1
    rw [e1, e4, hl1, lane_zero_idx, Nat.mod_eq_of_lt hd,
      lane_eq_zero_of_lt 64 1 _ (by simpa using hd), Nat.shiftRight_eq_div_pow]
    simp [shl64]


theorem realign_shl_eq (Y len : Nat) (hl0 : 1 ≤ len) (hl : len ≤ 16) :
    realign_shl (lane 64 0 Y) (lane 64 1 Y) (len : Int)
      = (lane 64 0 (Y * 2 ^ (8 * (16 - len))), lane 64 1 (Y * 2 ^ (8 * (16 - len)))) := by
  unfold realign_shl
  by_cases h9 : 9 ≤ len
  · have hn : ¬ ((len : Int) < 9) := by omega
    simp only [hn, if_false]
    have e1 : ((16 - (len : Int)) * 8).toNat = 8 * (16 - len) := by omega
    by_cases h0 : len = 16
    · subst h0
      have h0 := lane_lt 64 0 Y
      have h1 := lane_lt 64 1 Y
      simp only [shl64, Int.Nat.cast_ofNat_Int, sub_self, zero_mul, Int.toNat_zero,
        Nat.shiftLeft_zero, Nat.mod_eq_of_lt h0, Nat.mod_eq_of_lt h1, ne_eq, not_true_eq_false,
        if_false, Nat.or_zero, Nat.sub_self, Nat.mul_zero, Nat.pow_zero, Nat.mul_one]
    · have hne : (16 - (len : Int)) * 8 ≠ 0 := by omega
      have e2 : (64 - (16 - (len : Int)) * 8).toNat = 64 - 8 * (16 - len) := by omega
      simp only [hne, ne_eq, not_false_eq_true, if_true, e1, e2]
      rw [lane64_shl_zero, lane64_shl_succ Y (8 * (16 - len)) 0 (by omega) (by omega)]
  · have hp : (len : Int) < 9 := by omega
    simp only [hp, if_true]
    have e1 : ((16 - ((len : Int) + 8)) * 8).toNat = 8 * (8 - len) := by omega
    have e3 : Y * 2 ^ (8 * (16 - len)) = Y * 2 ^ (8 * (8 - len)) * 2 ^ (64 * 1) := by
      rw [Nat.mul_assoc, ← Nat.pow_add]; congr 2; omega
    rw [e1, e3, lane_mul, lane_mul, if_pos (show (0 : Nat) < 1 by omega),
      if_neg (show ¬ ((1 : Nat) < 1) by omega), lane64_shl_zero]
    simp [shl64]

theorem realign_eq128 (c k len : Nat) (hc : c < 2 ^ 128) (hk : k ≤ 15) (hl0 : 1 ≤ len)
    (hl : len ≤ 16) : realign c (k : Int) (len : Int) = alignTop 16 c k len := by
  unfold realign
  simp only []
  rw [realign_shr_eq c k hc hk]
  simp only []
  rw [realign_shl_eq _ len hl0 hl]
  simp only []
  have := packL_lanes 64 2 (c / 2 ^ (8 * k) * 2 ^ (8 * (16 - len)))
  simpa [lanes, List.range_succ, alignTop] using this

end simd_buffer128

theorem lane_alignTop (N c k len j : Nat) (hj : j < N) :
    lane 8 j (alignTop N c k len)
      = if j < N - len then 0 else lane 8 (j - (N - len) + k) c := by
  unfold alignTop
  rw [lane_mod, if_pos hj, lane_mul, lane_div]

theorem lanes_alignTop (N c k len : Nat) (hl : len ≤ N) :
    lanes 8 N (alignTop N c k len) = List.replicate (N - len) 0 ++ bytesAt c k len := by
  apply List.ext_getElem
  · simp [lanes, bytesAt]; omega
  · intro j h1 h2
    have hj : j < N := by simpa [lanes] using h1
    simp only [lanes, List.getElem_map, List.getElem_range, lane_alignTop N c k len j hj]
    by_cases h : j < N - len
    · rw [if_pos h, List.getElem_append_left (by simpa using h)]
      simp
    · rw [if_neg h, List.getElem_append_right (by simpa using h)]
      simp [bytesAt]
      congr 1
      omega

theorem hval_replicate_zero (B n : Nat) (l : List Nat) :
    hval B (List.replicate n 0 ++ l) = hval B l := by
  induction n with
  | zero => simp
  | succ n ih =>
    rw [List.replicate_succ, List.cons_append]
    unfold hval at ih ⊢
    simpa using ih


theorem lane_set1_epi8 (n b i : Nat) (hi : i < n) : lane 8 i (set1_epi8 n b) = b % 2 ^ 8 := by
  unfold set1_epi8
  rw [lane_mkLanes _ _ _ _ hi]

theorem lane_sub_epi8 (n a b i : Nat) (hi : i < n) :
    lane 8 i (sub_epi8 n a b) = (lane 8 i a + 256 - lane 8 i b) % 256 := by
  unfold sub_epi8
  rw [lane_mkLanes _ _ _ _ hi]
  simp

theorem mem_bytesAt (r k len j : Nat) (hj : j < len) : lane 8 (k + j) r ∈ bytesAt r k len := by
  unfold bytesAt
  exact List.mem_map.2 ⟨j, List.mem_range.2 hj, rfl⟩

/-- Subtracting `'0'` from the digit bytes of a run gives the digit values. -/
theorem bytesAt_sub_epi8 (n r k len : Nat) (hk : k + len ≤ n) (hd : allDigits (bytesAt r k len)) :
    bytesAt (sub_epi8 n r (set1_epi8 n 48)) k len = (bytesAt r k len).map (fun c => c - 48) := by
  unfold bytesAt
  rw [List.map_map]
  apply List.map_congr_left
  intro j hj
  have hj' := List.mem_range.1 hj
  have hdig := hd _ (mem_bytesAt r k len j hj')
  simp only [Function.comp]
  rw [lane_sub_epi8 _ _ _ _ (by omega), lane_set1_epi8 _ _ _ (by omega)]
  omega

theorem alignTop_digit_le (N c k len : Nat) (hl : len ≤ N)
    (hc : ∀ d ∈ bytesAt c k len, d ≤ 9) (i : Nat) (hi : i < N) :
    lane 8 i (alignTop N c k len) ≤ 9 := by
  rw [lane_alignTop N c k len i hi]
  split
  · omega
  · rename_i h
    have e : i - (N - len) + k = k + (i - (N - len)) := by omega
    rw [e]
    exact hc _ (mem_bytesAt c k len _ (by omega))

namespace simd_buffer128

/-- Digit conversion of the 16-byte buffer on a run of `len` digits at offset `k`. -/
theorem atoi_run128 (ssse3 : Bool) (d r k len : Nat) (hlen : 1 ≤ len) (hk : k + len ≤ 16)
    (hd : allDigits (bytesAt r k len)) :
    atoi ssse3 (consume (fill_from (init d) r).2 (k : Int)).2 (len : Int)
      = decimalValue (bytesAt r k len) := by
  have hstate : (consume (fill_from (init d) r).2 (k : Int)).2
      = { data := r, begin := (k : Int), end_ := 16 } := by
    simp [consume, fill_from, init]
  rw [hstate]
  unfold atoi
  simp only []
  have hclt : sub_epi8 16 r (set1_epi8 16 48) < 2 ^ 128 := by
    have := mkLanes_lt 8 16 (fun i => (lane 8 i r + 256 - lane 8 i (set1_epi8 16 48)) % 256)
    simpa [sub_epi8] using this
  have hx : (if (k : Int) ≠ 0 ∨ (len : Int) < 16
        then realign (sub_epi8 16 r (set1_epi8 16 48)) (k : Int) (len : Int)
        else sub_epi8 16 r (set1_epi8 16 48))
      = alignTop 16 (sub_epi8 16 r (set1_epi8 16 48)) k len := by
    split
    · exact realign_eq128 _ k len hclt (by omega) hlen (by omega)
    · rename_i h
      have hk0 : k = 0 := by omega
      have hl16 : len = 16 := by omega
      subst hk0; subst hl16
      simp only [alignTop, Nat.mul_zero, Nat.pow_zero, Nat.div_one, Nat.sub_self, Nat.mul_one]
      exact (Nat.mod_eq_of_lt hclt).symm
  rw [hx]
  have hb := bytesAt_sub_epi8 16 r k len hk hd
  have hle : ∀ v ∈ bytesAt (sub_epi8 16 r (set1_epi8 16 48)) k len, v ≤ 9 := by
    rw [hb]
    intro v hv
    obtain ⟨c, hc, rfl⟩ := List.mem_map.1 hv
    have := hd c hc
    omega
  rw [reduce_eq128 ssse3 _ (alignTop_digit_le 16 _ k len (by omega) hle),
    lanes_alignTop 16 _ k len (by omega), hval_replicate_zero, hb]
  rfl

end simd_buffer128
end Sixit

/-! ## The packed 7-byte buffer: arithmetic -/

namespace Sixit

theorem packL_sub (w : Nat) (xs ys : List Nat)
    (h : List.Forall₂ (fun x y => y ≤ x ∧ x < 2 ^ w) xs ys) :
    packL w ys ≤ packL w xs ∧
      packL w xs - packL w ys = packL w (List.zipWith (fun x y => x - y) xs ys) := by
  induction h with
  | nil => simp [packL]
  | @cons x y xs ys hxy _ ih =>
    obtain ⟨hle, hsub⟩ := ih
    obtain ⟨h1, h2⟩ := hxy
    simp only [packL, List.zipWith_cons_cons]
    rw [← hsub, Nat.mod_eq_of_lt h2, Nat.mod_eq_of_lt (lt_of_le_of_lt h1 h2),
      Nat.mod_eq_of_lt (lt_of_le_of_lt (Nat.sub_le x y) h2), Nat.mul_sub]
    have hm : 2 ^ w * packL w ys ≤ 2 ^ w * packL w xs := Nat.mul_le_mul_left _ hle
    generalize 2 ^ w * packL w ys = A at hm ⊢
    generalize 2 ^ w * packL w xs = B at hm ⊢
    omega

theorem eq_packL_lanes (w n x : Nat) (hx : x < 2 ^ (w * n)) : x = packL w (lanes w n x) := by
  rw [packL_lanes, Nat.mod_eq_of_lt hx]

/-- Lane-wise subtraction without borrow. -/
theorem lane_sub_of_le (w n x y : Nat) (hx : x < 2 ^ (w * n)) (hy : y < 2 ^ (w * n))
    (h : ∀ p, p < n → lane w p y ≤ lane w p x) :
    y ≤ x ∧ ∀ p, p < n → lane w p (x - y) = lane w p x - lane w p y := by
  have hF : List.Forall₂ (fun a b => b ≤ a ∧ a < 2 ^ w) (lanes w n x) (lanes w n y) := by
    unfold lanes
    rw [List.forall₂_map_left_iff, List.forall₂_map_right_iff, List.forall₂_same]
    intro p hp
    exact ⟨h p (List.mem_range.1 hp), lane_lt w p x⟩
  obtain ⟨hle, hsub⟩ := packL_sub w _ _ hF
  rw [← eq_packL_lanes w n x hx, ← eq_packL_lanes w n y hy] at hle hsub
  refine ⟨hle, fun p hp => ?_⟩
  rw [hsub, lane_packL]
  have hlen : p < (List.zipWith (fun x y => x - y) (lanes w n x) (lanes w n y)).length := by
    simp [lanes, hp]
  rw [List.getD_eq_getElem _ _ hlen]
  simp only [lanes, List.getElem_zipWith, List.getElem_map, List.getElem_range]
  exact Nat.mod_eq_of_lt (lt_of_le_of_lt (Nat.sub_le _ _) (lane_lt w p x))


theorem or_eq_add_of_lt (a b s : Nat) (ha : a < 2 ^ s) : a ||| (b * 2 ^ s) = a + b * 2 ^ s := by
  rw [Nat.or_comm, Nat.mul_comm, ← Nat.mul_add_lt_is_or ha, Nat.add_comm]

theorem and_shifted_byte (x s : Nat) : x &&& (0xFF <<< s) = (x / 2 ^ s % 256) * 2 ^ s := by
  apply Nat.eq_of_testBit_eq
  intro j
  have h255 : (0xFF : Nat) = 2 ^ 8 - 1 := by norm_num
  have h256 : (256 : Nat) = 2 ^ 8 := by norm_num
  rw [h255, h256, ← Nat.shiftLeft_eq, ← Nat.shiftRight_eq_div_pow]
  simp only [Nat.testBit_and, Nat.testBit_shiftLeft, Nat.testBit_two_pow_sub_one,
    Nat.testBit_mod_two_pow, Nat.testBit_shiftRight]
  by_cases h : s ≤ j
  · have e : s + (j - s) = j := by omega
    simp [h, e, Bool.and_comm]
  · simp [h]

namespace simd_buffer64

theorem and_odd_mask (x : Nat) :
    x &&& ((0xFF <<< 1) ||| (0xFF <<< 19) ||| (0xFF <<< 37) ||| (0xFF <<< 55))
      = (x / 2 ^ 1 % 256) * 2 ^ 1 + (x / 2 ^ 19 % 256) * 2 ^ 19 + (x / 2 ^ 37 % 256) * 2 ^ 37
        + (x / 2 ^ 55 % 256) * 2 ^ 55 := by
  rw [Nat.and_or_distrib_left, Nat.and_or_distrib_left, Nat.and_or_distrib_left,
    and_shifted_byte, and_shifted_byte, and_shifted_byte, and_shifted_byte]
  have h0 : x / 2 ^ 1 % 256 < 256 := Nat.mod_lt _ (by norm_num)
  have h1 : x / 2 ^ 19 % 256 < 256 := Nat.mod_lt _ (by norm_num)
  have h2 : x / 2 ^ 37 % 256 < 256 := Nat.mod_lt _ (by norm_num)
  generalize x / 2 ^ 1 % 256 = a at h0 ⊢
  generalize x / 2 ^ 19 % 256 = b at h1 ⊢
  generalize x / 2 ^ 37 % 256 = c at h2 ⊢
  generalize x / 2 ^ 55 % 256 = d
  rw [or_eq_add_of_lt _ b 19 (by omega), or_eq_add_of_lt _ c 37 (by omega),
    or_eq_add_of_lt _ d 55 (by omega)]

theorem atoi_pairs_eq (d0 d1 d2 d3 d4 d5 d6 : Nat) (h0 : d0 ≤ 9) (h1 : d1 ≤ 9) (h2 : d2 ≤ 9)
    (h3 : d3 ≤ 9) (h4 : d4 ≤ 9) (h5 : d5 ≤ 9) (h6 : d6 ≤ 9) :
    atoi_pairs (d0 * 2 ^ 1 + d1 * 2 ^ 10 + d2 * 2 ^ 19 + d3 * 2 ^ 28 + d4 * 2 ^ 37 + d5 * 2 ^ 46
        + d6 * 2 ^ 55)
      = (d0 + 10 * d1) * 2 ^ 1 + (d2 + 10 * d3) * 2 ^ 19 + (d4 + 10 * d5) * 2 ^ 37
        + d6 * 2 ^ 55 := by
  have e8 : (d0 * 2 ^ 1 + d1 * 2 ^ 10 + d2 * 2 ^ 19 + d3 * 2 ^ 28 + d4 * 2 ^ 37 + d5 * 2 ^ 46
        + d6 * 2 ^ 55) >>> 8 = d1 * 2 ^ 2 + d2 * 2 ^ 11 + d3 * 2 ^ 20 + d4 * 2 ^ 29 + d5 * 2 ^ 38
      + d6 * 2 ^ 47 := by rw [Nat.shiftRight_eq_div_pow]; omega
  have e6 : (d0 * 2 ^ 1 + d1 * 2 ^ 10 + d2 * 2 ^ 19 + d3 * 2 ^ 28 + d4 * 2 ^ 37 + d5 * 2 ^ 46
        + d6 * 2 ^ 55) >>> 6 = d1 * 2 ^ 4 + d2 * 2 ^ 13 + d3 * 2 ^ 22 + d4 * 2 ^ 31 + d5 * 2 ^ 40
      + d6 * 2 ^ 49 := by rw [Nat.shiftRight_eq_div_pow]; omega
  have ey : (d0 * 2 ^ 1 + d1 * 2 ^ 10 + d2 * 2 ^ 19 + d3 * 2 ^ 28 + d4 * 2 ^ 37 + d5 * 2 ^ 46
        + d6 * 2 ^ 55 + (d1 * 2 ^ 2 + d2 * 2 ^ 11 + d3 * 2 ^ 20 + d4 * 2 ^ 29 + d5 * 2 ^ 38
      + d6 * 2 ^ 47 + (d1 * 2 ^ 4 + d2 * 2 ^ 13 + d3 * 2 ^ 22 + d4 * 2 ^ 31 + d5 * 2 ^ 40
      + d6 * 2 ^ 49)) % 2 ^ 64) % 2 ^ 64
      = (d0 + 10 * d1) * 2 ^ 1 + (d1 + 10 * d2) * 2 ^ 10 + (d2 + 10 * d3) * 2 ^ 19
        + (d3 + 10 * d4) * 2 ^ 28 + (d4 + 10 * d5) * 2 ^ 37 + (d5 + 10 * d6) * 2 ^ 46
        + d6 * 2 ^ 55 := by
    clear e8 e6; omega
  have q0 : ((d0 + 10 * d1) * 2 ^ 1 + (d1 + 10 * d2) * 2 ^ 10 + (d2 + 10 * d3) * 2 ^ 19
        + (d3 + 10 * d4) * 2 ^ 28 + (d4 + 10 * d5) * 2 ^ 37 + (d5 + 10 * d6) * 2 ^ 46
        + d6 * 2 ^ 55) / 2 ^ 1 = (d0 + 10 * d1) + (d1 + 10 * d2) * 2 ^ 9
        + (d2 + 10 * d3) * 2 ^ 18
        + (d3 + 10 * d4) * 2 ^ 27 + (d4 + 10 * d5) * 2 ^ 36 + (d5 + 10 * d6) * 2 ^ 45
        + d6 * 2 ^ 54 := by clear e8 e6 ey; omega
  have q1 : ((d0 + 10 * d1) * 2 ^ 1 + (d1 + 10 * d2) * 2 ^ 10 + (d2 + 10 * d3) * 2 ^ 19
        + (d3 + 10 * d4) * 2 ^ 28 + (d4 + 10 * d5) * 2 ^ 37 + (d5 + 10 * d6) * 2 ^ 46
        + d6 * 2 ^ 55) / 2 ^ 19 = (d2 + 10 * d3)
        + (d3 + 10 * d4) * 2 ^ 9 + (d4 + 10 * d5) * 2 ^ 18 + (d5 + 10 * d6) * 2 ^ 27
        + d6 * 2 ^ 36 := by clear e8 e6 ey q0; omega
  have q2 : ((d0 + 10 * d1) * 2 ^ 1 + (d1 + 10 * d2) * 2 ^ 10 + (d2 + 10 * d3) * 2 ^ 19
        + (d3 + 10 * d4) * 2 ^ 28 + (d4 + 10 * d5) * 2 ^ 37 + (d5 + 10 * d6) * 2 ^ 46
        + d6 * 2 ^ 55) / 2 ^ 37 = (d4 + 10 * d5) + (d5 + 10 * d6) * 2 ^ 9 + d6 * 2 ^ 18 := by
    clear e8 e6 ey q0 q1; omega
  have q3 : ((d0 + 10 * d1) * 2 ^ 1 + (d1 + 10 * d2) * 2 ^ 10 + (d2 + 10 * d3) * 2 ^ 19
        + (d3 + 10 * d4) * 2 ^ 28 + (d4 + 10 * d5) * 2 ^ 37 + (d5 + 10 * d6) * 2 ^ 46
        + d6 * 2 ^ 55) / 2 ^ 55 = d6 := by clear e8 e6 ey q0 q1 q2; omega
  have a0 : ((d0 + 10 * d1) + (d1 + 10 * d2) * 2 ^ 9 + (d2 + 10 * d3) * 2 ^ 18
        + (d3 + 10 * d4) * 2 ^ 27 + (d4 + 10 * d5) * 2 ^ 36 + (d5 + 10 * d6) * 2 ^ 45
        + d6 * 2 ^ 54) % 256 = d0 + 10 * d1 := by clear e8 e6 ey q0 q1 q2 q3; omega
  have a1 : ((d2 + 10 * d3)
        + (d3 + 10 * d4) * 2 ^ 9 + (d4 + 10 * d5) * 2 ^ 18 + (d5 + 10 * d6) * 2 ^ 27
        + d6 * 2 ^ 36) % 256 = d2 + 10 * d3 := by clear e8 e6 ey q0 q1 q2 q3 a0; omega
  have a2 : ((d4 + 10 * d5) + (d5 + 10 * d6) * 2 ^ 9 + d6 * 2 ^ 18) % 256 = d4 + 10 * d5 := by
    clear e8 e6 ey q0 q1 q2 q3 a0 a1; omega
  have a3 : d6 % 256 = d6 := by clear e8 e6 ey q0 q1 q2 q3 a0 a1 a2; omega
  unfold atoi_pairs
  simp only []
  rw [e8, e6]
  unfold u64
  rw [ey, and_odd_mask, q0, q1, q2, q3, a0, a1, a2, a3]

theorem atoi_quads_eq (E0 E1 E2 E3 : Nat) (b0 : E0 ≤ 99) (b1 : E1 ≤ 99) (b2 : E2 ≤ 99)
    (b3 : E3 ≤ 9) :
    atoi_quads (E0 * 2 ^ 1 + E1 * 2 ^ 19 + E2 * 2 ^ 37 + E3 * 2 ^ 55)
      = (E0 + 100 * E1) * 2 ^ 1 + (E1 + 100 * E2) * 2 ^ 19 + (E2 + 100 * E3) * 2 ^ 37
        + E3 * 2 ^ 55 := by
  unfold atoi_quads
  generalize hz : E0 * 2 ^ 1 + E1 * 2 ^ 19 + E2 * 2 ^ 37 + E3 * 2 ^ 55 = z
  have z12 : z >>> 12 = E1 * 2 ^ 7 + E2 * 2 ^ 25 + E3 * 2 ^ 43 := by
    rw [Nat.shiftRight_eq_div_pow]; omega
  have z13 : z >>> 13 = E1 * 2 ^ 6 + E2 * 2 ^ 24 + E3 * 2 ^ 42 := by
    rw [Nat.shiftRight_eq_div_pow]; omega
  have z16 : z >>> 16 = E1 * 2 ^ 3 + E2 * 2 ^ 21 + E3 * 2 ^ 39 := by
    rw [Nat.shiftRight_eq_div_pow]; omega
  simp only []
  rw [z12, z13, z16]
  unfold u64
  omega

theorem atoi_fold_eq (F0 F1 F2 E3 : Nat) (b0 : F0 ≤ 9999) (b1 : F1 ≤ 9999) (b2 : F2 ≤ 999)
    (b3 : E3 ≤ 9) :
    atoi_fold (F0 * 2 ^ 1 + F1 * 2 ^ 19 + F2 * 2 ^ 37 + E3 * 2 ^ 55) = F0 + 10000 * F2 := by
  unfold atoi_fold
  generalize hw : F0 * 2 ^ 1 + F1 * 2 ^ 19 + F2 * 2 ^ 37 + E3 * 2 ^ 55 = w
  have m17 : (0x1FFFF : Nat) = 2 ^ 17 - 1 := by norm_num
  have l1 : w >>> 1 = F0 + F1 * 2 ^ 18 + F2 * 2 ^ 36 + E3 * 2 ^ 54 := by
    rw [Nat.shiftRight_eq_div_pow]; omega
  have l33 : w >>> 33 = F2 * 2 ^ 4 + E3 * 2 ^ 22 := by
    rw [Nat.shiftRight_eq_div_pow]; omega
  have lo : (w >>> 1) &&& 0x1FFFF = F0 := by
    rw [m17, Nat.and_pow_two_sub_one_eq_mod, l1]; omega
  have hi : (w >>> 33) &&& 0x1FFFF = 16 * F2 := by
    rw [m17, Nat.and_pow_two_sub_one_eq_mod, l33]; omega
  simp only []
  rw [lo, hi]
  simp only [u64, shl64, Nat.shiftLeft_eq]
  omega

/-- The shift-and-add arithmetic of `atoi` turns seven packed digit values (least
significant digit in the lowest lane) into their base-10 value. -/
theorem atoi_reduce_eq (d0 d1 d2 d3 d4 d5 d6 : Nat) (h0 : d0 ≤ 9) (h1 : d1 ≤ 9) (h2 : d2 ≤ 9)
    (h3 : d3 ≤ 9) (h4 : d4 ≤ 9) (h5 : d5 ≤ 9) (h6 : d6 ≤ 9) :
    atoi_reduce (d0 * 2 ^ 1 + d1 * 2 ^ 10 + d2 * 2 ^ 19 + d3 * 2 ^ 28 + d4 * 2 ^ 37 + d5 * 2 ^ 46
        + d6 * 2 ^ 55)
      = d0 + 10 * d1 + 100 * d2 + 1000 * d3 + 10000 * d4 + 100000 * d5 + 1000000 * d6 := by
  unfold atoi_reduce
  rw [atoi_pairs_eq d0 d1 d2 d3 d4 d5 d6 h0 h1 h2 h3 h4 h5 h6,
    atoi_quads_eq _ _ _ _ (by omega) (by omega) (by omega) h6,
    atoi_fold_eq _ _ _ _ (by omega) (by omega) (by omega) h6]
  omega

end simd_buffer64
end Sixit

/-! ## The packed 7-byte buffer: cells and `atoi` -/

namespace Sixit
namespace simd_buffer64

theorem testBit_cell (j x i : Nat) :
    (cell j x).testBit i
      = (decide (i < 9) && (decide (8 ≤ 9 * j + i) && x.testBit (9 * j + i - 8))) := by
  unfold cell
  rw [testBit_lane, ← Nat.shiftLeft_eq, Nat.testBit_shiftLeft]

theorem cell_or (j x y : Nat) : cell j (x ||| y) = cell j x ||| cell j y := by
  apply Nat.eq_of_testBit_eq
  intro i
  simp only [testBit_cell, Nat.testBit_or]
  cases decide (i < 9) <;> cases decide (8 ≤ 9 * j + i) <;> simp

theorem cell_and (j x y : Nat) : cell j (x &&& y) = cell j x &&& cell j y := by
  apply Nat.eq_of_testBit_eq
  intro i
  simp only [testBit_cell, Nat.testBit_and]
  cases decide (i < 9) <;> cases decide (8 ≤ 9 * j + i) <;> simp

theorem cell_lt (j x : Nat) : cell j x < 512 := lane_lt 9 j _

/-- Cells of a byte placed in the data bits of the lane at position `p`. -/
theorem cell_byte (b p j : Nat) (hb : b < 256) :
    cell j (b * 2 ^ (9 * p + 1)) = if j = p + 1 then b else 0 := by
  unfold cell
  have e : b * 2 ^ (9 * p + 1) * 2 ^ 8 = b * 2 ^ (9 * (p + 1)) := by
    have e' : 9 * p + 1 + 8 = 9 * (p + 1) := by omega
    rw [Nat.mul_assoc, ← Nat.pow_add, e']
  rw [e, lane_mul]
  by_cases h1 : j < p + 1
  · rw [if_pos h1, if_neg (by omega)]
  · rw [if_neg h1]
    by_cases h2 : j = p + 1
    · subst h2
      rw [if_pos rfl, Nat.sub_self, lane_zero_idx]
      exact Nat.mod_eq_of_lt (by omega)
    · rw [if_neg h2]
      apply lane_eq_zero_of_lt
      have : 2 ^ (9 * 1) ≤ 2 ^ (9 * (j - (p + 1))) :=
        Nat.pow_le_pow_right (by decide) (by omega)
      omega

/-- Cells after a left shift by whole lanes (`data <<= 9 * k`). -/
theorem cell_shl64 (x k j : Nat) (hj : j < 8) :
    cell j (shl64 x (9 * k)) = if j < k then 0 else cell (j - k) x := by
  unfold cell shl64
  have e : x <<< (9 * k) % 2 ^ 64 * 2 ^ 8 = x * 2 ^ 8 * 2 ^ (9 * k) % 2 ^ (9 * 8) := by
    rw [Nat.shiftLeft_eq, show (2 : Nat) ^ (9 * 8) = 2 ^ 64 * 2 ^ 8 by norm_num,
      ← Nat.mul_mod_mul_right]
    congr 1
    ring
  rw [e, lane_mod, if_pos hj, lane_mul]

theorem shl64_lt (x s : Nat) : shl64 x s < 2 ^ 64 := Nat.mod_lt _ (Nat.two_pow_pos _)

/-- A `uint64_t` is determined by its eight cells. -/
theorem eq_of_cells (x : Nat) (hx : x < 2 ^ 64) :
    x * 2 ^ 8 = packL 9 ((List.range 8).map (fun j => cell j x)) := by
  have h : x * 2 ^ 8 < 2 ^ (9 * 8) := by
    have : (2 : Nat) ^ (9 * 8) = 2 ^ 64 * 2 ^ 8 := by norm_num
    rw [this]
    exact Nat.mul_lt_mul_of_pos_right hx (by norm_num)
  exact eq_packL_lanes 9 8 _ h


theorem and_byte_at (u i m : Nat) (hm : m = 0xFF <<< (8 * i)) :
    u &&& m = lane 8 i u * 2 ^ (8 * i) := by
  subst hm
  rw [and_shifted_byte]
  rfl

theorem fill_from_init (u : Nat) :
    (fill_from init u 7).2 =
      { data := 0x8000000000000000 ||| shl64 (guard_mask
          ||| lane 8 0 u * 2 ^ (9 * 6 + 1) ||| lane 8 1 u * 2 ^ (9 * 5 + 1)
          ||| lane 8 2 u * 2 ^ (9 * 4 + 1) ||| lane 8 3 u * 2 ^ (9 * 3 + 1)
          ||| lane 8 4 u * 2 ^ (9 * 2 + 1) ||| lane 8 5 u * 2 ^ (9 * 1 + 1)
          ||| lane 8 6 u * 2 ^ (9 * 0 + 1)) 0,
        n_bytes := 7 } := by
  have b0 : shl64 (u &&& 0xff) 55 = lane 8 0 u * 2 ^ (9 * 6 + 1) := by
    rw [and_byte_at u 0 0xff (by decide)]
    have := lane_lt 8 0 u
    generalize lane 8 0 u = b at this ⊢
    simp only [shl64, Nat.shiftLeft_eq]
    omega
  have b1 : shl64 (u &&& 0xff00) 38 = lane 8 1 u * 2 ^ (9 * 5 + 1) := by
    rw [and_byte_at u 1 0xff00 (by decide)]
    have := lane_lt 8 1 u
    generalize lane 8 1 u = b at this ⊢
    simp only [shl64, Nat.shiftLeft_eq]
    omega
  have b2 : shl64 (u &&& 0xff0000) 21 = lane 8 2 u * 2 ^ (9 * 4 + 1) := by
    rw [and_byte_at u 2 0xff0000 (by decide)]
    have := lane_lt 8 2 u
    generalize lane 8 2 u = b at this ⊢
    simp only [shl64, Nat.shiftLeft_eq]
    omega
  have b3 : shl64 (u &&& 0xff000000) 4 = lane 8 3 u * 2 ^ (9 * 3 + 1) := by
    rw [and_byte_at u 3 0xff000000 (by decide)]
    have := lane_lt 8 3 u
    generalize lane 8 3 u = b at this ⊢
    simp only [shl64, Nat.shiftLeft_eq]
    omega
  have b4 : (u &&& 0xff00000000) >>> 13 = lane 8 4 u * 2 ^ (9 * 2 + 1) := by
    rw [and_byte_at u 4 0xff00000000 (by decide)]
    generalize lane 8 4 u = b
    simp only [Nat.shiftRight_eq_div_pow]
    omega
  have b5 : (u &&& 0xff0000000000) >>> 30 = lane 8 5 u * 2 ^ (9 * 1 + 1) := by
    rw [and_byte_at u 5 0xff0000000000 (by decide)]
    generalize lane 8 5 u = b
    simp only [Nat.shiftRight_eq_div_pow]
    omega
  have b6 : (u &&& 0xff000000000000) >>> 47 = lane 8 6 u * 2 ^ (9 * 0 + 1) := by
    rw [and_byte_at u 6 0xff000000000000 (by decide)]
    generalize lane 8 6 u = b
    simp only [Nat.shiftRight_eq_div_pow]
    omega
  unfold fill_from
  simp only [init, max_bytes]
  rw [b0, b1, b2, b3, b4, b5, b6]
  simp


theorem or_256 (b : Nat) (hb : b < 256) : 256 ||| b = 256 + b := by
  have := or_eq_add_of_lt b 1 8 (by simpa using hb)
  rw [Nat.or_comm] at this
  simpa [Nat.add_comm] using this

theorem cell_guard_mask (j : Nat) (hj : j < 8) : cell j guard_mask = 256 := by
  interval_cases j <;> decide

theorem cell_top_bit (j : Nat) (hj : j < 8) :
    cell j 0x8000000000000000 = if j = 7 then 256 else 0 := by
  interval_cases j <;> decide

theorem lane8_lt (i u : Nat) : lane 8 i u < 256 := lane_lt 8 i u

/-- Cells of the packed word after the first `fill_from(u, 7)`. -/
theorem cell_fill (u j : Nat) (hj : j < 8) :
    cell j (fill_from init u 7).2.data = if j = 0 then 256 else 256 + lane 8 (7 - j) u := by
  rw [fill_from_init]
  simp only []
  have h9 : (0 : Nat) = 9 * 0 := rfl
  rw [cell_or, h9, cell_shl64 _ 0 j hj, if_neg (Nat.not_lt_zero j), Nat.sub_zero]
  simp only [cell_or, cell_guard_mask j hj, cell_top_bit j hj,
    cell_byte _ _ _ (lane8_lt _ u)]
  interval_cases j <;> simp [or_256 _ (lane8_lt _ u)]
  rw [← or_256 _ (lane8_lt _ u), ← Nat.or_assoc, Nat.or_self]

theorem fill_n_bytes (u : Nat) : (fill_from init u 7).2.n_bytes = 7 := by
  rw [fill_from_init]

theorem fill_data_lt (u : Nat) : (fill_from init u 7).2.data < 2 ^ 64 := by
  rw [fill_from_init]
  simp only []
  exact Nat.or_lt_two_pow (by norm_num) (shl64_lt _ _)

/-- Cells of the packed word after `fill_from(u, 7)` and `consume(k)`. -/
theorem cell_state (u k j : Nat) (hj : j < 8) :
    cell j (consume (fill_from init u 7).2 (k : Int)).2.data
      = if j < k then 0 else if j = k then 256 else 256 + lane 8 (7 - j + k) u := by
  unfold consume
  simp only []
  have e : ((k : Int) * 9).toNat = 9 * k := by omega
  rw [e, cell_shl64 _ k j hj]
  split
  · rfl
  · rename_i h
    rw [cell_fill u (j - k) (by omega)]
    by_cases h2 : j = k
    · simp [h2]
    · rw [if_neg (by omega), if_neg h2]
      congr 2
      omega

theorem state_n_bytes (u : Nat) (k : Int) :
    (consume (fill_from init u 7).2 k).2.n_bytes = 7 - k := by
  unfold consume
  simp only [fill_n_bytes]

theorem state_data_lt (u : Nat) (k : Int) :
    (consume (fill_from init u 7).2 k).2.data < 2 ^ 64 := by
  unfold consume
  exact shl64_lt _ _

/-- Cells of `repeat<b>()`. -/
theorem cell_repeat (b j : Nat) (hj : j < 8) :
    cell j (repeat_ b) = if j = 0 then 0 else b % 256 := by
  unfold repeat_
  have hb : b % 256 < 256 := Nat.mod_lt _ (by norm_num)
  generalize b % 256 = c at hb
  simp only [Nat.shiftLeft_eq]
  have e0 : c * 2 ^ 1 = c * 2 ^ (9 * 0 + 1) := rfl
  have e1 : c * 2 ^ 10 = c * 2 ^ (9 * 1 + 1) := rfl
  have e2 : c * 2 ^ 19 = c * 2 ^ (9 * 2 + 1) := rfl
  have e3 : c * 2 ^ 28 = c * 2 ^ (9 * 3 + 1) := rfl
  have e4 : c * 2 ^ 37 = c * 2 ^ (9 * 4 + 1) := rfl
  have e5 : c * 2 ^ 46 = c * 2 ^ (9 * 5 + 1) := rfl
  have e6 : c * 2 ^ 55 = c * 2 ^ (9 * 6 + 1) := rfl
  rw [e0, e1, e2, e3, e4, e5, e6]
  simp only [cell_or, cell_byte _ _ _ hb]
  interval_cases j <;> simp

theorem repeat_lt (b : Nat) : repeat_ b < 2 ^ 64 := by
  unfold repeat_
  have hb : b % 256 < 256 := Nat.mod_lt _ (by norm_num)
  generalize b % 256 = c at hb
  simp only [Nat.shiftLeft_eq]
  have h0 : c * 2 ^ 1 < 2 ^ 64 := by omega
  have h1 : c * 2 ^ 10 < 2 ^ 64 := by omega
  have h2 : c * 2 ^ 19 < 2 ^ 64 := by omega
  have h3 : c * 2 ^ 28 < 2 ^ 64 := by omega
  have h4 : c * 2 ^ 37 < 2 ^ 64 := by omega
  have h5 : c * 2 ^ 46 < 2 ^ 64 := by omega
  have h6 : c * 2 ^ 55 < 2 ^ 64 := by omega
  exact Nat.or_lt_two_pow (Nat.or_lt_two_pow (Nat.or_lt_two_pow (Nat.or_lt_two_pow
    (Nat.or_lt_two_pow (Nat.or_lt_two_pow h0 h1) h2) h3) h4) h5) h6

/-- Cells of the subtrahend `b_data << (9 * m)`. -/
theorem cell_subtrahend (b m j : Nat) (hj : j < 8) :
    cell j (shl64 (repeat_ b) (9 * m)) = if j ≤ m then 0 else b % 256 := by
  rw [cell_shl64 _ m j hj]
  by_cases h : j < m
  · rw [if_pos h, if_pos (by omega)]
  · rw [if_neg h, cell_repeat b (j - m) (by omega)]
    by_cases h2 : j = m
    · subst h2; simp
    · rw [if_neg (by omega), if_neg (by omega)]


/-- Cell-wise subtraction when no cell borrows. -/
theorem cell_sub (x y : Nat) (hx : x < 2 ^ 64) (hy : y < 2 ^ 64)
    (h : ∀ j, j < 8 → cell j y ≤ cell j x) :
    y ≤ x ∧ ∀ j, j < 8 → cell j (x - y) = cell j x - cell j y := by
  have e : (2 : Nat) ^ (9 * 8) = 2 ^ 64 * 2 ^ 8 := by norm_num
  have hx' : x * 2 ^ 8 < 2 ^ (9 * 8) := by
    rw [e]; exact Nat.mul_lt_mul_of_pos_right hx (by norm_num)
  have hy' : y * 2 ^ 8 < 2 ^ (9 * 8) := by
    rw [e]; exact Nat.mul_lt_mul_of_pos_right hy (by norm_num)
  obtain ⟨hle, hs⟩ := lane_sub_of_le 9 8 (x * 2 ^ 8) (y * 2 ^ 8) hx' hy' h
  refine ⟨Nat.le_of_mul_le_mul_right hle (by norm_num), fun j hj => ?_⟩
  unfold cell
  rw [Nat.sub_mul]
  exact hs j hj

theorem sub64_eq (x y : Nat) (hx : x < 2 ^ 64) (hle : y ≤ x) : sub64 x y = x - y := by
  unfold sub64
  omega

theorem cell_sub64 (x y : Nat) (hx : x < 2 ^ 64) (hy : y < 2 ^ 64)
    (h : ∀ j, j < 8 → cell j y ≤ cell j x) (j : Nat) (hj : j < 8) :
    cell j (sub64 x y) = cell j x - cell j y := by
  obtain ⟨hle, hs⟩ := cell_sub x y hx hy h
  rw [sub64_eq x y hx hle]
  exact hs j hj

theorem sub64_lt (x y : Nat) : sub64 x y < 2 ^ 64 := Nat.mod_lt _ (Nat.two_pow_pos _)

/-- Cells after a right shift by whole lanes. -/
theorem cell_shr (x s j : Nat) (hj : 1 ≤ j) : cell j (x >>> (9 * s)) = cell (j + s) x := by
  apply Nat.eq_of_testBit_eq
  intro i
  simp only [testBit_cell, Nat.testBit_shiftRight]
  have h1 : 8 ≤ 9 * j + i := by omega
  have h2 : 8 ≤ 9 * (j + s) + i := by omega
  have e : 9 * s + (9 * j + i - 8) = 9 * (j + s) + i - 8 := by omega
  simp [h1, h2, e]

theorem cell_zero_shr (x s : Nat) : cell 0 (x >>> (9 * s)) = cell s x &&& 256 := by
  apply Nat.eq_of_testBit_eq
  intro i
  have h256 : (256 : Nat) = 2 ^ 8 := by norm_num
  rw [Nat.testBit_and, h256, Nat.testBit_two_pow]
  simp only [testBit_cell, Nat.testBit_shiftRight]
  by_cases h : i = 8
  · subst h
    simp
  · have h' : ¬ (8 = i) := fun h2 => h h2.symm
    by_cases h9 : i < 9
    · have h8 : ¬ (8 ≤ i) := by omega
      simp [h', h8]
    · simp [h9]

theorem cell_neg_guard_mask (j : Nat) (hj : j < 8) :
    cell j neg_guard_mask = if j = 0 then 0 else 255 := by
  interval_cases j <;> decide


theorem cell_eq_zero_of_le (x j : Nat) (hx : x < 2 ^ 64) (hj : 8 ≤ j) : cell j x = 0 := by
  unfold cell
  apply lane_eq_zero_of_lt
  have h1 : x * 2 ^ 8 < 2 ^ (9 * 8) := by
    have e : (2 : Nat) ^ (9 * 8) = 2 ^ 64 * 2 ^ 8 := by norm_num
    rw [e]; exact Nat.mul_lt_mul_of_pos_right hx (by norm_num)
  exact lt_of_lt_of_le h1 (Nat.pow_le_pow_right (by decide) (by omega))

/-- The digit value that `atoi` places in packed lane `p` (lane 0 = last digit). -/
theorem atoi_front (u k len : Nat) (hlen : 1 ≤ len) (hk : k + len ≤ 7)
    (hd : allDigits (bytesAt u k len)) :
    ∀ c, c = (sub64 (consume (fill_from init u 7).2 (k : Int)).2.data
          (shl64 (repeat_ 48) (9 * (7 - len))) &&& neg_guard_mask) >>> (9 * (7 - len)) →
      c < 2 ^ 64 ∧ cell 0 c = 0 ∧
      ∀ p, p < 7 → cell (p + 1) c
        = if p < len then lane 8 (k + (len - 1 - p)) u - 48 else 0 := by
  intro c hc
  subst hc
  have hdl := state_data_lt u (k : Int)
  have hcell := cell_state u k
  generalize (consume (fill_from init u 7).2 (k : Int)).2 = s at hdl hcell
  have hX := cell_subtrahend 48 (7 - len)
  have hXlt : shl64 (repeat_ 48) (9 * (7 - len)) < 2 ^ 64 := shl64_lt _ _
  generalize shl64 (repeat_ 48) (9 * (7 - len)) = X at hX hXlt
  have hle : ∀ j, j < 8 → cell j X ≤ cell j s.data := by
    intro j hj
    rw [hX j hj, hcell j hj]
    by_cases h : j ≤ 7 - len
    · rw [if_pos h]; exact Nat.zero_le _
    · rw [if_neg h, if_neg (by omega), if_neg (by omega)]
      omega
  have hc0 := cell_sub64 s.data X hdl hXlt hle
  have hc0lt : sub64 s.data X < 2 ^ 64 := sub64_lt _ _
  generalize sub64 s.data X = c0 at hc0 hc0lt
  have hc1 : ∀ j, j < 8 → cell j (c0 &&& neg_guard_mask)
      = if j = 0 then 0 else (cell j s.data - cell j X) % 256 := by
    intro j hj
    rw [cell_and, cell_neg_guard_mask j hj, hc0 j hj]
    by_cases h : j = 0
    · rw [if_pos h, if_pos h, Nat.and_zero]
    · rw [if_neg h, if_neg h]
      exact and_low_mask _ 8 255 (by norm_num)
  have hc1lt : c0 &&& neg_guard_mask < 2 ^ 64 :=
    lt_of_le_of_lt Nat.and_le_left hc0lt
  generalize c0 &&& neg_guard_mask = c1 at hc1 hc1lt
  refine ⟨?_, ?_, ?_⟩
  · rw [Nat.shiftRight_eq_div_pow]
    exact lt_of_le_of_lt (Nat.div_le_self _ _) hc1lt
  · rw [cell_zero_shr, hc1 _ (by omega)]
    by_cases h : 7 - len = 0
    · rw [if_pos h, Nat.zero_and]
    · rw [if_neg h]
      have := Nat.mod_lt (cell (7 - len) s.data - cell (7 - len) X) (show 0 < 256 by norm_num)
      generalize (cell (7 - len) s.data - cell (7 - len) X) % 256 = v at this
      have h256 : (256 : Nat) = 1 * 2 ^ 8 := by norm_num
      apply Nat.eq_of_testBit_eq
      intro i
      rw [Nat.testBit_and, Nat.zero_testBit]
      by_cases h8 : i = 8
      · subst h8
        rw [Nat.testBit_lt_two_pow (by simpa using this), Bool.false_and]
      · have : (256 : Nat).testBit i = false := by
          have e : (256 : Nat) = 2 ^ 8 := by norm_num
          rw [e, Nat.testBit_two_pow]
          simp; omega
        rw [this, Bool.and_false]
  · intro p hp
    rw [cell_shr _ _ _ (by omega)]
    by_cases h : p < len
    · rw [if_pos h, hc1 _ (by omega), if_neg (by omega), hX _ (by omega), hcell _ (by omega),
        if_neg (by omega), if_neg (by omega), if_neg (by omega)]
      have e : 7 - (p + 1 + (7 - len)) + k = k + (len - 1 - p) := by omega
      rw [e]
      have hdig := hd _ (mem_bytesAt u k len (len - 1 - p) (by omega))
      omega
    · rw [if_neg h]
      exact cell_eq_zero_of_le _ _ hc1lt (by omega)


theorem atoi_unfold (s : simd_buffer64) (len : Nat) (hlen : len ≤ 7) :
    atoi s (len : Int)
      = atoi_reduce ((sub64 s.data (shl64 (repeat_ 48) (9 * (7 - len))) &&& neg_guard_mask)
          >>> (9 * (7 - len))) := by
  unfold atoi
  simp only [max_bytes]
  have e : (9 * (7 - (len : Int))).toNat = 9 * (7 - len) := by omega
  rw [e]

theorem cells_to_word (c d0 d1 d2 d3 d4 d5 d6 : Nat) (hc : c < 2 ^ 64) (h0 : cell 0 c = 0)
    (e0 : cell 1 c = d0) (e1 : cell 2 c = d1) (e2 : cell 3 c = d2) (e3 : cell 4 c = d3)
    (e4 : cell 5 c = d4) (e5 : cell 6 c = d5) (e6 : cell 7 c = d6)
    (b0 : d0 ≤ 9) (b1 : d1 ≤ 9) (b2 : d2 ≤ 9) (b3 : d3 ≤ 9) (b4 : d4 ≤ 9) (b5 : d5 ≤ 9)
    (b6 : d6 ≤ 9) :
    c = d0 * 2 ^ 1 + d1 * 2 ^ 10 + d2 * 2 ^ 19 + d3 * 2 ^ 28 + d4 * 2 ^ 37 + d5 * 2 ^ 46
        + d6 * 2 ^ 55 := by
  have h := eq_of_cells c hc
  simp only [List.range_succ, List.range_zero, List.nil_append, List.cons_append, List.map_cons,
    List.map_nil, h0, e0, e1, e2, e3, e4, e5, e6, packL] at h
  omega

theorem hval_seven (D : Nat → Nat) :
    hval 10 ((List.range 7).map (fun q => D (6 - q)))
      = D 0 + 10 * D 1 + 100 * D 2 + 1000 * D 3 + 10000 * D 4 + 100000 * D 5
        + 1000000 * D 6 := by
  simp [hval, List.range_succ]
  ring

/-- Digit conversion of the 7-byte buffer on a run of `len` digits at offset `k`. -/
theorem atoi_run64 (u k len : Nat) (hlen : 1 ≤ len) (hk : k + len ≤ 7)
    (hd : allDigits (bytesAt u k len)) :
    atoi (consume (fill_from init u 7).2 (k : Int)).2 (len : Int)
      = decimalValue (bytesAt u k len) := by
  rw [atoi_unfold _ len (by omega)]
  obtain ⟨hc, h0, hp⟩ := atoi_front u k len hlen hk hd _ rfl
  generalize (sub64 (consume (fill_from init u 7).2 (k : Int)).2.data
          (shl64 (repeat_ 48) (9 * (7 - len))) &&& neg_guard_mask) >>> (9 * (7 - len)) = c
    at hc h0 hp
  have hD : ∀ p, (if p < len then lane 8 (k + (len - 1 - p)) u - 48 else 0) ≤ 9 := by
    intro p
    split
    · rename_i h
      have hdig := hd _ (mem_bytesAt u k len (len - 1 - p) (by omega))
      omega
    · omega
  rw [cells_to_word c _ _ _ _ _ _ _ hc h0 (hp 0 (by omega)) (hp 1 (by omega)) (hp 2 (by omega))
    (hp 3 (by omega)) (hp 4 (by omega)) (hp 5 (by omega)) (hp 6 (by omega))
    (hD 0) (hD 1) (hD 2) (hD 3) (hD 4) (hD 5) (hD 6),
    atoi_reduce_eq _ _ _ _ _ _ _ (hD 0) (hD 1) (hD 2) (hD 3) (hD 4) (hD 5) (hD 6)]
  have hlist : (List.range 7).map
        (fun q => if 6 - q < len then lane 8 (k + (len - 1 - (6 - q))) u - 48 else 0)
      = List.replicate (7 - len) 0 ++ (bytesAt u k len).map (fun c => c - 48) := by
    apply List.ext_getElem
    · simp [bytesAt]; omega
    · intro q h1 h2
      have hq : q < 7 := by simpa using h1
      simp only [List.getElem_map, List.getElem_range]
      by_cases h : q < 7 - len
      · rw [if_neg (by omega), List.getElem_append_left (by simpa using h)]
        simp
      · rw [if_pos (by omega), List.getElem_append_right (by simpa using h)]
        simp [bytesAt]
        congr 2
        omega
  unfold decimalValue
  rw [← hval_replicate_zero 10 (7 - len), ← hlist]
  exact (hval_seven (fun p => if p < len then lane 8 (k + (len - 1 - p)) u - 48 else 0)).symm

end simd_buffer64
end Sixit

/-! ## The packed 7-byte buffer: comparison masks -/

namespace Sixit
namespace simd_buffer64

theorem testBit_guard (x j : Nat) : x.testBit (9 * j) = (cell j x).testBit 8 := by
  rw [testBit_cell]
  have h : 8 ≤ 9 * j + 8 := by omega
  simp [h]

theorem testBit_eight (c : Nat) (hc : c < 512) : c.testBit 8 = decide (256 ≤ c) := by
  rw [Nat.testBit_to_div_mod]
  congr 1
  apply propext
  constructor <;> intro h <;> omega

theorem guard_mask_lt : guard_mask < 2 ^ 64 := by decide

theorem guard_mask_testBit (t : Nat) :
    guard_mask.testBit t = decide (t % 9 = 0 ∧ t < 64) := by
  by_cases h : t < 64
  · interval_cases t <;> decide
  · have h1 : guard_mask < 2 ^ t :=
      lt_of_lt_of_le guard_mask_lt (Nat.pow_le_pow_right (by decide) (by omega))
    rw [Nat.testBit_lt_two_pow h1]
    simp [h]

theorem cell_zero_le (x : Nat) : cell 0 x = 0 ∨ cell 0 x = 256 := by
  unfold cell lane
  simp only [Nat.mul_zero, Nat.pow_zero, Nat.div_one]
  omega

theorem cell_ones (j : Nat) (hj : j < 8) :
    cell j (2 ^ 64 - 1) = if j = 0 then 256 else 511 := by
  interval_cases j <;> decide

/-- Cells of the complement `~x`. -/
theorem cell_not64 (x j : Nat) (hx : x < 2 ^ 64) (hj : j < 8) :
    cell j (not64 x) = (if j = 0 then 256 else 511) - cell j x := by
  unfold not64
  rw [Nat.mod_eq_of_lt hx]
  have h : ∀ i, i < 8 → cell i x ≤ cell i (2 ^ 64 - 1) := by
    intro i hi
    rw [cell_ones i hi]
    by_cases h0 : i = 0
    · subst h0
      rcases cell_zero_le x with h | h <;> simp [h]
    · rw [if_neg h0]
      have := cell_lt i x
      omega
  obtain ⟨_, hs⟩ := cell_sub (2 ^ 64 - 1) x (by norm_num) hx h
  rw [hs j hj, cell_ones j hj]

/-- Member `get` reads the data bits of a cell. -/
theorem get_eq_cell (s : simd_buffer64) (i : Nat) (hi : i ≤ 6) :
    get s (i : Int) = cell (7 - i) s.data % 256 := by
  unfold get cell lane
  simp only [max_bytes]
  have e : (1 + (7 - (i : Int) - 1) * 9).toNat = 9 * (7 - i) - 8 := by omega
  rw [e, Nat.shiftRight_eq_div_pow]
  have e2 : 2 ^ (9 * (7 - i)) = 2 ^ 8 * 2 ^ (9 * (7 - i) - 8) := by
    rw [← Nat.pow_add]; congr 1; omega
  rw [e2, Nat.mul_comm s.data, Nat.mul_div_mul_left _ _ (by norm_num : 0 < 2 ^ 8)]
  generalize s.data / 2 ^ (9 * (7 - i) - 8) = v
  omega

/-- After `fill_from(u, 7)` and `consume(k)`, `get(i)` is byte `k + i` of `u`. -/
theorem get_state (u k i : Nat) (hi : k + i ≤ 6) :
    get (consume (fill_from init u 7).2 (k : Int)).2 (i : Int) = lane 8 (k + i) u := by
  rw [get_eq_cell _ i (by omega), cell_state u k (7 - i) (by omega), if_neg (by omega),
    if_neg (by omega)]
  have e : 7 - (7 - i) + k = k + i := by omega
  rw [e]
  have := lane8_lt (k + i) u
  omega


/-- Cells of `data - (b_data << (9 * (max_bytes - n_bytes)))` in a state reached by
`fill_from(u, 7)` and `consume(k)`: no borrow leaves a cell. -/
theorem cell_not_borrowed (u k b j : Nat) (hb : b < 256) (hj : j < 8) :
    cell j (sub64 (consume (fill_from init u 7).2 (k : Int)).2.data
        (shl64 (repeat_ b) (9 * k)))
      = cell j (consume (fill_from init u 7).2 (k : Int)).2.data
          - (if j ≤ k then 0 else b) := by
  have hX := cell_subtrahend b k
  rw [Nat.mod_eq_of_lt hb] at hX
  rw [cell_sub64 _ _ (state_data_lt u _) (shl64_lt _ _) _ j hj, hX j hj]
  intro i hi
  rw [hX i hi, cell_state u k i hi]
  by_cases h : i ≤ k
  · rw [if_pos h]; exact Nat.zero_le _
  · rw [if_neg h, if_neg (by omega), if_neg (by omega)]
    omega

theorem shift_amount (u : Nat) (k : Nat) (hk : k ≤ 7) :
    (9 * (max_bytes - (consume (fill_from init u 7).2 (k : Int)).2.n_bytes)).toNat = 9 * k := by
  rw [state_n_bytes]
  simp only [max_bytes]
  omega

/-- Guard bit `9 * j` of the mask returned by `equal_to<b>()`. -/
theorem equal_to_guard_bit (u k b j : Nat) (hk : k ≤ 7) (hb : b ≤ 254) (hj : j < 8) :
    (equal_to b (consume (fill_from init u 7).2 (k : Int)).2).m.testBit (9 * j)
      = decide (k < j ∧ lane 8 (7 - j + k) u = b) := by
  unfold equal_to
  simp only [shift_amount u k hk]
  rw [testBit_guard, cell_and, cell_and, cell_guard_mask j hj,
    cell_not64 _ j (sub64_lt _ _) hj, cell_not_borrowed u k b j (by omega) hj,
    cell_not_borrowed u k (b + 1) j (by omega) hj, cell_state u k j hj]
  have hv := lane8_lt (7 - j + k) u
  generalize lane 8 (7 - j + k) u = v at hv ⊢
  rw [Nat.testBit_and, Nat.testBit_and]
  have h256 : (256 : Nat).testBit 8 = true := by decide
  rw [h256, Bool.and_true]
  split_ifs <;>
    (rw [testBit_eight _ (by omega), testBit_eight _ (by omega)]
     simp only [← Bool.decide_and, decide_eq_decide]
     omega)

/-- Guard bit `9 * j` of the mask returned by `lt_than<b>()`: it is the "not borrowed"
bit, set when the byte is at least `b`. -/
theorem lt_than_guard_bit (u k b j : Nat) (hk : k ≤ 7) (hb : b ≤ 255) (hj : j < 8) :
    (lt_than b (consume (fill_from init u 7).2 (k : Int)).2).m.testBit (9 * j)
      = decide (j = k ∨ (k < j ∧ b ≤ lane 8 (7 - j + k) u)) := by
  unfold lt_than
  simp only [shift_amount u k hk]
  rw [testBit_guard, cell_and, cell_guard_mask j hj,
    cell_not_borrowed u k b j (by omega) hj, cell_state u k j hj]
  have hv := lane8_lt (7 - j + k) u
  generalize lane 8 (7 - j + k) u = v at hv ⊢
  rw [Nat.testBit_and]
  have h256 : (256 : Nat).testBit 8 = true := by decide
  rw [h256, Bool.and_true]
  split_ifs <;>
    (rw [testBit_eight _ (by omega)]
     simp only [decide_eq_decide]
     omega)


theorem equal_to_lt (b : Nat) (s : simd_buffer64) : (equal_to b s).m < 2 ^ 64 := by
  unfold equal_to
  exact lt_of_le_of_lt Nat.and_le_right guard_mask_lt

/-- Every bit of the mask returned by `equal_to<b>()`. -/
theorem equal_to_testBit (u k b t : Nat) (hk : k ≤ 7) (hb : b ≤ 254) :
    (equal_to b (consume (fill_from init u 7).2 (k : Int)).2).m.testBit t
      = decide (t % 9 = 0 ∧ t < 64 ∧ k < t / 9 ∧ lane 8 (7 - t / 9 + k) u = b) := by
  by_cases hg : t % 9 = 0 ∧ t < 64
  · have e : t = 9 * (t / 9) := by omega
    have hj : t / 9 < 8 := by omega
    generalize t / 9 = j at e hj
    subst e
    rw [equal_to_guard_bit u k b j hk hb hj]
    simp only [decide_eq_decide]
    omega
  · have h1 : guard_mask.testBit t = false := by
      rw [guard_mask_testBit]; exact decide_eq_false hg
    have h2 : ¬ (t % 9 = 0 ∧ t < 64 ∧ k < t / 9 ∧ lane 8 (7 - t / 9 + k) u = b) :=
      fun h => hg ⟨h.1, h.2.1⟩
    rw [decide_eq_false h2]
    unfold equal_to
    simp only [Nat.testBit_and, h1, Bool.and_false]

/-- The mask of `equal_to<b>()` has exactly the guard bits of the matching valid lanes. -/
theorem equal_to_bits (u k b t : Nat) (hk : k ≤ 7) (hb : b ≤ 254) :
    (equal_to b (consume (fill_from init u 7).2 (k : Int)).2).m.testBit t = true ↔
      ∃ i : Nat, (i : Int) < n_left (consume (fill_from init u 7).2 (k : Int)).2 ∧
        t = 9 * (7 - i) ∧ get (consume (fill_from init u 7).2 (k : Int)).2 (i : Int) = b := by
  rw [equal_to_testBit u k b t hk hb, decide_eq_true_iff]
  unfold n_left
  rw [state_n_bytes]
  constructor
  · rintro ⟨h1, h2, h3, h4⟩
    refine ⟨7 - t / 9, by omega, by omega, ?_⟩
    rw [get_state u k _ (by omega), ← h4]
    congr 1
    omega
  · rintro ⟨i, h1, h2, h3⟩
    have hi : k + i ≤ 6 := by omega
    rw [get_state u k i hi] at h3
    subst h2
    have e : 9 * (7 - i) / 9 = 7 - i := by omega
    rw [e]
    refine ⟨by omega, by omega, by omega, ?_⟩
    rw [← h3]
    congr 1
    omega

theorem countl_zero64_of_top (m t : Nat) (h1 : m.testBit t = true)
    (h2 : ∀ t', t < t' → m.testBit t' = false) : countl_zero64 m = 63 - t := by
  have hge : 2 ^ t ≤ m := Nat.testBit_implies_ge h1
  have hlt : m < 2 ^ (t + 1) := Nat.lt_pow_two_of_testBit m (fun i hi => h2 i (by omega))
  have hne : m ≠ 0 := by
    have := Nat.two_pow_pos t
    omega
  unfold countl_zero64
  rw [if_neg hne]
  have hlog : Nat.log2 m = t := by
    have a1 : Nat.log2 m < t + 1 := (Nat.log2_lt hne).2 hlt
    have a2 : ¬ (Nat.log2 m < t) := by
      intro h
      have := (Nat.log2_lt hne).1 h
      omega
    omega
  rw [hlog]

/-- Member `countl_zero()` of the `equal_to<b>()` mask: 7 when no valid byte matches. -/
theorem equal_to_countl_zero_none (u k b : Nat) (hk : k ≤ 7) (hb : b ≤ 254)
    (hnone : ∀ i : Nat, (i : Int) < n_left (consume (fill_from init u 7).2 (k : Int)).2 →
      get (consume (fill_from init u 7).2 (k : Int)).2 (i : Int) ≠ b) :
    (equal_to b (consume (fill_from init u 7).2 (k : Int)).2).countl_zero = 7 := by
  have hz : (equal_to b (consume (fill_from init u 7).2 (k : Int)).2).m = 0 := by
    apply Nat.eq_of_testBit_eq
    intro t
    rw [Nat.zero_testBit]
    by_contra h
    rw [Bool.not_eq_false] at h
    obtain ⟨i, h1, _, h3⟩ := (equal_to_bits u k b t hk hb).1 h
    exact hnone i h1 h3
  unfold mask_type.countl_zero countl_zero64
  rw [if_pos hz]

/-- Member `countl_zero()` of the `equal_to<b>()` mask: the index of the first match. -/
theorem equal_to_countl_zero_first (u k b i : Nat) (hk : k ≤ 7) (hb : b ≤ 254)
    (hi : (i : Int) < n_left (consume (fill_from init u 7).2 (k : Int)).2)
    (hm : get (consume (fill_from init u 7).2 (k : Int)).2 (i : Int) = b)
    (hfirst : ∀ i' : Nat, i' < i →
      get (consume (fill_from init u 7).2 (k : Int)).2 (i' : Int) ≠ b) :
    (equal_to b (consume (fill_from init u 7).2 (k : Int)).2).countl_zero = i := by
  have hi7 : i < 7 := by
    unfold n_left at hi
    rw [state_n_bytes] at hi
    omega
  have h1 := (equal_to_bits u k b (9 * (7 - i)) hk hb).2 ⟨i, hi, rfl, hm⟩
  have h2 : ∀ t', 9 * (7 - i) < t' →
      (equal_to b (consume (fill_from init u 7).2 (k : Int)).2).m.testBit t' = false := by
    intro t' ht'
    by_contra h
    rw [Bool.not_eq_false] at h
    obtain ⟨i', _, h4, h5⟩ := (equal_to_bits u k b t' hk hb).1 h
    exact hfirst i' (by omega) h5
  unfold mask_type.countl_zero
  rw [countl_zero64_of_top _ _ h1 h2]
  omega


/-- The population count of a word that has only guard bits set is the number of set guard bits. -/
theorem popcount64_guard (m : Nat) (h : ∀ t, m.testBit t = true → t % 9 = 0) :
    popcount64 m = (List.range 8).countP (fun j => m.testBit (9 * j)) := by
  have hnot : ∀ t, t % 9 ≠ 0 → m.testBit t = false := by
    intro t ht
    by_contra hc
    rw [Bool.not_eq_false] at hc
    exact ht (h t hc)
  unfold popcount64
  rw [← List.countP_eq_length_filter]
  simp [List.range_succ, List.countP_append, List.countP_cons, hnot]


/-- Member `popcount()` of the `equal_to<b>()` mask counts the matching valid bytes. -/
theorem equal_to_popcount (u k b : Nat) (hk : k ≤ 7) (hb : b ≤ 254) :
    (equal_to b (consume (fill_from init u 7).2 (k : Int)).2).popcount
      = (List.range (n_left (consume (fill_from init u 7).2 (k : Int)).2).toNat).countP
          (fun i : Nat => decide (get (consume (fill_from init u 7).2 (k : Int)).2 (i : Int) = b)) := by
  unfold mask_type.popcount
  rw [popcount64_guard _ (fun t ht => by
    rw [equal_to_testBit u k b t hk hb, decide_eq_true_iff] at ht
    exact ht.1)]
  have hL : (List.range 8).countP
        (fun j => (equal_to b (consume (fill_from init u 7).2 (k : Int)).2).m.testBit (9 * j))
      = (List.range 8).countP (fun j => decide (k < j ∧ lane 8 (7 - j + k) u = b)) := by
    apply List.countP_congr
    intro j hj
    rw [equal_to_guard_bit u k b j hk hb (List.mem_range.1 hj)]
  have hn : (n_left (consume (fill_from init u 7).2 (k : Int)).2).toNat = 7 - k := by
    unfold n_left
    rw [state_n_bytes]
    omega
  have hR : (List.range (7 - k)).countP
        (fun i : Nat => decide (get (consume (fill_from init u 7).2 (k : Int)).2 (i : Int) = b))
      = (List.range (7 - k)).countP (fun i => decide (lane 8 (k + i) u = b)) := by
    apply List.countP_congr
    intro i hi
    rw [get_state u k i (by have := List.mem_range.1 hi; omega)]
  rw [hL, hn, hR]
  interval_cases k <;>
    simp [List.range_succ, List.countP_append, List.countP_cons] <;> omega

end simd_buffer64
end Sixit

/-! ## The 32- and 64-byte buffers: reduction trees and realignment -/

namespace Sixit

/-- A byte lane seen through the 64-bit word that contains it. -/
theorem lane8_of_lane64 (q r x : Nat) (hr : r < 8) :
    lane 8 r (lane 64 q x) = lane 8 (8 * q + r) x := by
  apply Nat.eq_of_testBit_eq
  intro j
  simp only [testBit_lane]
  by_cases hj : j < 8
  · have h1 : 8 * r + j < 64 := by omega
    have e : 64 * q + (8 * r + j) = 8 * (8 * q + r) + j := by omega
    simp [hj, h1, e]
  · simp [hj]

/-- The two bytes of a 16-bit lane that holds a value below 256. -/
theorem lane8_of_small_lane16 (m x : Nat) (h : lane 16 m x < 256) :
    lane 8 (2 * m) x = lane 16 m x ∧ lane 8 (2 * m + 1) x = 0 := by
  have hs : lane 16 m x = lane 8 (2 * m) x + 2 ^ 8 * lane 8 (2 * m + 1) x := lane_split 8 m x
  have h0 := lane_lt 8 (2 * m) x
  generalize lane 8 (2 * m) x = a at hs h0 ⊢
  generalize lane 8 (2 * m + 1) x = b at hs ⊢
  generalize lane 16 m x = c at hs h
  omega

theorem lane_cvtepi16_epi8 (n a i : Nat) (hi : i < n) (h : lane 16 i a < 256) :
    lane 8 i (cvtepi16_epi8 n a) = lane 16 i a := by
  unfold cvtepi16_epi8
  rw [lane_mkLanes _ _ _ _ hi]
  exact Nat.mod_eq_of_lt (by simpa using h)

/-- Fourth-stage step shared by the 32- and 64-byte reductions: `mul_epu32` by `10^8` on
the even 32-bit lanes plus the odd 32-bit lanes. -/
theorem lane_mul_add_epu32 (n c M i : Nat) (hi : i < n) (hM : lane 32 (2 * i) M = 100000000)
    (h0 : lane 32 (2 * i) c ≤ 99999999) (h1 : lane 32 (2 * i + 1) c ≤ 99999999) :
    lane 64 i (add_epi64 n (mul_epu32 n c M) (srli_epi64 n c 32))
      = 100000000 * lane 32 (2 * i) c + lane 32 (2 * i + 1) c := by
  rw [lane_add_epi64 _ _ _ _ hi, lane_mul_epu32 _ _ _ _ hi, lane_srli_epi64_32 _ _ _ hi, hM]
  generalize lane 32 (2 * i) c = a at h0 ⊢
  generalize lane 32 (2 * i + 1) c = b at h1 ⊢
  omega

namespace simd_buffer256

theorem reduce_pack (avx512 : Bool) (c256 : Nat) (hc : ∀ i, i < 16 → lane 16 i c256 ≤ 99)
    (i : Nat) (hi : i < 16) :
    lane 8 i
      (if avx512 then cvtepi16_epi8 16 c256
      else
        packL 64 [lane 64 0 (shuffle_epi8_256 c256 (setr_epi8
            [0, 2, 4, 6, 8, 10, 12, 14, 1, 3, 5, 7, 9, 11, 13, 15,
             0, 2, 4, 6, 8, 10, 12, 14, 1, 3, 5, 7, 9, 11, 13, 15])),
          lane 64 1 (shuffle_epi8_256 c256 (setr_epi8
            [0, 2, 4, 6, 8, 10, 12, 14, 1, 3, 5, 7, 9, 11, 13, 15,
             0, 2, 4, 6, 8, 10, 12, 14, 1, 3, 5, 7, 9, 11, 13, 15]))
          ||| lane 64 2 (shuffle_epi8_256 c256 (setr_epi8
            [0, 2, 4, 6, 8, 10, 12, 14, 1, 3, 5, 7, 9, 11, 13, 15,
             0, 2, 4, 6, 8, 10, 12, 14, 1, 3, 5, 7, 9, 11, 13, 15]))])
      = lane 16 i c256 := by
  cases avx512 with
  | true =>
    rw [if_pos rfl]
    exact lane_cvtepi16_epi8 16 c256 i hi (by have := hc i hi; omega)
  | false =>
    rw [if_neg (by decide)]
    have hsh : ∀ j, j < 32 → lane 8 j (shuffle_epi8_256 c256 (setr_epi8
            [0, 2, 4, 6, 8, 10, 12, 14, 1, 3, 5, 7, 9, 11, 13, 15,
             0, 2, 4, 6, 8, 10, 12, 14, 1, 3, 5, 7, 9, 11, 13, 15]))
        = lane 8 (16 * (j / 16) + (if j % 16 < 8 then 2 * (j % 16) else 2 * (j % 16 - 8) + 1))
            c256 := by
      intro j hj
      unfold shuffle_epi8_256
      rw [lane_mkLanes _ _ _ _ hj]
      have hsel : lane 8 j (setr_epi8
            [0, 2, 4, 6, 8, 10, 12, 14, 1, 3, 5, 7, 9, 11, 13, 15,
             0, 2, 4, 6, 8, 10, 12, 14, 1, 3, 5, 7, 9, 11, 13, 15])
          = if j % 16 < 8 then 2 * (j % 16) else 2 * (j % 16 - 8) + 1 := by
        interval_cases j <;> rfl
      rw [hsel]
      have hlt : (if j % 16 < 8 then 2 * (j % 16) else 2 * (j % 16 - 8) + 1) < 16 := by
        split <;> omega
      rw [if_neg (by omega), Nat.mod_eq_of_lt hlt, Nat.mod_eq_of_lt (lane_lt 8 _ _)]
    generalize shuffle_epi8_256 c256 (setr_epi8
            [0, 2, 4, 6, 8, 10, 12, 14, 1, 3, 5, 7, 9, 11, 13, 15,
             0, 2, 4, 6, 8, 10, 12, 14, 1, 3, 5, 7, 9, 11, 13, 15]) = t at hsh ⊢
    have hq : i = 8 * (i / 8) + i % 8 := by omega
    have hr : i % 8 < 8 := Nat.mod_lt _ (by norm_num)
    rw [hq, ← lane8_of_lane64 _ _ _ hr, lane_packL]
    rcases (by omega : i / 8 = 0 ∨ i / 8 = 1) with h | h
    · rw [h]
      simp only [List.getD_cons_zero, Nat.mod_eq_of_lt (lane_lt 64 _ _)]
      rw [lane8_of_lane64 _ _ _ hr, hsh _ (by omega)]
      have e1 : 16 * ((8 * 0 + i % 8) / 16) + (if (8 * 0 + i % 8) % 16 < 8
          then 2 * ((8 * 0 + i % 8) % 16) else 2 * ((8 * 0 + i % 8) % 16 - 8) + 1)
          = 2 * i := by
        rw [if_pos (by omega)]; omega
      have e2 : 8 * 0 + i % 8 = i := by omega
      rw [e1, e2]
      exact (lane8_of_small_lane16 i c256 (by have := hc i hi; omega)).1
    · rw [h]
      have hor : lane 64 1 t ||| lane 64 2 t < 2 ^ 64 :=
        Nat.or_lt_two_pow (lane_lt 64 _ _) (lane_lt 64 _ _)
      simp only [List.getD_cons_succ, List.getD_cons_zero, Nat.mod_eq_of_lt hor]
      rw [lane_or, lane8_of_lane64 _ _ _ hr, lane8_of_lane64 _ _ _ hr, hsh _ (by omega),
        hsh _ (by omega)]
      have e1 : 16 * ((8 * 1 + i % 8) / 16) + (if (8 * 1 + i % 8) % 16 < 8
          then 2 * ((8 * 1 + i % 8) % 16) else 2 * ((8 * 1 + i % 8) % 16 - 8) + 1)
          = 2 * (i - 8) + 1 := by
        rw [if_neg (by omega)]; omega
      have e2 : 16 * ((8 * 2 + i % 8) / 16) + (if (8 * 2 + i % 8) % 16 < 8
          then 2 * ((8 * 2 + i % 8) % 16) else 2 * ((8 * 2 + i % 8) % 16 - 8) + 1)
          = 2 * i := by
        rw [if_pos (by omega)]; omega
      have e3 : 8 * 1 + i % 8 = i := by omega
      rw [e1, e2, e3, (lane8_of_small_lane16 (i - 8) c256 (by have := hc (i - 8) (by omega); omega)).2,
        Nat.zero_or]
      exact (lane8_of_small_lane16 i c256 (by have := hc i hi; omega)).1


/-- The reduction tree computes the base-10 value of the 32 lanes (lane 0 most
significant) modulo `2 ^ 64`, whenever every lane holds a digit value. -/
theorem reduce_eq256 (avx512 : Bool) (x : Nat) (hx : ∀ i, i < 32 → lane 8 i x ≤ 9) :
    reduce avx512 x = hval 10 (lanes 8 32 x) % 2 ^ 64 := by
  unfold reduce
  simp only []
  have H1 : ∀ i, i < 16 → lane 16 i (maddubs_epi16 16 x
      (set_epi8 [1, 10, 1, 10, 1, 10, 1, 10, 1, 10, 1, 10, 1, 10, 1, 10,
                 1, 10, 1, 10, 1, 10, 1, 10, 1, 10, 1, 10, 1, 10, 1, 10]))
      = 10 * lane 8 (2 * i) x + lane 8 (2 * i + 1) x := by
    intro i hi
    have h0 := hx (2 * i) (by omega)
    have h1 := hx (2 * i + 1) (by omega)
    rw [lane_maddubs 16 x _ i 10 1 hi (by interval_cases i <;> rfl)
      (by interval_cases i <;> rfl) (by decide) (by decide) (by omega)]
    omega
  generalize maddubs_epi16 16 x
      (set_epi8 [1, 10, 1, 10, 1, 10, 1, 10, 1, 10, 1, 10, 1, 10, 1, 10,
                 1, 10, 1, 10, 1, 10, 1, 10, 1, 10, 1, 10, 1, 10, 1, 10]) = c256 at H1 ⊢
  have B1 : ∀ i, i < 16 → lane 16 i c256 ≤ 99 := by
    intro i hi
    have h0 := hx (2 * i) (by omega)
    have h1 := hx (2 * i + 1) (by omega)
    rw [H1 i hi]; omega
  have Hc := reduce_pack avx512 c256 B1
  generalize (if avx512 then cvtepi16_epi8 16 c256
      else
        packL 64 [lane 64 0 (shuffle_epi8_256 c256 (setr_epi8
            [0, 2, 4, 6, 8, 10, 12, 14, 1, 3, 5, 7, 9, 11, 13, 15,
             0, 2, 4, 6, 8, 10, 12, 14, 1, 3, 5, 7, 9, 11, 13, 15])),
          lane 64 1 (shuffle_epi8_256 c256 (setr_epi8
            [0, 2, 4, 6, 8, 10, 12, 14, 1, 3, 5, 7, 9, 11, 13, 15,
             0, 2, 4, 6, 8, 10, 12, 14, 1, 3, 5, 7, 9, 11, 13, 15]))
          ||| lane 64 2 (shuffle_epi8_256 c256 (setr_epi8
            [0, 2, 4, 6, 8, 10, 12, 14, 1, 3, 5, 7, 9, 11, 13, 15,
             0, 2, 4, 6, 8, 10, 12, 14, 1, 3, 5, 7, 9, 11, 13, 15]))]) = c128 at Hc ⊢
  have H2 : ∀ i, i < 8 → lane 16 i (maddubs_epi16 8 c128
      (set_epi8 [1, 100, 1, 100, 1, 100, 1, 100, 1, 100, 1, 100, 1, 100, 1, 100]))
      = 100 * lane 16 (2 * i) c256 + lane 16 (2 * i + 1) c256 := by
    intro i hi
    have h0 := B1 (2 * i) (by omega)
    have h1 := B1 (2 * i + 1) (by omega)
    rw [lane_maddubs 8 c128 _ i 100 1 hi (by interval_cases i <;> rfl)
      (by interval_cases i <;> rfl) (by decide) (by decide)
      (by rw [Hc _ (by omega), Hc _ (by omega)]; omega),
      Hc _ (by omega), Hc _ (by omega)]
    omega
  generalize maddubs_epi16 8 c128
      (set_epi8 [1, 100, 1, 100, 1, 100, 1, 100, 1, 100, 1, 100, 1, 100, 1, 100]) = c2 at H2 ⊢
  have B2 : ∀ i, i < 8 → lane 16 i c2 ≤ 9999 := by
    intro i hi
    have h0 := B1 (2 * i) (by omega)
    have h1 := B1 (2 * i + 1) (by omega)
    rw [H2 i hi]; omega
  have H3 : ∀ i, i < 4 → lane 32 i (madd_epi16 4 c2
      (set_epi16 [1, 10000, 1, 10000, 1, 10000, 1, 10000]))
      = 10000 * lane 16 (2 * i) c2 + lane 16 (2 * i + 1) c2 := by
    intro i hi
    have h0 := B2 (2 * i) (by omega)
    have h1 := B2 (2 * i + 1) (by omega)
    rw [lane_madd 4 c2 _ i 10000 1 hi (by interval_cases i <;> rfl)
      (by interval_cases i <;> rfl) (by decide) (by decide) (by omega) (by omega)]
    omega
  generalize madd_epi16 4 c2 (set_epi16 [1, 10000, 1, 10000, 1, 10000, 1, 10000]) = c3 at H3 ⊢
  have B3 : ∀ i, i < 4 → lane 32 i c3 ≤ 99999999 := by
    intro i hi
    have h0 := B2 (2 * i) (by omega)
    have h1 := B2 (2 * i + 1) (by omega)
    rw [H3 i hi]; omega
  have H4 : ∀ i, i < 2 → lane 64 i (add_epi64 2
        (mul_epu32 2 c3 (set_epi32 [0, 100000000, 0, 100000000])) (srli_epi64 2 c3 32))
      = 100000000 * lane 32 (2 * i) c3 + lane 32 (2 * i + 1) c3 := by
    intro i hi
    exact lane_mul_add_epu32 2 c3 _ i hi (by interval_cases i <;> rfl)
      (B3 _ (by omega)) (B3 _ (by omega))
  generalize add_epi64 2
        (mul_epu32 2 c3 (set_epi32 [0, 100000000, 0, 100000000])) (srli_epi64 2 c3 32) = c4
    at H4 ⊢
  have e5 : lane 64 0 c4 * 10000000000000000 + lane 64 1 c4
      = hval (100000000 * 100000000) ((List.range 2).map (fun i => lane 64 i c4)) := by
    simp [hval, List.range_succ]
  unfold u64
  rw [e5, hval_congr_range _ 2 _ _ H4, hval_pairs 100000000 2 (fun i => lane 32 i c3)]
  have e4 : (100000000 : Nat) = 10000 * 10000 := by norm_num
  rw [e4, hval_congr_range _ (2 * 2) _ _ H3, hval_pairs 10000 (2 * 2) (fun i => lane 16 i c2)]
  have e100 : (10000 : Nat) = 100 * 100 := by norm_num
  rw [e100, hval_congr_range _ (2 * (2 * 2)) _ _ H2,
    hval_pairs 100 (2 * (2 * 2)) (fun i => lane 16 i c256)]
  have e10 : (100 : Nat) = 10 * 10 := by norm_num
  rw [e10, hval_congr_range _ (2 * (2 * (2 * 2))) _ _ H1,
    hval_pairs 10 (2 * (2 * (2 * 2))) (fun i => lane 8 i x)]
  rfl

end simd_buffer256

namespace simd_buffer512

theorem lane_and_mask32 (c M i : Nat) (hM : lane 64 i M = 2 ^ 32 - 1) :
    lane 64 i (c &&& M) = lane 32 (2 * i) c := by
  rw [lane_and, and_low_mask _ 32 _ hM]
  have hs : lane 64 i c = lane 32 (2 * i) c + 2 ^ 32 * lane 32 (2 * i + 1) c := lane_split 32 i c
  have h0 := lane_lt 32 (2 * i) c
  rw [hs]
  generalize lane 32 (2 * i) c = a at h0 ⊢
  generalize lane 32 (2 * i + 1) c = b
  omega

/-- The reduction tree returns the base-10 value of lanes 32..47 times `10^16` plus the
base-10 value of lanes 48..63, modulo `2 ^ 64`, whenever every lane holds a digit value;
lanes 0..31 are computed but not used. -/
theorem reduce_eq512 (x : Nat) (hx : ∀ i, i < 64 → lane 8 i x ≤ 9) :
    ∃ r0 r1 r2 r3 : Nat,
      hval 10 (lanes 8 64 x) = hval (100000000 * 100000000) [r0, r1, r2, r3] ∧
      reduce x = (r2 * 10000000000000000 + r3) % 2 ^ 64 ∧
      r2 < 10000000000000000 ∧ r3 < 10000000000000000 := by
  unfold reduce
  simp only []
  have H1 : ∀ i, i < 32 → lane 16 i (maddubs_epi16 32 x
      (set_epi8 [1, 10, 1, 10, 1, 10, 1, 10, 1, 10, 1, 10, 1, 10, 1, 10,
                 1, 10, 1, 10, 1, 10, 1, 10, 1, 10, 1, 10, 1, 10, 1, 10,
                 1, 10, 1, 10, 1, 10, 1, 10, 1, 10, 1, 10, 1, 10, 1, 10,
                 1, 10, 1, 10, 1, 10, 1, 10, 1, 10, 1, 10, 1, 10, 1, 10]))
      = 10 * lane 8 (2 * i) x + lane 8 (2 * i + 1) x := by
    intro i hi
    have h0 := hx (2 * i) (by omega)
    have h1 := hx (2 * i + 1) (by omega)
    rw [lane_maddubs 32 x _ i 10 1 hi (by interval_cases i <;> rfl)
      (by interval_cases i <;> rfl) (by decide) (by decide) (by omega)]
    omega
  generalize maddubs_epi16 32 x
      (set_epi8 [1, 10, 1, 10, 1, 10, 1, 10, 1, 10, 1, 10, 1, 10, 1, 10,
                 1, 10, 1, 10, 1, 10, 1, 10, 1, 10, 1, 10, 1, 10, 1, 10,
                 1, 10, 1, 10, 1, 10, 1, 10, 1, 10, 1, 10, 1, 10, 1, 10,
                 1, 10, 1, 10, 1, 10, 1, 10, 1, 10, 1, 10, 1, 10, 1, 10]) = c512 at H1 ⊢
  have B1 : ∀ i, i < 32 → lane 16 i c512 ≤ 99 := by
    intro i hi
    have h0 := hx (2 * i) (by omega)
    have h1 := hx (2 * i + 1) (by omega)
    rw [H1 i hi]; omega
  have Hc : ∀ i, i < 32 → lane 8 i (cvtepi16_epi8 32 c512) = lane 16 i c512 := by
    intro i hi
    exact lane_cvtepi16_epi8 32 c512 i hi (by have := B1 i hi; omega)
  generalize cvtepi16_epi8 32 c512 = c256 at Hc ⊢
  have H2 : ∀ i, i < 16 → lane 16 i (maddubs_epi16 16 c256
      (set_epi8 [1, 100, 1, 100, 1, 100, 1, 100, 1, 100, 1, 100, 1, 100, 1, 100,
                 1, 100, 1, 100, 1, 100, 1, 100, 1, 100, 1, 100, 1, 100, 1, 100]))
      = 100 * lane 16 (2 * i) c512 + lane 16 (2 * i + 1) c512 := by
    intro i hi
    have h0 := B1 (2 * i) (by omega)
    have h1 := B1 (2 * i + 1) (by omega)
    rw [lane_maddubs 16 c256 _ i 100 1 hi (by interval_cases i <;> rfl)
      (by interval_cases i <;> rfl) (by decide) (by decide)
      (by rw [Hc _ (by omega), Hc _ (by omega)]; omega),
      Hc _ (by omega), Hc _ (by omega)]
    omega
  generalize maddubs_epi16 16 c256
      (set_epi8 [1, 100, 1, 100, 1, 100, 1, 100, 1, 100, 1, 100, 1, 100, 1, 100,
                 1, 100, 1, 100, 1, 100, 1, 100, 1, 100, 1, 100, 1, 100, 1, 100]) = c2 at H2 ⊢
  have B2 : ∀ i, i < 16 → lane 16 i c2 ≤ 9999 := by
    intro i hi
    have h0 := B1 (2 * i) (by omega)
    have h1 := B1 (2 * i + 1) (by omega)
    rw [H2 i hi]; omega
  have H3 : ∀ i, i < 8 → lane 32 i (madd_epi16 8 c2
      (set_epi16 [1, 10000, 1, 10000, 1, 10000, 1, 10000,
                  1, 10000, 1, 10000, 1, 10000, 1, 10000]))
      = 10000 * lane 16 (2 * i) c2 + lane 16 (2 * i + 1) c2 := by
    intro i hi
    have h0 := B2 (2 * i) (by omega)
    have h1 := B2 (2 * i + 1) (by omega)
    rw [lane_madd 8 c2 _ i 10000 1 hi (by interval_cases i <;> rfl)
      (by interval_cases i <;> rfl) (by decide) (by decide) (by omega) (by omega)]
    omega
  generalize madd_epi16 8 c2 (set_epi16 [1, 10000, 1, 10000, 1, 10000, 1, 10000,
                  1, 10000, 1, 10000, 1, 10000, 1, 10000]) = c3 at H3 ⊢
  have B3 : ∀ i, i < 8 → lane 32 i c3 ≤ 99999999 := by
    intro i hi
    have h0 := B2 (2 * i) (by omega)
    have h1 := B2 (2 * i + 1) (by omega)
    rw [H3 i hi]; omega
  have H4 : ∀ i, i < 4 → lane 64 i (add_epi64 4
        (mullo_epi64 4 (c3 &&& set_epi32 [0, 0xffffffff, 0, 0xffffffff, 0, 0xffffffff, 0,
            0xffffffff])
          (set_epi32 [0, 100000000, 0, 100000000, 0, 100000000, 0, 100000000]))
        (srli_epi64 4 c3 32))
      = 100000000 * lane 32 (2 * i) c3 + lane 32 (2 * i + 1) c3 := by
    intro i hi
    have h0 := B3 (2 * i) (by omega)
    have h1 := B3 (2 * i + 1) (by omega)
    rw [lane_add_epi64 _ _ _ _ hi, lane_srli_epi64_32 _ _ _ hi]
    unfold mullo_epi64
    rw [lane_mkLanes _ _ _ _ hi, lane_and_mask32 c3 _ i (by interval_cases i <;> rfl)]
    have hk : lane 64 i (set_epi32 [0, 100000000, 0, 100000000, 0, 100000000, 0, 100000000])
        = 100000000 := by interval_cases i <;> rfl
    rw [hk]
    generalize lane 32 (2 * i) c3 = a at h0 ⊢
    generalize lane 32 (2 * i + 1) c3 = b at h1 ⊢
    omega
  generalize add_epi64 4
        (mullo_epi64 4 (c3 &&& set_epi32 [0, 0xffffffff, 0, 0xffffffff, 0, 0xffffffff, 0,
            0xffffffff])
          (set_epi32 [0, 100000000, 0, 100000000, 0, 100000000, 0, 100000000]))
        (srli_epi64 4 c3 32) = c4 at H4 ⊢
  have B4 : ∀ i, i < 4 → lane 64 i c4 < 10000000000000000 := by
    intro i hi
    have h0 := B3 (2 * i) (by omega)
    have h1 := B3 (2 * i + 1) (by omega)
    rw [H4 i hi]; omega
  refine ⟨lane 64 0 c4, lane 64 1 c4, lane 64 2 c4, lane 64 3 c4, ?_, rfl, B4 2 (by omega),
    B4 3 (by omega)⟩
  have e5 : [lane 64 0 c4, lane 64 1 c4, lane 64 2 c4, lane 64 3 c4]
      = (List.range (2 * 2)).map (fun i => lane 64 i c4) := by
    simp [List.range_succ]
  rw [e5, hval_congr_range _ (2 * 2) _ _ H4, hval_pairs 100000000 (2 * 2) (fun i => lane 32 i c3)]
  have e4 : (100000000 : Nat) = 10000 * 10000 := by norm_num
  rw [e4, hval_congr_range _ (2 * (2 * 2)) _ _ H3,
    hval_pairs 10000 (2 * (2 * 2)) (fun i => lane 16 i c2)]
  have e100 : (10000 : Nat) = 100 * 100 := by norm_num
  rw [e100, hval_congr_range _ (2 * (2 * (2 * 2))) _ _ H2,
    hval_pairs 100 (2 * (2 * (2 * 2))) (fun i => lane 16 i c512)]
  have e10 : (100 : Nat) = 10 * 10 := by norm_num
  rw [e10, hval_congr_range _ (2 * (2 * (2 * (2 * 2)))) _ _ H1,
    hval_pairs 10 (2 * (2 * (2 * (2 * 2)))) (fun i => lane 8 i x)]
  rfl

end simd_buffer512

theorem lane64_high (c n i : Nat) (hc : c < 2 ^ (64 * n)) (hi : n ≤ i) : lane 64 i c = 0 :=
  lane_eq_zero_of_lt 64 i c
    (lt_of_lt_of_le hc (Nat.pow_le_pow_right (by decide) (Nat.mul_le_mul_left _ hi)))

theorem shl64_zero_arg (s : Nat) : shl64 0 s = 0 := by
  simp [shl64]

theorem div_pow_bytes (c q r : Nat) :
    c / 2 ^ (64 * q) / 2 ^ (8 * r) = c / 2 ^ (8 * (8 * q + r)) := by
  rw [Nat.div_div_eq_div_mul, ← Nat.pow_add]
  congr 2
  omega

theorem mul_pow_bytes (c q r : Nat) :
    c * 2 ^ (64 * q) * 2 ^ (8 * r) = c * 2 ^ (8 * (8 * q + r)) := by
  rw [Nat.mul_assoc, ← Nat.pow_add]
  congr 2
  omega

namespace simd_buffer256

/-- The words of a register, as stored by `_mm256_store_si256` into `uint64_t[4]`. -/
theorem shr_words_eq256 (c k : Nat) (hc : c < 2 ^ (64 * 4)) (hk : k ≤ 31) :
    shr_words { w0 := lane 64 0 c, w1 := lane 64 1 c, w2 := lane 64 2 c, w3 := lane 64 3 c }
        (k : Int)
      = { w0 := lane 64 0 (c / 2 ^ (64 * (k / 8))), w1 := lane 64 1 (c / 2 ^ (64 * (k / 8))),
          w2 := lane 64 2 (c / 2 ^ (64 * (k / 8))), w3 := lane 64 3 (c / 2 ^ (64 * (k / 8))) } := by
  have hz : ∀ i, 4 ≤ i → lane 64 i c = 0 := fun i hi => lane64_high c 4 i hc hi
  unfold shr_words
  simp only [lane_div]
  rcases (by omega : k / 8 = 0 ∨ k / 8 = 1 ∨ k / 8 = 2 ∨ k / 8 = 3) with h | h | h | h
  · have c1 : ¬ ((k : Int) > 15) := by omega
    have c2 : ¬ ((k : Int) > 7) := by omega
    simp only [c1, c2, if_false, h, Nat.add_zero]
  · have c1 : ¬ ((k : Int) > 15) := by omega
    have c2 : (k : Int) > 7 := by omega
    simp only [c1, c2, if_false, if_true, h, hz 4 (by omega)]
  · have c1 : (k : Int) > 15 := by omega
    have c2 : ¬ ((k : Int) > 23) := by omega
    simp only [c1, c2, if_false, if_true, h, hz 4 (by omega), hz 5 (by omega)]
  · have c1 : (k : Int) > 15 := by omega
    have c2 : (k : Int) > 23 := by omega
    simp only [c1, c2, if_true, h, hz 4 (by omega), hz 5 (by omega), hz 6 (by omega)]

theorem shr_count_eq (k : Nat) (hk : k ≤ 31) : shr_count (k : Int) = ((k % 8 : Nat) : Int) := by
  unfold shr_count
  split_ifs <;> omega

theorem shr_bits_eq256 (W r : Nat) (hW : W < 2 ^ (64 * 4)) (hr : r < 8) :
    shr_bits { w0 := lane 64 0 W, w1 := lane 64 1 W, w2 := lane 64 2 W, w3 := lane 64 3 W }
        (r : Int)
      = { w0 := lane 64 0 (W / 2 ^ (8 * r)), w1 := lane 64 1 (W / 2 ^ (8 * r)),
          w2 := lane 64 2 (W / 2 ^ (8 * r)), w3 := lane 64 3 (W / 2 ^ (8 * r)) } := by
  unfold shr_bits
  by_cases h0 : r = 0
  · subst h0
    simp
  · have hne : (r : Int) ≠ 0 := by omega
    have e1 : ((r : Int) * 8).toNat = 8 * r := by omega
    have e2 : (64 - (r : Int) * 8).toNat = 64 - 8 * r := by omega
    simp only [hne, ne_eq, not_false_eq_true, if_true, e1, e2]
    rw [lane64_shr W (8 * r) 0 (by omega) (by omega), lane64_shr W (8 * r) 1 (by omega) (by omega),
      lane64_shr W (8 * r) 2 (by omega) (by omega), lane64_shr W (8 * r) 3 (by omega) (by omega),
      lane64_high W 4 (3 + 1) hW (by omega), shl64_zero_arg, Nat.or_zero]

theorem shl_words_eq256 (Y m : Nat) (hm : m ≤ 31) :
    shl_words { w0 := lane 64 0 Y, w1 := lane 64 1 Y, w2 := lane 64 2 Y, w3 := lane 64 3 Y }
        (m : Int)
      = { w0 := lane 64 0 (Y * 2 ^ (64 * (m / 8))), w1 := lane 64 1 (Y * 2 ^ (64 * (m / 8))),
          w2 := lane 64 2 (Y * 2 ^ (64 * (m / 8))), w3 := lane 64 3 (Y * 2 ^ (64 * (m / 8))) } := by
  unfold shl_words
  simp only [lane_mul]
  rcases (by omega : m / 8 = 0 ∨ m / 8 = 1 ∨ m / 8 = 2 ∨ m / 8 = 3) with h | h | h | h
  · have c1 : ¬ ((m : Int) > 15) := by omega
    have c2 : ¬ ((m : Int) > 7) := by omega
    simp [c1, c2, h]
  · have c1 : ¬ ((m : Int) > 15) := by omega
    have c2 : (m : Int) > 7 := by omega
    simp [c1, c2, h]
  · have c1 : (m : Int) > 15 := by omega
    have c2 : ¬ ((m : Int) > 23) := by omega
    simp [c1, c2, h]
  · have c1 : (m : Int) > 15 := by omega
    have c2 : (m : Int) > 23 := by omega
    simp [c1, c2, h]

theorem shl_count_eq (m : Nat) (hm : m ≤ 31) : shl_count (m : Int) = ((m % 8 : Nat) : Int) := by
  unfold shl_count
  split_ifs <;> omega

theorem shl_bits_eq256 (W r : Nat) (hr : r < 8) :
    shl_bits { w0 := lane 64 0 W, w1 := lane 64 1 W, w2 := lane 64 2 W, w3 := lane 64 3 W }
        (r : Int)
      = { w0 := lane 64 0 (W * 2 ^ (8 * r)), w1 := lane 64 1 (W * 2 ^ (8 * r)),
          w2 := lane 64 2 (W * 2 ^ (8 * r)), w3 := lane 64 3 (W * 2 ^ (8 * r)) } := by
  unfold shl_bits
  by_cases h0 : r = 0
  · subst h0
    simp
  · have hne : (r : Int) ≠ 0 := by omega
    have e1 : ((r : Int) * 8).toNat = 8 * r := by omega
    have e2 : (64 - (r : Int) * 8).toNat = 64 - 8 * r := by omega
    simp only [hne, ne_eq, not_false_eq_true, if_true, e1, e2]
    rw [lane64_shl_zero, lane64_shl_succ W (8 * r) 0 (by omega) (by omega),
      lane64_shl_succ W (8 * r) 1 (by omega) (by omega),
      lane64_shl_succ W (8 * r) 2 (by omega) (by omega)]

/-- The realignment block moves the run of `len` bytes at byte `k` to the top of the
register and clears everything below it. -/
theorem realign_eq256 (c k len : Nat) (hc : c < 2 ^ 256) (hk : k ≤ 31) (hl0 : 1 ≤ len)
    (hl : len ≤ 32) : realign c (k : Int) (len : Int) = alignTop 32 c k len := by
  unfold realign
  simp only []
  have hc' : c < 2 ^ (64 * 4) := hc
  have hW : c / 2 ^ (64 * (k / 8)) < 2 ^ (64 * 4) := lt_of_le_of_lt (Nat.div_le_self _ _) hc'
  have em : (32 : Int) - (len : Int) = ((32 - len : Nat) : Int) := by omega
  rw [shr_words_eq256 c k hc' hk, shr_count_eq k hk, shr_bits_eq256 _ (k % 8) hW (Nat.mod_lt _ (by norm_num)),
    em, shl_words_eq256 _ (32 - len) (by omega), shl_count_eq (32 - len) (by omega),
    shl_bits_eq256 _ ((32 - len) % 8) (Nat.mod_lt _ (by norm_num))]
  simp only []
  rw [div_pow_bytes, mul_pow_bytes]
  have e1 : 8 * (k / 8) + k % 8 = k := by omega
  have e2 : 8 * ((32 - len) / 8) + (32 - len) % 8 = 32 - len := by omega
  rw [e1, e2]
  have := packL_lanes 64 4 (c / 2 ^ (8 * k) * 2 ^ (8 * (32 - len)))
  simpa [lanes, List.range_succ, alignTop] using this

end simd_buffer256
end Sixit

namespace Sixit
namespace simd_buffer512

theorem lanes8_explicit (x : Nat) :
    lanes 64 8 x = [lane 64 0 x, lane 64 1 x, lane 64 2 x, lane 64 3 x, lane 64 4 x,
      lane 64 5 x, lane 64 6 x, lane 64 7 x] := by
  simp [lanes, List.range_succ]

theorem shr_words_eq512 (c q : Nat) (hc : c < 2 ^ (64 * 8)) (hq : q ≤ 7) :
    shr_words (lanes 64 8 c) (q : Int) = lanes 64 8 (c / 2 ^ (64 * q)) := by
  have hz : ∀ i, 8 ≤ i → lane 64 i c = 0 := fun i hi => lane64_high c 8 i hc hi
  rw [lanes8_explicit, lanes8_explicit]
  simp only [lane_div]
  unfold shr_words
  interval_cases q <;> simp [List.foldl, hz]

end simd_buffer512
namespace simd_buffer512

theorem shr_bits_eq512 (W r : Nat) (hW : W < 2 ^ (64 * 8)) (hr : r < 8) :
    shr_bits (lanes 64 8 W) ((r : Int) * 8) = lanes 64 8 (W / 2 ^ (8 * r)) := by
  unfold shr_bits
  by_cases h0 : r = 0
  · subst h0
    simp [List.foldl]
  · have hpos : (r : Int) * 8 > 0 := by omega
    have e1 : ((r : Int) * 8).toNat = 8 * r := by omega
    have e2 : (64 - (r : Int) * 8).toNat = 64 - 8 * r := by omega
    rw [lanes8_explicit, lanes8_explicit]
    rw [lane64_shr W (8 * r) 0 (by omega) (by omega), lane64_shr W (8 * r) 1 (by omega) (by omega),
      lane64_shr W (8 * r) 2 (by omega) (by omega), lane64_shr W (8 * r) 3 (by omega) (by omega),
      lane64_shr W (8 * r) 4 (by omega) (by omega), lane64_shr W (8 * r) 5 (by omega) (by omega),
      lane64_shr W (8 * r) 6 (by omega) (by omega), lane64_shr W (8 * r) 7 (by omega) (by omega),
      lane64_high W 8 (7 + 1) hW (by omega)]
    simp only [hpos, if_true, e1, e2, List.foldl, List.set, List.getD_cons_zero,
      List.getD_cons_succ, Nat.lt_irrefl, if_false, shl64_zero_arg]
    simp

theorem shl_words_eq512 (Y q : Nat) (hq : q ≤ 7) :
    shl_words (lanes 64 8 Y) (q : Int) = lanes 64 8 (Y * 2 ^ (64 * q)) := by
  rw [lanes8_explicit, lanes8_explicit]
  simp only [lane_mul]
  unfold shl_words
  interval_cases q <;> simp [List.foldl]

theorem shl_bits_eq512 (W r : Nat) (hr : r < 8) :
    shl_bits (lanes 64 8 W) ((r : Int) * 8) = lanes 64 8 (W * 2 ^ (8 * r)) := by
  unfold shl_bits
  by_cases h0 : r = 0
  · subst h0
    simp [List.foldl]
  · have hpos : (r : Int) * 8 > 0 := by omega
    have e1 : ((r : Int) * 8).toNat = 8 * r := by omega
    have e2 : (64 - (r : Int) * 8).toNat = 64 - 8 * r := by omega
    rw [lanes8_explicit, lanes8_explicit]
    rw [lane64_shl_zero, lane64_shl_succ W (8 * r) 0 (by omega) (by omega),
      lane64_shl_succ W (8 * r) 1 (by omega) (by omega),
      lane64_shl_succ W (8 * r) 2 (by omega) (by omega),
      lane64_shl_succ W (8 * r) 3 (by omega) (by omega),
      lane64_shl_succ W (8 * r) 4 (by omega) (by omega),
      lane64_shl_succ W (8 * r) 5 (by omega) (by omega),
      lane64_shl_succ W (8 * r) 6 (by omega) (by omega)]
    simp only [hpos, if_true, e1, e2, List.foldl, List.set, List.getD_cons_zero,
      List.getD_cons_succ]
    simp

/-- The realignment block moves the run of `len` bytes at byte `k` to the top of the
register and clears everything below it. -/
theorem realign_eq512 (c k len : Nat) (hc : c < 2 ^ 512) (hk : k ≤ 63) (hl0 : 1 ≤ len)
    (hl : len ≤ 64) : realign c (k : Int) (len : Int) = alignTop 64 c k len := by
  unfold realign
  simp only []
  have hc' : c < 2 ^ (64 * 8) := hc
  have hW : c / 2 ^ (64 * (k / 8)) < 2 ^ (64 * 8) := lt_of_le_of_lt (Nat.div_le_self _ _) hc'
  have a1 : (k : Int) / 8 = ((k / 8 : Nat) : Int) := by omega
  have a2 : (k : Int) % 8 = ((k % 8 : Nat) : Int) := by omega
  have a3 : (64 - (len : Int)) / 8 = (((64 - len) / 8 : Nat) : Int) := by omega
  have a4 : (64 - (len : Int)) % 8 = (((64 - len) % 8 : Nat) : Int) := by omega
  rw [a1, a2, a3, a4, shr_words_eq512 c (k / 8) hc' (by omega),
    shr_bits_eq512 _ (k % 8) hW (Nat.mod_lt _ (by norm_num)),
    shl_words_eq512 _ ((64 - len) / 8) (by omega),
    shl_bits_eq512 _ ((64 - len) % 8) (Nat.mod_lt _ (by norm_num)),
    div_pow_bytes, mul_pow_bytes]
  have e1 : 8 * (k / 8) + k % 8 = k := by omega
  have e2 : 8 * ((64 - len) / 8) + (64 - len) % 8 = 64 - len := by omega
  rw [e1, e2, packL_lanes]
  rfl

end simd_buffer512

theorem ofSigned_of_nonneg (w : Nat) (z : Int) (v : Nat) (hz : z = (v : Int)) :
    ofSigned w z = v % 2 ^ w := by
  subst hz
  exact ofSigned_natCast w v

theorem lane_subs_epi8_digit (n a i : Nat) (hi : i < n) (h1 : 48 ≤ lane 8 i a)
    (h2 : lane 8 i a ≤ 57) :
    lane 8 i (subs_epi8 n a (set1_epi8 n 48)) = lane 8 i a - 48 := by
  unfold subs_epi8
  rw [lane_mkLanes _ _ _ _ hi, lane_set1_epi8 _ _ _ hi]
  have t1 : toSigned 8 (lane 8 i a) = (lane 8 i a : Int) :=
    toSigned_of_lt 8 _ (by simp only [Nat.add_one_sub_one]; omega)
  have t2 : toSigned 8 (48 % 2 ^ 8) = (48 : Int) := by decide
  rw [t1, t2]
  generalize lane 8 i a = v at h1 h2 ⊢
  have hs : saturate8 ((v : Int) - 48) = ((v - 48 : Nat) : Int) := by
    unfold saturate8
    rw [if_neg (by omega), if_neg (by omega)]
    omega
  rw [hs, ofSigned_natCast]
  omega

/-- Saturating subtraction of `'0'` from the digit bytes of a run gives the digit values. -/
theorem bytesAt_subs_epi8 (n r k len : Nat) (hk : k + len ≤ n)
    (hd : allDigits (bytesAt r k len)) :
    bytesAt (subs_epi8 n r (set1_epi8 n 48)) k len = (bytesAt r k len).map (fun c => c - 48) := by
  unfold bytesAt
  rw [List.map_map]
  apply List.map_congr_left
  intro j hj
  have hj' := List.mem_range.1 hj
  have hdig := hd _ (mem_bytesAt r k len j hj')
  simp only [Function.comp]
  exact lane_subs_epi8_digit n r (k + j) (by omega) hdig.1 hdig.2

theorem digits_le (l : List Nat) (hd : allDigits l) : ∀ v ∈ l.map (fun c => c - 48), v ≤ 9 := by
  intro v hv
  obtain ⟨c, hc, rfl⟩ := List.mem_map.1 hv
  have := hd c hc
  omega

theorem alignTop_self (N c : Nat) (hc : c < 2 ^ (8 * N)) : alignTop N c 0 N = c := by
  simp only [alignTop, Nat.mul_zero, Nat.pow_zero, Nat.div_one, Nat.sub_self, Nat.mul_one]
  exact Nat.mod_eq_of_lt hc

namespace simd_buffer256

theorem logical_eq256 (s : simd_buffer256) (k len : Nat) (hb : s.begin = (k : Int)) :
    logical s len = bytesAt s.data k len := by
  unfold logical bytesAt get
  apply List.map_congr_left
  intro i _
  rw [hb]
  congr 1
  omega

/-- Digit conversion of the 32-byte buffer: the base-10 value of the run modulo `2 ^ 64`. -/
theorem atoi_run256 (avx512 : Bool) (s : simd_buffer256) (k len : Nat) (hb : s.begin = (k : Int))
    (hlen : 1 ≤ len) (hk : k + len ≤ 32) (hd : allDigits (logical s len)) :
    atoi_value avx512 s (len : Int) = decimalValue (logical s len) % 2 ^ 64 := by
  rw [logical_eq256 s k len hb] at hd ⊢
  unfold atoi_value
  simp only [hb]
  have hclt : sub_epi8 32 s.data (set1_epi8 32 48) < 2 ^ 256 := by
    have := mkLanes_lt 8 32 (fun i => (lane 8 i s.data + 256 - lane 8 i (set1_epi8 32 48)) % 256)
    exact this
  have hx : (if (k : Int) ≠ 0 ∨ (len : Int) < 32
        then realign (sub_epi8 32 s.data (set1_epi8 32 48)) (k : Int) (len : Int)
        else sub_epi8 32 s.data (set1_epi8 32 48))
      = alignTop 32 (sub_epi8 32 s.data (set1_epi8 32 48)) k len := by
    split
    · exact realign_eq256 _ k len hclt (by omega) hlen (by omega)
    · rename_i h
      have hk0 : k = 0 := by omega
      have hl32 : len = 32 := by omega
      subst hk0; subst hl32
      exact (alignTop_self 32 _ hclt).symm
  rw [hx]
  have hbs := bytesAt_sub_epi8 32 s.data k len hk hd
  have hle : ∀ v ∈ bytesAt (sub_epi8 32 s.data (set1_epi8 32 48)) k len, v ≤ 9 := by
    rw [hbs]; exact digits_le _ hd
  rw [reduce_eq256 avx512 _ (alignTop_digit_le 32 _ k len (by omega) hle),
    lanes_alignTop 32 _ k len (by omega), hval_replicate_zero, hbs]
  rfl

end simd_buffer256

namespace simd_buffer512

theorem logical_eq512 (s : simd_buffer512) (k len : Nat) (hb : s.begin = (k : Int)) :
    logical s len = bytesAt s.data k len := by
  unfold logical bytesAt get
  apply List.map_congr_left
  intro i _
  rw [hb]
  congr 1
  omega

/-- Digit conversion of the 64-byte buffer when the value of the run fits 64 bits. -/
theorem atoi_run512 (s : simd_buffer512) (k len : Nat) (hb : s.begin = (k : Int))
    (hlen : 1 ≤ len) (hk : k + len ≤ 64) (hd : allDigits (logical s len))
    (hV : decimalValue (logical s len) < 2 ^ 64) :
    atoi_value s (len : Int) = decimalValue (logical s len) := by
  rw [logical_eq512 s k len hb] at hd hV ⊢
  unfold atoi_value
  simp only [hb]
  have hclt : subs_epi8 64 s.data (set1_epi8 64 48) < 2 ^ (8 * 64) :=
    mkLanes_lt 8 64 _
  have hx : (if (k : Int) ≠ 0 ∨ (len : Int) < 64
        then realign (subs_epi8 64 s.data (set1_epi8 64 48)) (k : Int) (len : Int)
        else subs_epi8 64 s.data (set1_epi8 64 48))
      = alignTop 64 (subs_epi8 64 s.data (set1_epi8 64 48)) k len := by
    split
    · exact realign_eq512 _ k len hclt (by omega) hlen (by omega)
    · rename_i h
      have hk0 : k = 0 := by omega
      have hl64 : len = 64 := by omega
      subst hk0; subst hl64
      exact (alignTop_self 64 _ hclt).symm
  rw [hx]
  have hbs := bytesAt_subs_epi8 64 s.data k len hk hd
  have hle : ∀ v ∈ bytesAt (subs_epi8 64 s.data (set1_epi8 64 48)) k len, v ≤ 9 := by
    rw [hbs]; exact digits_le _ hd
  obtain ⟨r0, r1, r2, r3, hval4, hres, h2, h3⟩ :=
    reduce_eq512 _ (alignTop_digit_le 64 _ k len (by omega) hle)
  rw [lanes_alignTop 64 _ k len (by omega), hval_replicate_zero, hbs] at hval4
  have e4 : hval (100000000 * 100000000) [r0, r1, r2, r3]
      = ((r0 * 10000000000000000 + r1) * 10000000000000000 + r2) * 10000000000000000 + r3 := by
    simp [hval]
  rw [e4] at hval4
  unfold decimalValue at hV ⊢
  rw [hres]
  generalize hval 10 (List.map (fun c => c - 48) (bytesAt s.data k len)) = V at hval4 hV ⊢
  clear hres hle hbs hx hclt hd
  have z0 : r0 = 0 := by omega
  subst z0
  have z1 : r1 = 0 := by omega
  subst z1
  have hVe : r2 * 10000000000000000 + r3 = V := by omega
  rw [hVe]
  exact Nat.mod_eq_of_lt hV

end simd_buffer512
end Sixit

/-! ## Comparison masks of the 16-, 32- and 64-byte buffers -/

namespace Sixit

theorem testBit_eq_lane1 (x j : Nat) : x.testBit j = decide (lane 1 j x = 1) := by
  rw [Nat.testBit_to_div_mod]
  unfold lane
  simp

/-- Bit `j` of a mask built from one flag per lane. -/
theorem testBit_mkLanes1 (n : Nat) (g : Nat → Nat) (j : Nat) (hj : j < n) :
    (mkLanes 1 n g).testBit j = decide (g j % 2 = 1) := by
  rw [testBit_eq_lane1, lane_mkLanes _ _ _ _ hj]
  simp

theorem testBit_mkLanes1_of_le (n : Nat) (g : Nat → Nat) (j : Nat) (hj : n ≤ j) :
    (mkLanes 1 n g).testBit j = false := by
  rw [testBit_eq_lane1, lane_mkLanes_of_le _ _ _ _ hj]
  simp

/-- Bit `j` of `movemask_epi8` applied to a comparison result (bytes `0xFF` or 0). -/
theorem testBit_movemask_flags (n C j : Nat) (p : Prop) [Decidable p] (hj : j < n)
    (hC : lane 8 j C = if p then 255 else 0) :
    (mkLanes 1 n (fun i => lane 8 i C / 128)).testBit j = decide p := by
  rw [testBit_mkLanes1 _ _ _ hj, hC]
  by_cases h : p <;> simp [h]

theorem lane_cmpeq_epi8 (n a b j : Nat) (hj : j < n) :
    lane 8 j (cmpeq_epi8 n a b) = if lane 8 j a = lane 8 j b then 255 else 0 := by
  unfold cmpeq_epi8
  rw [lane_mkLanes _ _ _ _ hj]
  split <;> rfl

theorem lane_cmplt_epi8 (n a b j : Nat) (hj : j < n) :
    lane 8 j (cmplt_epi8 n a b)
      = if toSigned 8 (lane 8 j a) < toSigned 8 (lane 8 j b) then 255 else 0 := by
  unfold cmplt_epi8
  rw [lane_mkLanes _ _ _ _ hj]
  split <;> rfl

theorem lane_cmpgt_epi8 (n a b j : Nat) (hj : j < n) :
    lane 8 j (cmpgt_epi8 n a b)
      = if toSigned 8 (lane 8 j a) > toSigned 8 (lane 8 j b) then 255 else 0 := by
  unfold cmpgt_epi8
  rw [lane_mkLanes _ _ _ _ hj]
  split <;> rfl

theorem testBit_shiftRight_nat (x k i : Nat) : (x >>> k).testBit i = x.testBit (k + i) :=
  Nat.testBit_shiftRight x

/-- Bit `i` of an `int` mask shifted right arithmetically and converted to `uint32_t`:
below position `32 - k` it is bit `k + i` of the 32-bit pattern. -/
theorem testBit_ofSigned_sar (M k i : Nat) (hM : M < 2 ^ 32) (hi : k + i < 32) :
    (ofSigned 32 (sar (toSigned 32 M) (k : Int))).testBit i = M.testBit (k + i) := by
  have hk : k < 32 := by omega
  have hP : 2 ^ 32 = 2 ^ (32 - k) * 2 ^ k := by
    rw [← Nat.pow_add]; congr 1; omega
  have hq : M / 2 ^ k < 2 ^ (32 - k) := by
    rw [Nat.div_lt_iff_lt_mul (Nat.two_pow_pos k), ← hP]; exact hM
  have hPle : 2 ^ (32 - k) ≤ 2 ^ 32 := Nat.pow_le_pow_right (by decide) (by omega)
  have hbit : (M / 2 ^ k).testBit i = M.testBit (k + i) := by
    rw [← Nat.shiftRight_eq_div_pow, Nat.testBit_shiftRight]
  unfold sar toSigned
  simp only [Int.toNat_ofNat]
  by_cases hneg : M < 2 ^ (32 - 1)
  · rw [if_pos hneg]
    have e : ((M : Int) / 2 ^ k) = ((M / 2 ^ k : Nat) : Int) := by
      push_cast; rfl
    rw [e, ofSigned_natCast, Nat.mod_eq_of_lt (lt_of_lt_of_le hq hPle), hbit]
  · rw [if_neg hneg]
    have e : ((M : Int) - 2 ^ 32) / 2 ^ k
        = ((M / 2 ^ k : Nat) : Int) - ((2 ^ (32 - k) : Nat) : Int) := by
      have h1 : ((M : Int) - 2 ^ 32) = (M : Int) + (2 ^ k : Int) * (-((2 ^ (32 - k) : Nat) : Int)) := by
        have : ((2 : Int) ^ 32) = (2 ^ k : Int) * ((2 ^ (32 - k) : Nat) : Int) := by
          have := congrArg (fun n : Nat => (n : Int)) hP
          simp only [Nat.cast_mul, Nat.cast_pow, Nat.cast_ofNat] at this
          rw [this]; push_cast; ring
        rw [this]; ring
      rw [h1, Int.add_mul_ediv_left _ _ (by positivity)]
      push_cast
      ring
    rw [e]
    have hR : ofSigned 32 (((M / 2 ^ k : Nat) : Int) - ((2 ^ (32 - k) : Nat) : Int))
        = 2 ^ (32 - k) * (2 ^ k - 1) + M / 2 ^ k := by
      unfold ofSigned
      have h2 : 2 ^ (32 - k) * (2 ^ k - 1) = 2 ^ 32 - 2 ^ (32 - k) := by
        rw [Nat.mul_sub, ← hP, Nat.mul_one]
      rw [h2]
      generalize M / 2 ^ k = q at hq
      generalize 2 ^ (32 - k) = P at hq hPle
      norm_num at hPle ⊢
      omega
    rw [hR, Nat.testBit_mul_pow_two_add _ hq, if_pos (by omega), hbit]


theorem int_testBit_natCast (n i : Nat) : Int.testBit (n : Int) i = n.testBit i := rfl

theorem lane_set1_byte (n b i : Nat) (hi : i < n) (hb : b ≤ 255) :
    lane 8 i (set1_epi8 n b) = b := by
  rw [lane_set1_epi8 _ _ _ hi]
  exact Nat.mod_eq_of_lt (by norm_num; omega)

namespace simd_buffer128

theorem get_eq128 (s : simd_buffer128) (k i : Nat) (hb : s.begin = (k : Int)) :
    get s (i : Int) = lane 8 (k + i) s.data := by
  unfold get
  rw [hb]
  congr 1
  omega

/-- An `int` mask of the 16-byte buffer, shifted by `begin`. -/
theorem testBit_sar_movemask (C k i : Nat) :
    Int.testBit (sar (movemask_epi8 16 C) (k : Int)) i
      = (mkLanes 1 16 (fun j => lane 8 j C / 128)).testBit (k + i) := by
  unfold sar movemask_epi8
  have hM : mkLanes 1 16 (fun j => lane 8 j C / 128) < 2 ^ (32 - 1) :=
    lt_of_lt_of_le (mkLanes_lt 1 16 _) (by norm_num)
  rw [toSigned_of_lt 32 _ hM]
  simp only [Int.toNat_ofNat]
  have e : ((mkLanes 1 16 (fun j => lane 8 j C / 128) : Nat) : Int) / 2 ^ k
      = ((mkLanes 1 16 (fun j => lane 8 j C / 128) / 2 ^ k : Nat) : Int) := by
    push_cast; rfl
  rw [e, int_testBit_natCast, ← Nat.shiftRight_eq_div_pow, Nat.testBit_shiftRight]

/-- Bit `i` of `equal_to<b>()` on the 16-byte buffer. -/
theorem equal_to_bit128 (b : Nat) (s : simd_buffer128) (k i : Nat) (hb : s.begin = (k : Int))
    (hbyte : b ≤ 255) (hi : k + i < 16) :
    Int.testBit (equal_to b s) i = decide (get s (i : Int) = b) := by
  unfold equal_to
  rw [hb, testBit_sar_movemask,
    testBit_movemask_flags 16 _ (k + i) _ hi (lane_cmpeq_epi8 16 _ _ _ hi),
    lane_set1_byte 16 b _ hi hbyte, get_eq128 s k i hb]

/-- Bit `i` of `lt_than<b>()` on the 16-byte buffer: a signed comparison. -/
theorem lt_than_bit128 (b : Nat) (s : simd_buffer128) (k i : Nat) (hb : s.begin = (k : Int))
    (hbyte : b ≤ 255) (hi : k + i < 16) :
    Int.testBit (lt_than b s) i = decide (toSigned 8 (get s (i : Int)) < toSigned 8 b) := by
  unfold lt_than
  rw [hb, testBit_sar_movemask,
    testBit_movemask_flags 16 _ (k + i) _ hi (lane_cmplt_epi8 16 _ _ _ hi),
    lane_set1_byte 16 b _ hi hbyte, get_eq128 s k i hb]

end simd_buffer128

namespace simd_buffer256

theorem get_eq256 (s : simd_buffer256) (k i : Nat) (hb : s.begin = (k : Int)) :
    get s (i : Int) = lane 8 (k + i) s.data := by
  unfold get
  rw [hb]
  congr 1
  omega

/-- Bit `i` of `equal_to<b>()` on the 32-byte buffer, in both build alternatives. -/
theorem equal_to_bit256 (avx512 : Bool) (b : Nat) (s : simd_buffer256) (k i : Nat)
    (hb : s.begin = (k : Int)) (hbyte : b ≤ 255) (hi : k + i < 32) :
    (equal_to avx512 b s).testBit i = decide (get s (i : Int) = b) := by
  unfold equal_to
  rw [hb, get_eq256 s k i hb]
  cases avx512 with
  | true =>
    rw [if_pos rfl, Int.toNat_ofNat, Nat.testBit_shiftRight]
    unfold cmpeq_epi8_mask
    rw [testBit_mkLanes1 _ _ _ hi, lane_set1_byte 32 b _ hi hbyte]
    by_cases h : lane 8 (k + i) s.data = b <;> simp [h]
  | false =>
    rw [if_neg (by decide)]
    unfold movemask_epi8
    rw [testBit_ofSigned_sar _ k i (mkLanes_lt 1 32 _) hi,
      testBit_movemask_flags 32 _ (k + i) _ hi (lane_cmpeq_epi8 32 _ _ _ hi),
      lane_set1_byte 32 b _ hi hbyte]

/-- Bit `i` of `lt_than<b>()` on the 32-byte buffer, in both build alternatives: a signed
comparison. -/
theorem lt_than_bit256 (avx512 : Bool) (b : Nat) (s : simd_buffer256) (k i : Nat)
    (hb : s.begin = (k : Int)) (hbyte : b ≤ 255) (hi : k + i < 32) :
    (lt_than avx512 b s).testBit i = decide (toSigned 8 (get s (i : Int)) < toSigned 8 b) := by
  unfold lt_than
  rw [hb, get_eq256 s k i hb]
  cases avx512 with
  | true =>
    rw [if_pos rfl, Int.toNat_ofNat, Nat.testBit_shiftRight]
    unfold cmplt_epi8_mask
    rw [testBit_mkLanes1 _ _ _ hi, lane_set1_byte 32 b _ hi hbyte]
    by_cases h : toSigned 8 (lane 8 (k + i) s.data) < toSigned 8 b <;> simp [h]
  | false =>
    rw [if_neg (by decide)]
    unfold movemask_epi8
    rw [testBit_ofSigned_sar _ k i (mkLanes_lt 1 32 _) hi,
      testBit_movemask_flags 32 _ (k + i) _ hi (lane_cmpgt_epi8 32 _ _ _ hi),
      lane_set1_byte 32 b _ hi hbyte]

end simd_buffer256

namespace simd_buffer512

theorem get_eq512 (s : simd_buffer512) (k i : Nat) (hb : s.begin = (k : Int)) :
    get s (i : Int) = lane 8 (k + i) s.data := by
  unfold get
  rw [hb]
  congr 1
  omega

/-- Bit `i` of `equal_to<b>()` on the 64-byte buffer. -/
theorem equal_to_bit512 (b : Nat) (s : simd_buffer512) (k i : Nat) (hb : s.begin = (k : Int))
    (hbyte : b ≤ 255) (hi : k + i < 64) :
    (equal_to b s).testBit i = decide (get s (i : Int) = b) := by
  unfold equal_to
  rw [hb, get_eq512 s k i hb, Int.toNat_ofNat, Nat.testBit_shiftRight]
  unfold cmpeq_epi8_mask
  rw [testBit_mkLanes1 _ _ _ hi, lane_set1_byte 64 b _ hi hbyte]
  by_cases h : lane 8 (k + i) s.data = b <;> simp [h]

/-- Bit `i` of `lt_than<b>()` on the 64-byte buffer: an unsigned comparison. -/
theorem lt_than_bit512 (b : Nat) (s : simd_buffer512) (k i : Nat) (hb : s.begin = (k : Int))
    (hbyte : b ≤ 255) (hi : k + i < 64) :
    (lt_than b s).testBit i = decide (get s (i : Int) < b) := by
  unfold lt_than
  rw [hb, get_eq512 s k i hb, Int.toNat_ofNat, Nat.testBit_shiftRight]
  unfold cmplt_epu8_mask
  rw [testBit_mkLanes1 _ _ _ hi, lane_set1_byte 64 b _ hi hbyte]
  by_cases h : lane 8 (k + i) s.data < b <;> simp [h]

end simd_buffer512
end Sixit


/-! ## Subtraction, merging, storing and consuming -/

namespace Sixit

theorem ofSigned_toSigned (w x : Nat) (h : x < 2 ^ w) : ofSigned w (toSigned w x) = x := by
  unfold ofSigned toSigned
  have hx : ((x : Int) % 2 ^ w) = (x : Int) := by
    apply Int.emod_eq_of_lt (by omega)
    exact_mod_cast h
  split
  · rw [hx, Int.toNat_ofNat]
  · have e : (x : Int) - 2 ^ w = (x : Int) + (-1) * 2 ^ w := by ring
    rw [e, Int.add_mul_emod_self, hx, Int.toNat_ofNat]

/-- A byte lane after `sub_epi8` with a broadcast constant: `(x - b) mod 256`. -/
theorem lane_sub_set1 (n x b i : Nat) (hi : i < n) (hb : b ≤ 255) :
    ((lane 8 i (sub_epi8 n x (set1_epi8 n b)) : Nat) : Int)
      = (((lane 8 i x : Nat) : Int) - (b : Int)) % 256 := by
  rw [lane_sub_epi8 n _ _ i hi, lane_set1_byte n b i hi hb]
  have h := lane_lt 8 i x
  norm_num at h
  omega

namespace simd_buffer256

theorem lt_than_lt256 (avx512 : Bool) (b : Nat) (s : simd_buffer256) :
    lt_than avx512 b s < 2 ^ 32 := by
  unfold lt_than
  cases avx512 with
  | true =>
    rw [if_pos rfl, Nat.shiftRight_eq_div_pow]
    exact lt_of_le_of_lt (Nat.div_le_self _ _) (mkLanes_lt 1 32 _)
  | false =>
    rw [if_neg (by decide)]
    unfold ofSigned
    have h : (0 : Int) < 2 ^ 32 := by norm_num
    have h1 := Int.emod_lt_of_pos (sar (movemask_epi8 32 (cmpgt_epi8 32 (set1_epi8 32 b) s.data)) s.begin) h
    have h2 := Int.emod_nonneg (sar (movemask_epi8 32 (cmpgt_epi8 32 (set1_epi8 32 b) s.data)) s.begin) (ne_of_gt h)
    omega

theorem sub_mask256 (avx512 : Bool) (b : Nat) (s : simd_buffer256) :
    (sub avx512 b s).1 = lt_than avx512 b s :=
  ofSigned_toSigned 32 _ (lt_than_lt256 avx512 b s)

end simd_buffer256

namespace simd_buffer512

theorem lt_than_lt512 (b : Nat) (s : simd_buffer512) : lt_than b s < 2 ^ 64 := by
  unfold lt_than
  rw [Nat.shiftRight_eq_div_pow]
  exact lt_of_le_of_lt (Nat.div_le_self _ _) (mkLanes_lt 1 64 _)

theorem sub_mask512 (b : Nat) (s : simd_buffer512) : (sub b s).1 = lt_than b s :=
  ofSigned_toSigned 64 _ (lt_than_lt512 b s)

end simd_buffer512

namespace simd_buffer128

theorem sub_mask128 (b : Nat) (s : simd_buffer128) : (sub b s).1 = lt_than b s := by
  unfold sub lt_than
  rfl

theorem sub_cursors128 (b : Nat) (s : simd_buffer128) :
    (sub b s).2.begin = s.begin ∧ (sub b s).2.end_ = s.end_ ∧
      (sub b s).2.data = sub_epi8 16 s.data (set1_epi8 16 b) := by
  unfold sub
  exact ⟨rfl, rfl, rfl⟩

end simd_buffer128

namespace simd_buffer256

theorem sub_cursors256 (avx512 : Bool) (b : Nat) (s : simd_buffer256) :
    (sub avx512 b s).2.begin = s.begin ∧ (sub avx512 b s).2.end_ = s.end_ ∧
      (sub avx512 b s).2.data = sub_epi8 32 s.data (set1_epi8 32 b) := by
  unfold sub
  exact ⟨rfl, rfl, rfl⟩

end simd_buffer256

namespace simd_buffer512

theorem sub_cursors512 (b : Nat) (s : simd_buffer512) :
    (sub b s).2.begin = s.begin ∧ (sub b s).2.end_ = s.end_ ∧
      (sub b s).2.data = sub_epi8 64 s.data (set1_epi8 64 b) := by
  unfold sub
  exact ⟨rfl, rfl, rfl⟩

end simd_buffer512

end Sixit

namespace Sixit
namespace simd_buffer64

theorem cell_of_guard (x j : Nat) (h : x.testBit (9 * j) = true) :
    cell j x = 256 + cell j x % 256 := by
  have h1 := cell_lt j x
  rw [testBit_guard, testBit_eight _ h1] at h
  have := of_decide_eq_true h
  omega

/-- Cells of `data - (b_data << (9 * m))` when the guard bit of every lane is set: no
borrow leaves a cell. -/
theorem cell_sub_guarded (x b m j : Nat) (hx : x < 2 ^ 64) (hb : b ≤ 255)
    (hg : ∀ j, 1 ≤ j → j ≤ 7 → x.testBit (9 * j) = true) (hj : j < 8) :
    cell j (sub64 x (shl64 (repeat_ b) (9 * m))) = cell j x - (if j ≤ m then 0 else b) := by
  have hX := cell_subtrahend b m
  rw [Nat.mod_eq_of_lt (by omega : b < 256)] at hX
  rw [cell_sub64 _ _ hx (shl64_lt _ _) _ j hj, hX j hj]
  intro i hi
  rw [hX i hi]
  by_cases h : i ≤ m
  · rw [if_pos h]; exact Nat.zero_le _
  · rw [if_neg h]
    have := cell_of_guard x i (hg i (by omega) (by omega))
    omega

/-- The effect of `sub<b>()` on a state whose lanes all have their guard bit set. -/
theorem sub_guarded (s : simd_buffer64) (b n : Nat) (hn : s.n_bytes = (n : Int)) (hn7 : n ≤ 7)
    (hx : s.data < 2 ^ 64) (hb : b ≤ 255)
    (hg : ∀ j, 1 ≤ j → j ≤ 7 → s.data.testBit (9 * j) = true) :
    (∀ i : Nat, i < n →
      ((get (sub b s).2 (i : Int) : Nat) : Int) = ((get s (i : Int) : Nat) : Int) - (b : Int)
        ∨ ((get (sub b s).2 (i : Int) : Nat) : Int)
            = ((get s (i : Int) : Nat) : Int) - (b : Int) + 256) ∧
    (∀ i : Nat, i < n → get (sub b s).2 (i : Int) < 256) ∧
    (∀ i : Nat, n ≤ i → i ≤ 6 → get (sub b s).2 (i : Int) = get s (i : Int)) ∧
    (∀ i : Nat, i < n →
      ((sub b s).1.m.testBit (9 * (7 - i)) = true ↔ get s (i : Int) < b)) := by
  have e : (9 * (max_bytes - s.n_bytes)).toNat = 9 * (7 - n) := by
    rw [hn]; simp only [max_bytes]; omega
  have hsub : (sub b s).2.data = sub64 s.data (shl64 (repeat_ b) (9 * (7 - n))) := by
    unfold sub; simp only [e]
  have hmask : (sub b s).1.m
      = not64 (sub64 s.data (shl64 (repeat_ b) (9 * (7 - n)))) &&& guard_mask := by
    unfold sub; simp only [e]
  have hc := fun j => cell_sub_guarded s.data b (7 - n) j hx hb hg
  refine ⟨fun i hi => ?_, fun i hi => ?_, fun i h1 h2 => ?_, fun i hi => ?_⟩
  · rw [get_eq_cell _ i (by omega), get_eq_cell _ i (by omega), hsub, hc (7 - i) (by omega),
      if_neg (by omega)]
    have h1 := cell_of_guard s.data (7 - i) (hg (7 - i) (by omega) (by omega))
    have h2 := cell_lt (7 - i) s.data
    generalize cell (7 - i) s.data = c at h1 h2 ⊢
    omega
  · rw [get_eq_cell _ i (by omega)]
    exact Nat.mod_lt _ (by norm_num)
  · rw [get_eq_cell _ i h2, get_eq_cell _ i h2, hsub, hc (7 - i) (by omega),
      if_pos (by omega), Nat.sub_zero]
  · rw [hmask, testBit_guard, cell_and, cell_guard_mask _ (by omega),
      cell_not64 _ _ (sub64_lt _ _) (by omega), hc (7 - i) (by omega), if_neg (by omega),
      if_neg (by omega), get_eq_cell _ i (by omega), Nat.testBit_and]
    have h1 := cell_of_guard s.data (7 - i) (hg (7 - i) (by omega) (by omega))
    have h2 := cell_lt (7 - i) s.data
    generalize cell (7 - i) s.data = c at h1 h2 ⊢
    have h256 : (256 : Nat).testBit 8 = true := by decide
    rw [h256, Bool.and_true, testBit_eight _ (by omega), decide_eq_true_iff]
    omega

end simd_buffer64
end Sixit

namespace Sixit

theorem length_lanes (w n x : Nat) : (lanes w n x).length = n := by
  simp [lanes]

end Sixit

namespace Sixit

namespace simd_buffer256

end simd_buffer256

namespace simd_buffer512

end simd_buffer512

namespace simd_buffer128

theorem fill_from_other_undefined (A B : simd_buffer128) : fill_from_other A B = none := by
  unfold fill_from_other
  have h : vector_store (List.replicate 8 0) 16 A.data = none := by
    simp [vector_store]
  simp only [h, Option.bind_eq_bind, Option.none_bind]

end simd_buffer128
end Sixit

namespace Sixit

namespace simd_buffer64

theorem get_fill (u i : Nat) (hi : i ≤ 6) :
    get (fill_from init u 7).2 (i : Int) = lane 8 i u := by
  rw [get_eq_cell _ i hi, cell_fill u (7 - i) (by omega), if_neg (by omega)]
  have e : 7 - (7 - i) = i := by omega
  rw [e]
  have := lane8_lt i u
  omega

theorem fill_returns (u : Nat) : (fill_from init u 7).1 = 0 := by
  unfold fill_from
  simp [init, max_bytes]

/-- After `fill_from(u, 7)` on a default-constructed buffer, `consume(7)` gives back the
default-constructed state. -/
theorem consume_all (u : Nat) : consume (fill_from init u 7).2 7 = (0, init) := by
  have h0 : (fill_from init u 7).2.data.testBit 0 = true := by
    have h := testBit_guard (fill_from init u 7).2.data 0
    rw [cell_fill u 0 (by omega), if_pos rfl] at h
    rw [Nat.mul_zero] at h
    rw [h]
    decide
  have hd : shl64 (fill_from init u 7).2.data 63 = 0x8000000000000000 := by
    apply Nat.eq_of_testBit_eq
    intro j
    rw [testBit_shl64]
    have e : (0x8000000000000000 : Nat) = 2 ^ 63 := by norm_num
    rw [e, Nat.testBit_two_pow]
    by_cases hj : j = 63
    · subst hj; simp [h0]
    · by_cases h1 : j < 64
      · have h2 : ¬ 63 ≤ j := by omega
        simp [h2]; omega
      · simp [h1]; omega
  unfold consume
  rw [fill_n_bytes]
  have e : ((7 : Int) * 9).toNat = 63 := by decide
  rw [e, hd]
  rfl

theorem fill_from_low_bytes (u v : Nat) (h : v % 2 ^ 56 = u % 2 ^ 56) :
    fill_from init v 7 = fill_from init u 7 := by
  have hl : ∀ i, i < 7 → lane 8 i v = lane 8 i u := by
    intro i hi
    have e : ∀ x, lane 8 i x = lane 8 i (x % 2 ^ 56) := by
      intro x
      unfold lane
      have e2 : (2 : Nat) ^ 56 = 2 ^ (8 * i) * 2 ^ (56 - 8 * i) := by
        rw [← Nat.pow_add]; congr 1; omega
      rw [e2, Nat.mod_mul_right_div_self]
      have e3 : (2 : Nat) ^ (56 - 8 * i) = 2 ^ 8 * 2 ^ (56 - 8 * i - 8) := by
        rw [← Nat.pow_add]; congr 1; omega
      rw [e3, Nat.mod_mul_right_mod]
    rw [e v, e u, h]
  apply Prod.ext
  · rw [fill_returns, fill_returns]
  · rw [fill_from_init, fill_from_init]
    simp only [hl 0 (by omega), hl 1 (by omega), hl 2 (by omega), hl 3 (by omega),
      hl 4 (by omega), hl 5 (by omega), hl 6 (by omega)]

/-- The loop of `store(p, n)` writes `get(0), ..., get(n - 1)` to the first `n` bytes of the
destination and leaves the rest. -/
theorem store_eq (s : simd_buffer64) (dst : List Nat) (n : Nat) (hn : n ≤ dst.length) :
    store s dst (n : Int)
      = some ((List.range n).map (fun i : Nat => get s (i : Int)) ++ dst.drop n) := by
  unfold store
  rw [Int.toNat_ofNat]
  induction n with
  | zero => simp
  | succ n ih =>
    rw [List.range_succ, List.foldlM_append, ih (by omega)]
    simp only [Option.bind_eq_bind, Option.some_bind, List.foldlM_cons, List.foldlM_nil,
      List.length_append, List.length_map, List.length_range, List.length_drop]
    rw [if_pos (by omega)]
    simp only [Option.some_bind, pure, List.map_append, List.map_cons, List.map_nil,
      List.append_assoc]
    have e : (List.map (fun i : Nat => get s (i : Int)) (List.range n)).length ≤ n := by simp
    rw [List.set_append_right _ _ e]
    simp only [List.length_map, List.length_range, Nat.sub_self]
    rw [List.drop_eq_getElem_cons (by omega : n < dst.length), List.set_cons_zero]
    rfl

theorem get_consume64 (s : simd_buffer64) (n i : Nat) (hi : i + n ≤ 6) :
    get (consume s (n : Int)).2 (i : Int) = get s ((i : Int) + (n : Int)) := by
  have e1 : ((i : Int) + (n : Int)) = ((i + n : Nat) : Int) := by push_cast; rfl
  rw [e1, get_eq_cell _ i (by omega), get_eq_cell _ (i + n) hi]
  unfold consume
  simp only []
  have e : ((n : Int) * 9).toNat = 9 * n := by omega
  rw [e, cell_shl64 _ n (7 - i) (by omega), if_neg (by omega)]
  congr 2
  omega

end simd_buffer64
end Sixit

namespace Sixit

namespace simd_buffer128

end simd_buffer128

namespace simd_buffer256

end simd_buffer256

namespace simd_buffer512

end simd_buffer512
end Sixit

namespace Sixit
namespace simd_buffer8

/-- What `sub<b>()` of the 1-byte buffer returns and stores, for byte values `x`, `b`. -/
theorem sub_flag8 (x b : Nat) (n : Int) (hx : x ≤ 255) (hb : b ≤ 255) :
    (sub b { data := x, n_bytes := n }).1 = decide (b ≤ x ∧ x ≠ 255) ∧
    (((sub b { data := x, n_bytes := n }).2.data : Nat) : Int) = ((x : Int) - (b : Int)) % 256 := by
  unfold sub
  simp only []
  refine ⟨?_, ?_⟩
  · rw [decide_eq_decide]
    omega
  · omega

end simd_buffer8
end Sixit

/-! ## Erasing a byte -/

namespace Sixit

theorem testBit_not64 (x i : Nat) (hx : x < 2 ^ 64) :
    (not64 x).testBit i = (decide (i < 64) && !x.testBit i) := by
  unfold not64
  rw [Nat.mod_eq_of_lt hx]
  have e : 2 ^ 64 - 1 - x = 2 ^ 64 - (x + 1) := by omega
  rw [e, Nat.testBit_two_pow_sub_succ hx]

theorem testBit_high (x i : Nat) (hx : x < 2 ^ 64) (hi : 64 ≤ i) : x.testBit i = false :=
  Nat.testBit_lt_two_pow (lt_of_lt_of_le hx (Nat.pow_le_pow_right (by decide) hi))

/-- The mask `(1 << s) - 1` of a `uint64_t` for a shift count below 64. -/
theorem low_mask64 (s : Nat) (hs : s < 64) : sub64 (shl64 1 s) 1 = 2 ^ s - 1 := by
  have h1 : (2 : Nat) ^ s < 2 ^ 64 := Nat.pow_lt_pow_right (by decide) hs
  have h2 : 0 < (2 : Nat) ^ s := Nat.two_pow_pos s
  unfold sub64 shl64
  rw [Nat.shiftLeft_eq, Nat.one_mul, Nat.mod_eq_of_lt h1]
  have e : 2 ^ s + 2 ^ 64 - 1 % 2 ^ 64 = 2 ^ 64 + (2 ^ s - 1) := by
    have : (1 : Nat) % 2 ^ 64 = 1 := by norm_num
    rw [this]; omega
  rw [e, Nat.add_mod_left, Nat.mod_eq_of_lt (by omega)]

namespace simd_buffer64

/-- Bits of the packed word after `erase_and_shift_left(idx)`: the bits below lane `idx`
move up by one lane, the others stay. -/
theorem erase_testBit (s : simd_buffer64) (idx q : Nat) (hidx : idx ≤ 6)
    (hx : s.data < 2 ^ 64) :
    (erase_and_shift_left s (idx : Int)).data.testBit q
      = if q < 9 then false
        else if q < 9 * (7 - idx) then s.data.testBit (q - 9) else s.data.testBit q := by
  unfold erase_and_shift_left
  simp only [max_bytes]
  have e : ((7 - (idx : Int)) * 9).toNat = 9 * (7 - idx) := by omega
  have hm : (2 : Nat) ^ (9 * (7 - idx)) - 1 < 2 ^ 64 := by
    have : (2 : Nat) ^ (9 * (7 - idx)) ≤ 2 ^ 63 := Nat.pow_le_pow_right (by decide) (by omega)
    omega
  rw [e, low_mask64 _ (by omega), Nat.testBit_or, testBit_shl64, Nat.testBit_and,
    Nat.testBit_and, Nat.testBit_shiftRight, Nat.testBit_two_pow_sub_one,
    testBit_not64 _ _ hm, Nat.testBit_two_pow_sub_one]
  by_cases h9 : q < 9
  · have h1 : ¬ 9 ≤ q := by omega
    have h2 : q < 9 * (7 - idx) := by omega
    simp [h9, h1, h2]
  · have h1 : 9 ≤ q := by omega
    by_cases hJ : q < 9 * (7 - idx)
    · have h2 : q < 64 := by omega
      have h3 : 9 + (q - 9) < 9 * (7 - idx) := by omega
      simp [h9, h1, hJ, h2, h3]
    · by_cases h64 : q < 64
      · have h3 : ¬ 9 + (q - 9) < 9 * (7 - idx) := by omega
        simp [h9, h1, hJ, h64, h3]
      · simp [h9, hJ, h64, testBit_high _ q hx (by omega)]

theorem get_testBit (s : simd_buffer64) (i t : Nat) (hi : i ≤ 6) :
    (get s (i : Int)).testBit t = (decide (t < 8) && s.data.testBit (9 * (6 - i) + 1 + t)) := by
  unfold get
  simp only [max_bytes]
  have e : (1 + (7 - (i : Int) - 1) * 9).toNat = 9 * (6 - i) + 1 := by omega
  have h256 : (256 : Nat) = 2 ^ 8 := by norm_num
  rw [e, h256, Nat.testBit_mod_two_pow, Nat.testBit_shiftRight]

theorem get_erase_below (s : simd_buffer64) (idx i : Nat) (hidx : idx ≤ 6) (hi : i < idx)
    (hx : s.data < 2 ^ 64) :
    get (erase_and_shift_left s (idx : Int)) (i : Int) = get s (i : Int) := by
  apply Nat.eq_of_testBit_eq
  intro t
  rw [get_testBit _ i t (by omega), get_testBit _ i t (by omega), erase_testBit s idx _ hidx hx]
  by_cases ht : t < 8
  · rw [if_neg (by omega), if_neg (by omega)]
  · simp [ht]

theorem get_erase_above (s : simd_buffer64) (idx i : Nat) (hidx : idx ≤ i) (hi : i ≤ 5)
    (hx : s.data < 2 ^ 64) :
    get (erase_and_shift_left s (idx : Int)) (i : Int) = get s ((i : Int) + 1) := by
  have e1 : (i : Int) + 1 = ((i + 1 : Nat) : Int) := by push_cast; rfl
  rw [e1]
  apply Nat.eq_of_testBit_eq
  intro t
  rw [get_testBit _ i t (by omega), get_testBit _ (i + 1) t (by omega),
    erase_testBit s idx _ (by omega) hx]
  by_cases ht : t < 8
  · rw [if_neg (by omega), if_pos (by omega)]
    congr 2
    omega
  · simp [ht]

theorem erase_data_lt (s : simd_buffer64) (idx : Int) :
    (erase_and_shift_left s idx).data < 2 ^ 64 := by
  unfold erase_and_shift_left
  simp only []
  apply Nat.or_lt_two_pow (shl64_lt _ _)
  exact lt_of_le_of_lt Nat.and_le_right (by
    unfold not64
    omega)

/-- The lanes with a set guard bit: every lane `i < n_left()`. -/
theorem guards_consume (s : simd_buffer64) (n : Nat) (h7 : s.n_bytes ≤ 7)
    (hg : ∀ i : Nat, (i : Int) < s.n_bytes → s.data.testBit (9 * (7 - i)) = true) (i : Nat)
    (hi : (i : Int) < (consume s (n : Int)).2.n_bytes) :
    (consume s (n : Int)).2.data.testBit (9 * (7 - i)) = true := by
  unfold consume at hi ⊢
  simp only [] at hi ⊢
  have e : ((n : Int) * 9).toNat = 9 * n := by omega
  rw [e, testBit_shl64]
  have h1 : 9 * (7 - i) < 64 := by omega
  have h2 : 9 * n ≤ 9 * (7 - i) := by omega
  have h3 : 9 * (7 - i) - 9 * n = 9 * (7 - (i + n)) := by omega
  have := hg (i + n) (by omega)
  simp [h1, h2, h3, this]

theorem guards_erase (s : simd_buffer64) (idx : Nat) (hidx : (idx : Int) < s.n_bytes)
    (h7 : s.n_bytes ≤ 7) (hx : s.data < 2 ^ 64)
    (hg : ∀ i : Nat, (i : Int) < s.n_bytes → s.data.testBit (9 * (7 - i)) = true) (i : Nat)
    (hi : (i : Int) < (erase_and_shift_left s (idx : Int)).n_bytes) :
    (erase_and_shift_left s (idx : Int)).data.testBit (9 * (7 - i)) = true := by
  have hi2 : (i : Int) < s.n_bytes - 1 := hi
  rw [erase_testBit s idx _ (by omega) hx, if_neg (by omega)]
  by_cases h : i ≤ idx
  · rw [if_neg (by omega)]
    exact hg i (by omega)
  · rw [if_pos (by omega)]
    have e : 9 * (7 - i) - 9 = 9 * (7 - (i + 1)) := by omega
    rw [e]
    exact hg (i + 1) (by omega)

end simd_buffer64
end Sixit

namespace Sixit
namespace simd_buffer64

/-- Cells of `data - (b_data << (9 * m))` when the guard bit of every lane above cell `m`
is set: no borrow leaves a cell. -/
theorem cell_sub_guarded_above (x b m j : Nat) (hx : x < 2 ^ 64) (hb : b ≤ 255)
    (hg : ∀ j, m < j → j ≤ 7 → x.testBit (9 * j) = true) (hj : j < 8) :
    cell j (sub64 x (shl64 (repeat_ b) (9 * m))) = cell j x - (if j ≤ m then 0 else b) := by
  have hX := cell_subtrahend b m
  rw [Nat.mod_eq_of_lt (by omega : b < 256)] at hX
  rw [cell_sub64 _ _ hx (shl64_lt _ _) _ j hj, hX j hj]
  intro i hi
  rw [hX i hi]
  by_cases h : i ≤ m
  · rw [if_pos h]; exact Nat.zero_le _
  · rw [if_neg h]
    have := cell_of_guard x i (hg i (by omega) (by omega))
    omega

/-- After `sub<b>()` on a state whose valid lanes have their guard bit set, the guard bit of
a valid lane is still set exactly when its byte was not below `b`. -/
theorem sub_guard_bit (s : simd_buffer64) (b i : Nat) (h0 : 0 ≤ s.n_bytes) (h7 : s.n_bytes ≤ 7)
    (hx : s.data < 2 ^ 64) (hb : b ≤ 255)
    (hg : ∀ i : Nat, (i : Int) < s.n_bytes → s.data.testBit (9 * (7 - i)) = true)
    (hi : (i : Int) < s.n_bytes) :
    (sub b s).2.data.testBit (9 * (7 - i)) = true ↔ b ≤ get s (i : Int) := by
  have e : (9 * (max_bytes - s.n_bytes)).toNat = 9 * (7 - s.n_bytes.toNat) := by
    simp only [max_bytes]; omega
  have hsub : (sub b s).2.data
      = sub64 s.data (shl64 (repeat_ b) (9 * (7 - s.n_bytes.toNat))) := by
    unfold sub; simp only [e]
  have hg2 : ∀ j, 7 - s.n_bytes.toNat < j → j ≤ 7 → s.data.testBit (9 * j) = true := by
    intro j h1 h2
    have := hg (7 - j) (by omega)
    have e2 : 7 - (7 - j) = j := by omega
    rwa [e2] at this
  rw [hsub, testBit_guard,
    cell_sub_guarded_above s.data b _ (7 - i) hx hb hg2 (by omega), if_neg (by omega),
    get_eq_cell _ i (by omega)]
  have h1 := cell_of_guard s.data (7 - i) (hg2 (7 - i) (by omega) (by omega))
  have h2 := cell_lt (7 - i) s.data
  generalize cell (7 - i) s.data = c at h1 h2 ⊢
  rw [testBit_eight _ (by omega), decide_eq_true_iff]
  omega

/-- The guard bit of every valid lane is set after `fill_from(u, 7)` and `consume(k)`. -/
theorem state_guards (u k i : Nat) (hi : i + k < 7) :
    (consume (fill_from init u 7).2 (k : Int)).2.data.testBit (9 * (7 - i)) = true := by
  rw [testBit_guard, cell_state u k (7 - i) (by omega), if_neg (by omega), if_neg (by omega),
    testBit_eight _ (by have := lane8_lt (7 - (7 - i) + k) u; omega), decide_eq_true_iff]
  omega

theorem fill_guards (u i : Nat) (hi : i < 7) :
    (fill_from init u 7).2.data.testBit (9 * (7 - i)) = true := by
  rw [testBit_guard, cell_fill u (7 - i) (by omega), if_neg (by omega),
    testBit_eight _ (by have := lane8_lt (7 - (7 - i)) u; omega), decide_eq_true_iff]
  omega

end simd_buffer64
end Sixit

namespace Sixit

namespace simd_buffer512

end simd_buffer512
end Sixit

namespace Sixit

namespace simd_buffer512

end simd_buffer512
end Sixit

namespace Sixit
namespace simd_buffer512

end simd_buffer512
end Sixit

namespace Sixit

/-- A list built pointwise from another one with position `idx` left out. -/
theorem map_range_eraseIdx (f g : Nat → Nat) (n idx : Nat)
    (h : ∀ i, i < n → g i = if i < idx then f i else f (i + 1)) (hidx : idx ≤ n) :
    (List.range n).map g = ((List.range (n + 1)).map f).eraseIdx idx := by
  apply List.ext_getElem?
  intro j
  rw [List.getElem?_eraseIdx]
  by_cases hj : j < n
  · have e1 : ((List.range n).map g)[j]? = some (g j) := by
      simp [List.getElem?_map, List.getElem?_range hj]
    rw [e1, h j hj]
    by_cases h2 : j < idx
    · rw [if_pos h2, if_pos h2]
      simp [List.getElem?_map, List.getElem?_range (show j < n + 1 by omega)]
    · rw [if_neg h2, if_neg h2]
      simp [List.getElem?_map, List.getElem?_range (show j + 1 < n + 1 by omega)]
  · have e1 : ((List.range n).map g)[j]? = none := by
      apply List.getElem?_eq_none; simp; omega
    have e2 : ((List.range (n + 1)).map f)[j + 1]? = none := by
      apply List.getElem?_eq_none; simp; omega
    rw [e1, if_neg (by omega), e2]

namespace simd_buffer512

end simd_buffer512
end Sixit

/-! ## The footprint of `store` -/

namespace Sixit

end Sixit

/-! ## Runs longer than 32 digits and empty runs -/

namespace Sixit

theorem hval_append (B : Nat) (l1 l2 : List Nat) :
    hval B (l1 ++ l2) = hval B l1 * B ^ l2.length + hval B l2 := by
  induction l2 using List.reverseRecOn generalizing l1 with
  | nil => simp [hval]
  | append_singleton l a ih =>
    rw [← List.append_assoc, hval_append_one, hval_append_one, ih, List.length_append,
      List.length_singleton, Nat.pow_succ]
    ring

theorem hval_lt (B : Nat) (l : List Nat) (h : ∀ d ∈ l, d + 1 ≤ B) : hval B l < B ^ l.length := by
  induction l using List.reverseRecOn with
  | nil => simp [hval]
  | append_singleton l a ih =>
    have h1 := ih (fun d hd => h d (List.mem_append_left _ hd))
    have h2 := h a (by simp)
    rw [hval_append_one, List.length_append, List.length_singleton, Nat.pow_succ]
    have : (hval B l + 1) * B ≤ B ^ l.length * B := Nat.mul_le_mul_right _ h1
    nlinarith

/-- The value of the last `n` digits is the value modulo `B ^ n`. -/
theorem hval_mod_drop (B n : Nat) (l : List Nat) (h : ∀ d ∈ l, d + 1 ≤ B) :
    hval B (l.drop (l.length - n)) = hval B l % B ^ n := by
  by_cases hn : l.length ≤ n
  · rw [Nat.sub_eq_zero_of_le hn, List.drop_zero]
    have h1 := hval_lt B l h
    have hB : 1 ≤ B ∨ l = [] := by
      cases l with
      | nil => exact Or.inr rfl
      | cons a t => exact Or.inl (le_trans (Nat.le_add_left 1 a) (h a (by simp)))
    rcases hB with hB | hB
    · exact (Nat.mod_eq_of_lt (lt_of_lt_of_le h1 (Nat.pow_le_pow_right hB hn))).symm
    · subst hB
      simp [hval]
  · have hlen : (l.drop (l.length - n)).length = n := by
      rw [List.length_drop]; omega
    have h2 := hval_lt B (l.drop (l.length - n)) (fun d hd => h d (List.mem_of_mem_drop hd))
    rw [hlen] at h2
    conv_rhs => rw [← List.take_append_drop (l.length - n) l, hval_append, hlen]
    rw [Nat.mul_add_mod_of_lt h2]

end Sixit

namespace Sixit
namespace simd_buffer512

theorem foldl_set_length (c : Prop) [Decidable c] (f : List Nat → Nat → Nat) (idx : List Nat) :
    ∀ t : List Nat,
      (idx.foldl (fun t (i : Nat) => if c then t.set i (f t i) else t) t).length = t.length := by
  induction idx with
  | nil => intro t; rfl
  | cons i r ih =>
    intro t
    rw [List.foldl_cons, ih]
    split
    · exact List.length_set _ _ _
    · rfl

theorem shr_words_length (t : List Nat) (b : Int) : (shr_words t b).length = t.length :=
  foldl_set_length _ _ _ t

theorem shr_bits_length (t : List Nat) (b : Int) : (shr_bits t b).length = t.length :=
  foldl_set_length _ _ _ t

theorem shl_words_eight (t : List Nat) (h : t.length = 8) :
    shl_words t 8 = [0, 0, 0, 0, 0, 0, 0, 0] := by
  match t, h with
  | [a0, a1, a2, a3, a4, a5, a6, a7], _ => rfl

theorem shl_bits_zero_count (t : List Nat) : shl_bits t 0 = t := by
  unfold shl_bits
  simp [List.foldl]

/-- With `length = 0` the realignment block clears the register, whatever `b` is. -/
theorem realign_zero_length (c : Nat) (b : Int) : realign c b 0 = 0 := by
  unfold realign
  simp only []
  have e1 : (64 - (0 : Int)) / 8 = 8 := by decide
  have e2 : (64 - (0 : Int)) % 8 * 8 = 0 := by decide
  rw [e1, e2, shl_bits_zero_count, shl_words_eight _ (by
    rw [shr_bits_length, shr_words_length, length_lanes])]
  rfl

theorem reduce_zero : reduce 0 = 0 := by
  obtain ⟨r0, r1, r2, r3, h1, h2, _, _⟩ := reduce_eq512 0 (fun i _ => by simp [lane])
  have e4 : hval (100000000 * 100000000) [r0, r1, r2, r3]
      = ((r0 * 10000000000000000 + r1) * 10000000000000000 + r2) * 10000000000000000 + r3 := by
    simp [hval]
  have e0 : hval 10 (lanes 8 64 0) = 0 := by
    have : lanes 8 64 0 = List.replicate 64 0 ++ [] := by
      simp [lanes, lane, List.eq_replicate_iff]
    rw [this, hval_replicate_zero]
    rfl
  rw [e4, e0] at h1
  rw [h2]
  have z2 : r2 = 0 := by omega
  have z3 : r3 = 0 := by omega
  subst z2; subst z3
  rfl

/-- An empty run: `atoi(0)` is 0 for every register and every cursor. -/
theorem atoi_value_zero_length512 (s : simd_buffer512) : atoi_value s 0 = 0 := by
  unfold atoi_value
  simp only []
  rw [if_pos (Or.inr (by decide)), realign_zero_length, reduce_zero]

/-- Digit conversion of the 64-byte buffer: the value of the last 32 digits of the run,
modulo `2 ^ 64`. -/
theorem atoi_last32 (s : simd_buffer512) (k len : Nat) (hb : s.begin = (k : Int))
    (hk : k + len ≤ 64) (hd : allDigits (logical s len)) :
    atoi_value s (len : Int) = decimalValue ((logical s len).drop (len - 32)) % 2 ^ 64 := by
  by_cases hlen : len = 0
  · subst hlen
    rw [Int.ofNat_zero, atoi_value_zero_length512]
    rfl
  rw [logical_eq512 s k len hb] at hd ⊢
  unfold atoi_value
  simp only [hb]
  have hclt : subs_epi8 64 s.data (set1_epi8 64 48) < 2 ^ (8 * 64) :=
    mkLanes_lt 8 64 _
  have hx : (if (k : Int) ≠ 0 ∨ (len : Int) < 64
        then realign (subs_epi8 64 s.data (set1_epi8 64 48)) (k : Int) (len : Int)
        else subs_epi8 64 s.data (set1_epi8 64 48))
      = alignTop 64 (subs_epi8 64 s.data (set1_epi8 64 48)) k len := by
    split
    · exact realign_eq512 _ k len hclt (by omega) (by omega) (by omega)
    · rename_i h
      have hk0 : k = 0 := by omega
      have hl64 : len = 64 := by omega
      subst hk0; subst hl64
      exact (alignTop_self 64 _ hclt).symm
  rw [hx]
  have hbs := bytesAt_subs_epi8 64 s.data k len hk hd
  have hle : ∀ v ∈ bytesAt (subs_epi8 64 s.data (set1_epi8 64 48)) k len, v ≤ 9 := by
    rw [hbs]; exact digits_le _ hd
  obtain ⟨r0, r1, r2, r3, hval4, hres, h2, h3⟩ :=
    reduce_eq512 _ (alignTop_digit_le 64 _ k len (by omega) hle)
  rw [lanes_alignTop 64 _ k len (by omega), hval_replicate_zero, hbs] at hval4
  have e4 : hval (100000000 * 100000000) [r0, r1, r2, r3]
      = ((r0 * 10000000000000000 + r1) * 10000000000000000 + r2) * 10000000000000000 + r3 := by
    simp [hval]
  rw [e4] at hval4
  have hdrop := hval_mod_drop 10 32 ((bytesAt s.data k len).map (fun c => c - 48))
    (fun d hd' => by have := digits_le _ hd d hd'; omega)
  rw [List.length_map] at hdrop
  have hl : (bytesAt s.data k len).length = len := by simp [bytesAt]
  rw [hl, ← List.map_drop] at hdrop
  unfold decimalValue
  rw [hres, hdrop]
  generalize hval 10 (List.map (fun c => c - 48) (bytesAt s.data k len)) = V at hval4 ⊢
  have e32 : (10 : Nat) ^ 32 = 100000000000000000000000000000000 := by norm_num
  rw [e32]
  have hV : V % 100000000000000000000000000000000 = r2 * 10000000000000000 + r3 := by omega
  rw [hV]

end simd_buffer512
end Sixit

/-! ## Shift counts of `atoi` -/

namespace Sixit

theorem shl64_checked_64 (x : Nat) : shl64_checked x 64 = none := by
  unfold shl64_checked
  rw [if_neg (by omega)]

theorem shl64_checked_some (x : Nat) (s : Int) (h0 : 0 ≤ s) (h : s < 64) :
    shl64_checked x s = some (shl64 x s.toNat) := by
  unfold shl64_checked
  rw [if_pos ⟨h0, h⟩]

theorem shr64_checked_some (x : Nat) (s : Int) (h0 : 0 ≤ s) (h : s < 64) :
    shr64_checked x s = some (x >>> s.toNat) := by
  unfold shr64_checked
  rw [if_pos ⟨h0, h⟩]

namespace simd_buffer128

/-- With `length = 0` the second half of the realignment shifts by 64 bits. -/
theorem realign_shl_checked_zero (t0 t1 : Nat) : realign_shl_checked t0 t1 0 = none := by
  unfold realign_shl_checked
  simp only []
  have e : (16 - (if (0 : Int) < 9 then (0 : Int) + 8 else 0)) * 8 = 64 := by decide
  rw [e, shl64_checked_64]
  rfl

theorem atoi_checked_zero_length128 (ssse3 : Bool) (s : simd_buffer128) :
    atoi_checked ssse3 s 0 = none := by
  unfold atoi_checked realign_checked
  simp only []
  rw [if_pos (Or.inr (by decide))]
  cases realign_shr_checked (lane 64 0 (sub_epi8 16 s.data (set1_epi8 16 48)))
      (lane 64 1 (sub_epi8 16 s.data (set1_epi8 16 48))) s.begin with
  | none => rfl
  | some r =>
    simp only [bind, Option.bind, realign_shl_checked_zero]

theorem realign_shr_checked_eq (t0 t1 : Nat) (b : Int) (h0 : 0 ≤ b) (h : b ≤ 15) :
    realign_shr_checked t0 t1 b = some (realign_shr t0 t1 b) := by
  unfold realign_shr_checked realign_shr
  simp only []
  generalize hc : (if b > 7 then b - 8 else b) * 8 = c
  have hc0 : 0 ≤ c ∧ c ≤ 56 := by
    subst hc
    split_ifs <;> omega
  have hs : ∀ x, shr64_checked x c = some (x >>> c.toNat) :=
    fun x => shr64_checked_some x c (by omega) (by omega)
  by_cases hz : c ≠ 0
  · have hl : ∀ x, shl64_checked x (64 - c) = some (shl64 x (64 - c).toNat) :=
      fun x => shl64_checked_some x _ (by omega) (by omega)
    simp only [hs, hl, if_pos hz, Option.bind_eq_bind, Option.some_bind]
  · simp only [hs, if_neg hz, Option.bind_eq_bind, Option.some_bind]

theorem realign_shl_checked_eq (t0 t1 : Nat) (length : Int) (h0 : 1 ≤ length)
    (h : length ≤ 16) :
    realign_shl_checked t0 t1 length = some (realign_shl t0 t1 length) := by
  unfold realign_shl_checked realign_shl
  simp only []
  generalize hc : (16 - (if length < 9 then length + 8 else length)) * 8 = c
  have hc0 : 0 ≤ c ∧ c ≤ 56 := by
    subst hc
    split_ifs <;> omega
  have hl : ∀ x, shl64_checked x c = some (shl64 x c.toNat) :=
    fun x => shl64_checked_some x c (by omega) (by omega)
  by_cases hz : c ≠ 0
  · have hs : ∀ x, shr64_checked x (64 - c) = some (x >>> (64 - c).toNat) :=
      fun x => shr64_checked_some x _ (by omega) (by omega)
    simp only [hs, hl, if_pos hz, Option.bind_eq_bind, Option.some_bind]
  · simp only [hl, if_neg hz, Option.bind_eq_bind, Option.some_bind]

/-- On a run of at least one byte inside the register every shift of `atoi` has a count
below 64: the checked `atoi` is defined and agrees with `atoi`. -/
theorem atoi_checked_eq128 (ssse3 : Bool) (s : simd_buffer128) (length : Int)
    (hb : 0 ≤ s.begin) (hl : 1 ≤ length) (hk : s.begin + length ≤ 16) :
    atoi_checked ssse3 s length = some (atoi ssse3 s length) := by
  unfold atoi_checked atoi realign_checked realign
  simp only []
  split
  · rw [realign_shr_checked_eq _ _ _ hb (by omega)]
    simp only [bind, Option.bind]
    rw [realign_shl_checked_eq _ _ _ hl (by omega)]
  · rfl

end simd_buffer128

namespace simd_buffer256

theorem shl_bits_checked_eight (t : Words4) : shl_bits_checked t 8 = none := by
  unfold shl_bits_checked
  rw [if_pos (by decide)]
  simp only []
  have e : (8 : Int) * 8 = 64 := by decide
  rw [e, shl64_checked_64]
  rfl

theorem shr_bits_checked_eq (t : Words4) (b : Int) (h0 : 0 ≤ b) (h : b ≤ 7) :
    shr_bits_checked t b = some (shr_bits t b) := by
  unfold shr_bits_checked shr_bits
  by_cases hz : b ≠ 0
  · have hs : ∀ x, shr64_checked x (b * 8) = some (x >>> (b * 8).toNat) :=
      fun x => shr64_checked_some x _ (by omega) (by omega)
    have hl : ∀ x, shl64_checked x (64 - b * 8) = some (shl64 x (64 - b * 8).toNat) :=
      fun x => shl64_checked_some x _ (by omega) (by omega)
    simp only [hs, hl, if_pos hz, Option.bind_eq_bind, Option.some_bind]
  · simp only [if_neg hz]

theorem shl_bits_checked_eq (t : Words4) (length : Int) (h0 : 0 ≤ length) (h : length ≤ 7) :
    shl_bits_checked t length = some (shl_bits t length) := by
  unfold shl_bits_checked shl_bits
  by_cases hz : length ≠ 0
  · have hl : ∀ x, shl64_checked x (length * 8) = some (shl64 x (length * 8).toNat) :=
      fun x => shl64_checked_some x _ (by omega) (by omega)
    have hs : ∀ x, shr64_checked x (64 - length * 8)
        = some (x >>> (64 - length * 8).toNat) :=
      fun x => shr64_checked_some x _ (by omega) (by omega)
    simp only [hs, hl, if_pos hz, Option.bind_eq_bind, Option.some_bind]
  · simp only [if_neg hz]

end simd_buffer256

namespace simd_buffer64

/-- An empty run: `atoi(0)` is 0 for every content of the word. -/
theorem atoi_zero_length64 (s : simd_buffer64) : atoi s 0 = 0 := by
  unfold atoi
  simp only []
  have e : (9 * (max_bytes - 0)).toNat = 63 := by decide
  rw [e]
  have h : (sub64 s.data (shl64 (repeat_ 48) 63) &&& neg_guard_mask) >>> 63 = 0 := by
    rw [Nat.shiftRight_eq_div_pow]
    apply Nat.div_eq_of_lt
    exact lt_of_le_of_lt Nat.and_le_right (by decide)
  rw [h]
  decide

end simd_buffer64
end Sixit

/-! ## The 64 x 64 bit product -/

namespace Sixit

theorem lane32_split (a : Nat) (ha : a < 2 ^ 64) : a = lane 32 0 a + 2 ^ 32 * lane 32 1 a := by
  unfold lane
  norm_num
  omega

/-- The schoolbook product of `umult64x64_default` on the four partial products. -/
theorem umult_carries (p00 p01 p10 p11 : Nat) (h00 : p00 ≤ (2 ^ 32 - 1) * (2 ^ 32 - 1))
    (h01 : p01 ≤ (2 ^ 32 - 1) * (2 ^ 32 - 1)) (h10 : p10 ≤ (2 ^ 32 - 1) * (2 ^ 32 - 1))
    (h11 : p11 ≤ (2 ^ 32 - 1) * (2 ^ 32 - 1)) :
    let middle := u64 (u64 p01 + u64 p10)
    let low := u64 (u64 p00 + shl64 middle 32)
    let high := u64 (u64 (u64 p11 + shl64 (if middle < u64 p01 then 1 else 0) 32)
      + u64 ((middle >>> 32) + (if low < u64 p00 then 1 else 0)))
    high * 2 ^ 64 + low = p11 * 2 ^ 64 + (p01 + p10) * 2 ^ 32 + p00 ∧ low < 2 ^ 64 := by
  simp only [u64, shl64, Nat.shiftLeft_eq, Nat.shiftRight_eq_div_pow]
  norm_num at h00 h01 h10 h11 ⊢
  split_ifs <;> omega

theorem umult64x64_default_eq (a b : Nat) (ha : a < 2 ^ 64) (hb : b < 2 ^ 64) :
    (umult64x64_default a b).2 * 2 ^ 64 + (umult64x64_default a b).1 = a * b ∧
      (umult64x64_default a b).1 < 2 ^ 64 := by
  have b32 : ∀ i x, lane 32 i x ≤ 2 ^ 32 - 1 := fun i x => Nat.le_pred_of_lt (lane_lt 32 i x)
  have h := umult_carries (lane 32 0 a * lane 32 0 b) (lane 32 0 a * lane 32 1 b)
    (lane 32 1 a * lane 32 0 b) (lane 32 1 a * lane 32 1 b)
    (Nat.mul_le_mul (b32 _ _) (b32 _ _)) (Nat.mul_le_mul (b32 _ _) (b32 _ _))
    (Nat.mul_le_mul (b32 _ _) (b32 _ _)) (Nat.mul_le_mul (b32 _ _) (b32 _ _))
  simp only [] at h
  unfold umult64x64_default
  simp only []
  refine ⟨?_, h.2⟩
  rw [h.1]
  conv_rhs => rw [lane32_split a ha, lane32_split b hb]
  ring

end Sixit

/-! ## Representability, expected exceptions and the high bits of the 32-byte masks -/

namespace Sixit

theorem pow_pred_le_31 (n : Nat) (h : n ≤ 32) : (2 : Int) ^ (n - 1) ≤ 2147483648 := by
  have h1 : (2 : Nat) ^ (n - 1) ≤ 2 ^ 31 := Nat.pow_le_pow_right (by norm_num) (by omega)
  have h2 : ((2 : Nat) ^ (n - 1) : Int) ≤ ((2 ^ 31 : Nat) : Int) := by exact_mod_cast h1
  simpa using h2

theorem cast_signed_eq (value : Int) (h0 : 0 ≤ value) (h1 : value < 4294967296) :
    cast_signed value = if value < 2147483648 then value else value - 4294967296 := by
  unfold cast_signed toSigned ofSigned
  have e : (2 : Int) ^ 32 = 4294967296 := by norm_num
  rw [e, Int.emod_eq_of_lt h0 h1]
  have e2 : (2 : Nat) ^ (32 - 1) = 2147483648 := by norm_num
  rw [e2]
  by_cases h : value < 2147483648
  · rw [if_pos h, if_pos (by omega)]
    omega
  · rw [if_neg h, if_neg (by omega)]
    omega

/-- For an input type of at most 32 bits and an output type that is not wider (the
`static_assert` of `narrow_cast`), `is_representable` is the range test. -/
theorem is_representable_narrow (InputT OutputT : IntegralType) (value : Int)
    (hi : InputT.bits ≤ 32) (ho : OutputT.bits ≤ InputT.bits) (ho1 : 1 ≤ OutputT.bits)
    (h1 : InputT.lowest ≤ value) (h2 : value ≤ InputT.max) :
    is_representable InputT OutputT value
      = decide (OutputT.lowest ≤ value ∧ value ≤ OutputT.max) := by
  obtain ⟨si, bi⟩ := InputT
  obtain ⟨so, bo⟩ := OutputT
  have hi' : bi ≤ 32 := hi
  have ho' : bo ≤ bi := ho
  have p2 := pow_pred_le_31 bo (by omega)
  have p3 : (2 : Int) ^ bi ≤ 4294967296 := by
    have h1 : (2 : Nat) ^ bi ≤ 2 ^ 32 := Nat.pow_le_pow_right (by norm_num) hi'
    have h2 : ((2 : Nat) ^ bi : Int) ≤ ((2 ^ 32 : Nat) : Int) := by exact_mod_cast h1
    simpa using h2
  have p4 : (0 : Int) < 2 ^ (bo - 1) := by positivity
  have p6 : (0 : Int) < 2 ^ (bi - 1) := by positivity
  have p7 := pow_pred_le_31 bi hi'
  cases si <;> cases so <;>
    simp only [is_representable, IntegralType.lowest, IntegralType.max, Bool.false_eq_true,
      Bool.true_eq_false, and_self, and_true, and_false, true_and, false_and, if_true,
      if_false, Bool.decide_and] at h1 h2 ⊢
  · -- unsigned to unsigned
    exact Bool.and_comm _ _
  · -- unsigned to signed
    rw [cast_signed_eq value h1 (by omega)]
    by_cases h : value < 2147483648
    · rw [if_pos h, decide_eq_true (show value ≥ 0 from h1),
        decide_eq_true (show -2 ^ (bo - 1) ≤ value by omega), Bool.and_comm]
    · rw [if_neg h, decide_eq_false (show ¬ (value - 4294967296 ≥ 0) by omega),
        decide_eq_false (show ¬ (value ≤ 2 ^ (bo - 1) - 1) by omega), Bool.and_false,
        Bool.and_false]
  · -- signed to unsigned
    by_cases h : value ≥ 0
    · have e : cast_unsigned value = value := by
        unfold cast_unsigned
        have e : (2 : Int) ^ 32 = 4294967296 := by norm_num
        rw [e]
        exact Int.emod_eq_of_lt h (by omega)
      rw [e]
    · rw [decide_eq_false h, Bool.false_and, Bool.false_and]
  · -- signed to signed
    exact Bool.and_comm _ _

/-- The overloads of `presume_throws` that take a reason: `assumption_failed` is thrown
exactly when `l()` completes. -/
theorem presume_throws_spec {ε : Type} (l : Unit → Except ε Unit) (reason : String) :
    (presume_throws l reason = Except.error { reason := reason } ↔ l () = Except.ok ()) ∧
    (presume_throws l reason = Except.ok () ↔ ∃ e, l () = Except.error e) := by
  unfold presume_throws
  cases h : l () with
  | ok u => simp
  | error e => simp

theorem presume_no_throw_spec {ε : Type} (l : Unit → Except ε Unit) (reason : String) :
    (presume_no_throw l reason = Except.error { reason := reason } ↔ ∃ e, l () = Except.error e) ∧
    (presume_no_throw l reason = Except.ok () ↔ l () = Except.ok ()) := by
  unfold presume_no_throw
  cases h : l () with
  | ok u => simp
  | error e => simp

namespace simd_buffer256

/-- In the `__AVX512VL__ && __AVX512BW__` alternative the masks have no bit at a position
from `32 - begin` on. -/
theorem mask_high_bits_avx512 (b : Nat) (s : simd_buffer256) (i : Nat) (h0 : 0 ≤ s.begin)
    (hi : 32 ≤ s.begin + (i : Int)) :
    (equal_to true b s).testBit i = false ∧ (lt_than true b s).testBit i = false := by
  unfold equal_to lt_than
  simp only [if_true]
  rw [testBit_shiftRight_nat, testBit_shiftRight_nat]
  have hk : 32 ≤ s.begin.toNat + i := by omega
  constructor
  · apply Nat.testBit_lt_two_pow
    exact lt_of_lt_of_le (mkLanes_lt 1 32 _) (Nat.pow_le_pow_right (by norm_num) (by omega))
  · apply Nat.testBit_lt_two_pow
    exact lt_of_lt_of_le (mkLanes_lt 1 32 _) (Nat.pow_le_pow_right (by norm_num) (by omega))

end simd_buffer256
end Sixit

/-! ## The local arrays of `atoi` -/

namespace Sixit

theorem aligned_access_some (n addr : Nat) (h : addr % n = 0) : aligned_access n addr = some () :=
  if_pos h

theorem aligned_access_none (n addr : Nat) (h : addr % n ≠ 0) : aligned_access n addr = none :=
  if_neg h

namespace simd_buffer256

/-- With `length = 0` the realignment block shifts by 64 bits. -/
theorem realign_checked_zero_length256 (c : Nat) (b : Int) : realign_checked c b 0 = none := by
  unfold realign_checked
  simp only []
  have e : shl_count (32 - 0) = 8 := by decide
  rw [e]
  cases shr_bits_checked (shr_words
      { w0 := lane 64 0 c, w1 := lane 64 1 c, w2 := lane 64 2 c, w3 := lane 64 3 c } b)
      (shr_count b) with
  | none => rfl
  | some r =>
    simp only [bind, Option.bind, shl_bits_checked_eight]

/-- An empty run: `atoi(0)` has no defined result, wherever the local arrays are placed. -/
theorem atoi_zero_length256 (avx512 : Bool) (tmp_value intermediate_storage : Nat)
    (s : simd_buffer256) : atoi avx512 tmp_value intermediate_storage s 0 = none := by
  unfold atoi
  simp only []
  rw [if_pos (Or.inr (by decide)), realign_checked_zero_length256]
  cases aligned_access 32 tmp_value <;> rfl

/-- On a run of at least one byte inside the register every shift of the realignment block
has a count below 64. -/
theorem realign_checked_eq256 (c : Nat) (b length : Int) (hb : 0 ≤ b) (hl : 1 ≤ length)
    (hk : b + length ≤ 32) : realign_checked c b length = some (realign c b length) := by
  unfold realign_checked realign
  simp only []
  have c1 : 0 ≤ shr_count b ∧ shr_count b ≤ 7 := by
    unfold shr_count
    split_ifs <;> omega
  have c2 : 0 ≤ shl_count (32 - length) ∧ shl_count (32 - length) ≤ 7 := by
    unfold shl_count
    split_ifs <;> omega
  rw [shr_bits_checked_eq _ _ c1.1 c1.2]
  simp only [bind, Option.bind]
  rw [shl_bits_checked_eq _ _ c2.1 c2.2]

/-- With the local arrays at multiples of 32 and a run of at least one byte inside the
register, `atoi` is defined and returns the value of its arithmetic. -/
theorem atoi_eq256 (avx512 : Bool) (tmp_value intermediate_storage : Nat) (s : simd_buffer256)
    (length : Int) (h1 : tmp_value % 32 = 0) (h2 : intermediate_storage % 32 = 0)
    (hb : 0 ≤ s.begin) (hl : 1 ≤ length) (hk : s.begin + length ≤ 32) :
    atoi avx512 tmp_value intermediate_storage s length = some (atoi_value avx512 s length) := by
  unfold atoi atoi_value
  simp only []
  rw [aligned_access_some 32 _ h1, aligned_access_some 32 _ h2,
    realign_checked_eq256 _ _ _ hb hl hk]
  cases avx512 <;> split <;> rfl

/-- A local array `tmp_value` that is not at a multiple of 32: the realignment block has no
defined result. -/
theorem atoi_unaligned256 (avx512 : Bool) (tmp_value intermediate_storage : Nat)
    (s : simd_buffer256) (length : Int) (h1 : tmp_value % 32 ≠ 0)
    (h : s.begin ≠ 0 ∨ length < 32) :
    atoi avx512 tmp_value intermediate_storage s length = none := by
  unfold atoi
  simp only []
  rw [if_pos h, aligned_access_none 32 _ h1]
  rfl

end simd_buffer256

namespace simd_buffer512

/-- With the local arrays at multiples of 64 and 32, `atoi` is defined and returns the value
of its arithmetic. -/
theorem atoi_eq512 (tmp_value result : Nat) (s : simd_buffer512) (length : Int)
    (h1 : tmp_value % 64 = 0) (h2 : result % 32 = 0) :
    atoi tmp_value result s length = some (atoi_value s length) := by
  unfold atoi atoi_value
  simp only []
  rw [aligned_access_some 64 _ h1, aligned_access_some 32 _ h2]
  split <;> rfl

/-- A local array `result` that is not at a multiple of 32: `atoi` has no defined result. -/
theorem atoi_unaligned_result512 (tmp_value result : Nat) (s : simd_buffer512) (length : Int)
    (h2 : result % 32 ≠ 0) : atoi tmp_value result s length = none := by
  unfold atoi
  simp only []
  rw [aligned_access_none 32 _ h2]
  split
  · cases aligned_access 64 tmp_value <;> rfl
  · rfl

/-- A local array `tmp_value` that is not at a multiple of 64: the realignment block has no
defined result. -/
theorem atoi_unaligned512 (tmp_value result : Nat) (s : simd_buffer512) (length : Int)
    (h1 : tmp_value % 64 ≠ 0) (h : s.begin ≠ 0 ∨ length < 64) :
    atoi tmp_value result s length = none := by
  unfold atoi
  simp only []
  rw [if_pos h, aligned_access_none 64 _ h1]
  rfl

end simd_buffer512

/-- The cross-width scenario with the local arrays of the 32- and 64-byte `atoi` at
multiples of 64: every variant returns the value of the digit run. -/
theorem atoiAt_eq (ssse3 avx512 : Bool) (d a1 a2 : Nat) (v : Variant) (r o len : Nat)
    (h1 : a1 % 64 = 0) (h2 : a2 % 64 = 0)
    (hlen : 1 ≤ len) (ho : o + len ≤ v.capacity) (hd : allDigits (bytesAt r o len))
    (hV : decimalValue (bytesAt r o len) < 2 ^ 64) :
    atoiAt ssse3 avx512 d a1 a2 v r o len = some (decimalValue (bytesAt r o len)) := by
  cases v with
  | b7 =>
    unfold atoiAt
    simp only []
    rw [simd_buffer64.atoi_run64 r o len hlen ho hd]
  | b16 =>
    unfold atoiAt
    simp only []
    rw [simd_buffer128.atoi_run128 ssse3 d r o len hlen ho hd]
  | b32 =>
    have hs : (simd_buffer256.consume (simd_buffer256.fill_from (simd_buffer256.init d) r).2
        (o : Int)).2 = { data := r, begin := (o : Int), end_ := 32 } := by
      simp [simd_buffer256.consume, simd_buffer256.fill_from, simd_buffer256.init]
    have hl : simd_buffer256.logical { data := r, begin := (o : Int), end_ := 32 } len
        = bytesAt r o len := simd_buffer256.logical_eq256 _ o len rfl
    have ho2 : o + len ≤ 32 := ho
    unfold atoiAt
    simp only []
    rw [hs, simd_buffer256.atoi_eq256 avx512 a1 a2 _ _ (by omega) (by omega)
      (by simp) (by omega) (by simp only []; omega),
      simd_buffer256.atoi_run256 avx512 _ o len rfl hlen ho (by rw [hl]; exact hd), hl]
    rw [Nat.mod_eq_of_lt hV]
  | b64 =>
    have hs : (simd_buffer512.consume (simd_buffer512.fill_from (simd_buffer512.init d) r).2
        (o : Int)).2 = { data := r, begin := (o : Int), end_ := 64 } := by
      simp [simd_buffer512.consume, simd_buffer512.fill_from, simd_buffer512.init]
    have hl : simd_buffer512.logical { data := r, begin := (o : Int), end_ := 64 } len
        = bytesAt r o len := simd_buffer512.logical_eq512 _ o len rfl
    unfold atoiAt
    simp only []
    rw [hs, simd_buffer512.atoi_eq512 a1 a2 _ _ h1 (by omega),
      simd_buffer512.atoi_run512 _ o len rfl hlen ho (by rw [hl]; exact hd)
      (by rw [hl]; exact hV), hl]

end Sixit

/-! ## Guard bits along a sequence of calls -/

namespace Sixit
namespace simd_buffer64

theorem no_borrow_get (b : Nat) (s : simd_buffer64) (h : no_borrow b s = true) (i : Nat)
    (hi : (i : Int) < s.n_bytes) : b ≤ get s (i : Int) := by
  unfold no_borrow n_left at h
  rw [List.all_eq_true] at h
  have := h i (List.mem_range.2 (by omega))
  exact of_decide_eq_true this

/-- What a sequence of `consume`, `erase_and_shift_left` and `sub` calls preserves when no
`sub` of it borrows: the word fits 64 bits, `0 ≤ n_bytes ≤ 7`, and every valid lane has its
guard bit set. -/
theorem run_calls_inv (calls : List Call) :
    ∀ s : simd_buffer64, s.data < 2 ^ 64 → 0 ≤ s.n_bytes → s.n_bytes ≤ 7 →
      (∀ i : Nat, (i : Int) < s.n_bytes → s.data.testBit (9 * (7 - i)) = true) →
      subs_without_borrow s calls = true →
      ∀ r : simd_buffer64, run_calls s calls = some r →
        r.data < 2 ^ 64 ∧ 0 ≤ r.n_bytes ∧ r.n_bytes ≤ 7 ∧
        (∀ i : Nat, (i : Int) < r.n_bytes → r.data.testBit (9 * (7 - i)) = true) := by
  induction calls with
  | nil =>
    intro s hx h0 h7 hg _ r hr
    simp only [run_calls, Option.some.injEq] at hr
    subst hr
    exact ⟨hx, h0, h7, hg⟩
  | cons c cs ih =>
    intro s hx h0 h7 hg hnb r hr
    cases c with
    | consume n =>
      simp only [run_calls, n_left] at hr
      split at hr
      · rename_i hn
        refine ih (consume s (n : Int)).2 (shl64_lt _ _) ?_ ?_ ?_ hnb r hr
        · show 0 ≤ s.n_bytes - (n : Int)
          omega
        · show s.n_bytes - (n : Int) ≤ 7
          omega
        · exact fun i hi => guards_consume s n h7 hg i hi
      · exact absurd hr (by simp)
    | erase idx =>
      simp only [run_calls, n_left] at hr
      split at hr
      · rename_i hn
        refine ih (erase_and_shift_left s (idx : Int)) (erase_data_lt _ _) ?_ ?_ ?_ hnb r hr
        · show 0 ≤ s.n_bytes - 1
          omega
        · show s.n_bytes - 1 ≤ 7
          omega
        · exact fun i hi => guards_erase s idx hn h7 hx hg i hi
      · exact absurd hr (by simp)
    | sub b =>
      simp only [run_calls] at hr
      simp only [subs_without_borrow, Bool.and_eq_true] at hnb
      split at hr
      · rename_i hb
        have hn : (sub b s).2.n_bytes = s.n_bytes := rfl
        refine ih (sub b s).2 (sub64_lt _ _) (by rw [hn]; exact h0) (by rw [hn]; exact h7)
          ?_ hnb.2 r hr
        intro i hi
        rw [hn] at hi
        exact (sub_guard_bit s b i h0 h7 hx hb hg hi).2 (no_borrow_get b s hnb.1 i hi)
      · exact absurd hr (by simp)

end simd_buffer64
end Sixit

/-! ## The cursor invariant -/

namespace Sixit

namespace simd_buffer128

end simd_buffer128

namespace simd_buffer256

end simd_buffer256

namespace simd_buffer512

end simd_buffer512
end Sixit

/-! ## The claims -/

namespace Sixit

/-- C1: for every 16-byte register `r`, offset `k` and length `len ≥ 1` with
`k + len ≤ 16` such that bytes `k .. k+len-1` of `r` are ASCII digits, a default-constructed
`simd_buffer128` after `fill_from(r)` and `consume(k)` returns from `atoi(len)` the base-10
value of those digits (first byte most significant), whatever the other bytes of `r` and
whichever `__SSSE3__` alternative is compiled. -/
theorem C1_atoi128_digit_run (ssse3 : Bool) (d r k len : Nat) (hlen : 1 ≤ len)
    (hk : k + len ≤ 16) (hd : allDigits (bytesAt r k len)) :
    simd_buffer128.atoi ssse3
        (simd_buffer128.consume (simd_buffer128.fill_from (simd_buffer128.init d) r).2
          (k : Int)).2 (len : Int)
      = decimalValue (bytesAt r k len) :=
  simd_buffer128.atoi_run128 ssse3 d r k len hlen hk hd

/-- Witness of C1: the register `"0000001234500000"`, `consume(6)`, `atoi(5)` gives 12345. -/
theorem C1_atoi128_digit_run_witness :
    (1 ≤ 5 ∧ 6 + 5 ≤ 16 ∧
      allDigits (bytesAt (ofBytes [48, 48, 48, 48, 48, 48, 49, 50, 51, 52, 53, 48, 48, 48, 48, 48])
        6 5)) ∧
    simd_buffer128.atoi true
        (simd_buffer128.consume (simd_buffer128.fill_from (simd_buffer128.init 0)
          (ofBytes [48, 48, 48, 48, 48, 48, 49, 50, 51, 52, 53, 48, 48, 48, 48, 48])).2
          ((6 : Nat) : Int)).2 ((5 : Nat) : Int) = 12345 :=
  ⟨⟨by decide, by decide, by decide⟩,
    (C1_atoi128_digit_run true 0 _ 6 5 (by decide) (by decide) (by decide)).trans (by decide)⟩

/-- C2: for every 64-bit word `u`, offset `k` and length `len ≥ 1` with `k + len ≤ 7` such
that the little-endian bytes `k .. k+len-1` of `u` are ASCII digits, a default-constructed
`simd_buffer64` after `fill_from(u, 7)` and `consume(k)` returns from `atoi(len)` the
base-10 value of those digits (byte `k` most significant). -/
theorem C2_atoi64_digit_run (u k len : Nat) (hlen : 1 ≤ len) (hk : k + len ≤ 7)
    (hd : allDigits (bytesAt u k len)) :
    simd_buffer64.atoi
        (simd_buffer64.consume (simd_buffer64.fill_from simd_buffer64.init u 7).2 (k : Int)).2
        (len : Int)
      = decimalValue (bytesAt u k len) :=
  simd_buffer64.atoi_run64 u k len hlen hk hd

/-- Witness of C2: the seven bytes `"9999999"`, `atoi(7)` gives 9999999. -/
theorem C2_atoi64_digit_run_witness :
    (1 ≤ 7 ∧ 0 + 7 ≤ 7 ∧ allDigits (bytesAt (ofBytes [57, 57, 57, 57, 57, 57, 57]) 0 7)) ∧
    simd_buffer64.atoi
        (simd_buffer64.consume (simd_buffer64.fill_from simd_buffer64.init
          (ofBytes [57, 57, 57, 57, 57, 57, 57]) 7).2 ((0 : Nat) : Int)).2 ((7 : Nat) : Int)
      = 9999999 :=
  ⟨⟨by decide, by decide, by decide⟩,
    (C2_atoi64_digit_run _ 0 7 (by decide) (by decide) (by decide)).trans (by decide)⟩

set_option maxRecDepth 100000 in
/-- C3, failing input: the 64-byte example state (`"abc12345"` + padding, `begin = 3`),
`atoi(5)`, in a build that places the local array `tmp_value` at a multiple of 16 that is
not a multiple of 64, or `result` at a multiple of 16 that is not a multiple of 32 (the
declarations `uint64_t tmp_value[8]` and `uint64_t result[4]` ask for a multiple of 8).
`_mm512_store_si512` into `tmp_value` and `_mm256_store_si256` into `result` are aligned
stores, so the call has no defined result instead of returning 12345.  When the two arrays
are aligned, `atoi(length)` returns the value of the digit run for every state with
`0 ≤ begin`, `1 ≤ length`, `begin + length ≤ 64` whose logical bytes `0 .. length-1` are
digits with value below `2 ^ 64`. -/
theorem C3_atoi512_unaligned_scratch :
    simd_buffer512.atoi 16 32 exampleState512 5 = none ∧
    simd_buffer512.atoi 64 16 exampleState512 5 = none ∧
    simd_buffer512.atoi 64 32 exampleState512 5 = some 12345 ∧
    (∀ (tmp_value result : Nat) (s : simd_buffer512) (len : Nat),
      tmp_value % 64 = 0 → result % 32 = 0 → 0 ≤ s.begin → 1 ≤ len →
      s.begin + (len : Int) ≤ 64 → allDigits (simd_buffer512.logical s len) →
      decimalValue (simd_buffer512.logical s len) < 2 ^ 64 →
      simd_buffer512.atoi tmp_value result s (len : Int)
        = some (decimalValue (simd_buffer512.logical s len))) := by
  refine ⟨by decide, by decide, by decide, fun tmp_value result s len h1 h2 hb hlen hk hd hV => ?_⟩
  rw [simd_buffer512.atoi_eq512 _ _ _ _ h1 h2,
    simd_buffer512.atoi_run512 s s.begin.toNat len (by omega) hlen (by omega) hd hV]

set_option maxRecDepth 100000 in
/-- C4, failing input: the 32-byte example state (`"abc12345"` + padding, `begin = 3`),
`atoi(5)`, in a build that places the local array `tmp_value` (or, without
`__AVX512VL__ && __AVX512BW__`, `intermediate_storage`) at a multiple of 16 that is not a
multiple of 32 (the declaration `uint64_t tmp_value[4]` asks for a multiple of 8).
`_mm256_store_si256` is an aligned store, so the call has no defined result instead of
returning 12345, in both build alternatives.  When the arrays are aligned, `atoi(length)`
returns the value of the digit run for every state with `0 ≤ begin`, `1 ≤ length`,
`begin + length ≤ 32` whose logical bytes `0 .. length-1` are digits with value below
`2 ^ 64`. -/
theorem C4_atoi256_unaligned_scratch :
    simd_buffer256.atoi false 16 32 exampleState256 5 = none ∧
    simd_buffer256.atoi true 16 32 exampleState256 5 = none ∧
    simd_buffer256.atoi false 32 16 exampleState256 5 = none ∧
    simd_buffer256.atoi false 32 64 exampleState256 5 = some 12345 ∧
    (∀ (avx512 : Bool) (tmp_value intermediate_storage : Nat) (s : simd_buffer256) (len : Nat),
      tmp_value % 32 = 0 → intermediate_storage % 32 = 0 → 0 ≤ s.begin → 1 ≤ len →
      s.begin + (len : Int) ≤ 32 → allDigits (simd_buffer256.logical s len) →
      decimalValue (simd_buffer256.logical s len) < 2 ^ 64 →
      simd_buffer256.atoi avx512 tmp_value intermediate_storage s (len : Int)
        = some (decimalValue (simd_buffer256.logical s len))) := by
  refine ⟨by decide, by decide, by decide, by decide,
    fun avx512 tmp_value intermediate_storage s len h1 h2 hb hlen hk hd hV => ?_⟩
  rw [simd_buffer256.atoi_eq256 _ _ _ _ _ h1 h2 hb (by omega) hk,
    simd_buffer256.atoi_run256 avx512 s s.begin.toNat len (by omega) hlen (by omega) hd,
    Nat.mod_eq_of_lt hV]

set_option maxRecDepth 100000 in
/-- C5, failing input: the digit string `"12345"` loaded at offset 3 of the 16-, 32- and
64-byte example registers, in a build that places the local array `tmp_value` of the 32-
and 64-byte `atoi` at a multiple of 16 that is not a multiple of 32.  The 16-byte variant
(and the packed 7-byte variant at offset 2) returns 12345; the 32- and the 64-byte variant
have no defined result, because of their aligned stores into `tmp_value`.  When the local
arrays are at multiples of 64, every two variants return the same result, the value of the
string, for every non-empty digit string with value below `2 ^ 64` and all offsets that
fit. -/
theorem C5_cross_width_unaligned_scratch :
    atoiAt true false 0 16 32 Variant.b16 exampleRegister128 3 5 = some 12345 ∧
    atoiAt true true 0 16 32 Variant.b7 (ofBytes [200, 201, 49, 50, 51, 52, 53]) 2 5
      = some 12345 ∧
    atoiAt true false 0 16 32 Variant.b32 exampleRegister256 3 5 = none ∧
    atoiAt true false 0 16 32 Variant.b64 exampleRegister512 3 5 = none ∧
    (∀ (str : List Nat) (ssse3 avx512 ssse3' avx512' : Bool) (d d' a1 a2 a1' a2' : Nat)
      (v w : Variant) (r r' o o' : Nat),
      allDigits str → 1 ≤ str.length → decimalValue str < 2 ^ 64 →
      a1 % 64 = 0 → a2 % 64 = 0 → a1' % 64 = 0 → a2' % 64 = 0 →
      o + str.length ≤ v.capacity → o' + str.length ≤ w.capacity →
      bytesAt r o str.length = str → bytesAt r' o' str.length = str →
      atoiAt ssse3 avx512 d a1 a2 v r o str.length
          = atoiAt ssse3' avx512' d' a1' a2' w r' o' str.length ∧
        atoiAt ssse3 avx512 d a1 a2 v r o str.length = some (decimalValue str)) := by
  refine ⟨by decide, by decide, by decide, by decide, ?_⟩
  intro str ssse3 avx512 ssse3' avx512' d d' a1 a2 a1' a2' v w r r' o o' hd h1 hV
    ha1 ha2 ha1' ha2' ho ho' hr hr'
  have e1 := atoiAt_eq ssse3 avx512 d a1 a2 v r o str.length ha1 ha2 h1 ho
    (by rw [hr]; exact hd) (by rw [hr]; exact hV)
  have e2 := atoiAt_eq ssse3' avx512' d' a1' a2' w r' o' str.length ha1' ha2' h1 ho'
    (by rw [hr']; exact hd) (by rw [hr']; exact hV)
  rw [hr] at e1
  rw [hr'] at e2
  exact ⟨e1.trans e2.symm, e1⟩

/-- C6: for the 16-, 32- and 64-byte buffers, every state with
`0 ≤ begin ≤ end ≤ capacity`, every constant `b` in `0..255` and every `i < n_left()`:
bit `i` of `equal_to<b>()` is set if and only if `get(i) = b` (for the 32-byte buffer in
both build alternatives). -/
theorem C6_equal_to_bit_iff (b i : Nat) (hb : b ≤ 255) :
    (∀ s : simd_buffer128, 0 ≤ s.begin → s.begin ≤ s.end_ → s.end_ ≤ 16 →
        (i : Int) < simd_buffer128.n_left s →
        (Int.testBit (simd_buffer128.equal_to b s) i = true ↔
          simd_buffer128.get s (i : Int) = b)) ∧
    (∀ (avx512 : Bool) (s : simd_buffer256), 0 ≤ s.begin → s.begin ≤ s.end_ → s.end_ ≤ 32 →
        (i : Int) < simd_buffer256.n_left s →
        ((simd_buffer256.equal_to avx512 b s).testBit i = true ↔
          simd_buffer256.get s (i : Int) = b)) ∧
    (∀ s : simd_buffer512, 0 ≤ s.begin → s.begin ≤ s.end_ → s.end_ ≤ 64 →
        (i : Int) < simd_buffer512.n_left s →
        ((simd_buffer512.equal_to b s).testBit i = true ↔
          simd_buffer512.get s (i : Int) = b)) := by
  refine ⟨fun s h0 _ h2 hi => ?_, fun avx512 s h0 _ h2 hi => ?_, fun s h0 _ h2 hi => ?_⟩
  · unfold simd_buffer128.n_left at hi
    rw [simd_buffer128.equal_to_bit128 b s s.begin.toNat i (by omega) hb (by omega),
      decide_eq_true_iff]
  · unfold simd_buffer256.n_left at hi
    rw [simd_buffer256.equal_to_bit256 avx512 b s s.begin.toNat i (by omega) hb (by omega),
      decide_eq_true_iff]
  · unfold simd_buffer512.n_left at hi
    rw [simd_buffer512.equal_to_bit512 b s s.begin.toNat i (by omega) hb (by omega),
      decide_eq_true_iff]

set_option maxRecDepth 100000 in
/-- Witness of C6: in the 16-byte example state (`"abc12345..."`, `begin = 3`) bit 2 of
`equal_to<'3'>()` is set and `get(2)` is `'3'`. -/
theorem C6_equal_to_bit_iff_witness :
    51 ≤ 255 ∧
    (Int.testBit (simd_buffer128.equal_to 51 exampleState128) 2 = true ↔
      simd_buffer128.get exampleState128 ((2 : Nat) : Int) = 51) ∧
    simd_buffer128.get exampleState128 ((2 : Nat) : Int) = 51 :=
  ⟨by decide,
    (C6_equal_to_bit_iff 51 2 (by decide)).1 exampleState128 (by decide) (by decide)
      (by decide) (by decide),
    by decide⟩

set_option maxRecDepth 100000 in
/-- C7, failing input: a 16-byte buffer (and a 32-byte buffer, in both build alternatives)
whose logical byte 0 is `0xC8 = 200`, compared with the constant `b = 50`.  Bit 0 of
`lt_than<50>()` is set although `200 < 50` is false for unsigned bytes: the comparison
instructions used are the signed ones. -/
theorem C7_lt_than_signed_at_200 :
    simd_buffer128.get { data := ofBytes (List.replicate 16 200), begin := 0, end_ := 16 }
        ((0 : Nat) : Int) = 200 ∧
    Int.testBit (simd_buffer128.lt_than 50
        { data := ofBytes (List.replicate 16 200), begin := 0, end_ := 16 }) 0 = true ∧
    simd_buffer256.get { data := ofBytes (List.replicate 32 200), begin := 0, end_ := 32 }
        ((0 : Nat) : Int) = 200 ∧
    (simd_buffer256.lt_than false 50
        { data := ofBytes (List.replicate 32 200), begin := 0, end_ := 32 }).testBit 0 = true ∧
    (simd_buffer256.lt_than true 50
        { data := ofBytes (List.replicate 32 200), begin := 0, end_ := 32 }).testBit 0 = true ∧
    ¬ (200 < 50) := by
  refine ⟨by decide, by decide, by decide, by decide, by decide, by decide⟩

/-- C8: for the 64-byte buffer, every state with `0 ≤ begin` and `end ≤ 64`, every constant
`b` in `0..255` and every `i < n_left()`: bit `i` of `lt_than<b>()` is set if and only if
`get(i) < b` as unsigned bytes. -/
theorem C8_lt_than512_unsigned (b i : Nat) (s : simd_buffer512) (hb : b ≤ 255)
    (h0 : 0 ≤ s.begin) (h2 : s.end_ ≤ 64) (hi : (i : Int) < simd_buffer512.n_left s) :
    (simd_buffer512.lt_than b s).testBit i = true ↔ simd_buffer512.get s (i : Int) < b := by
  unfold simd_buffer512.n_left at hi
  rw [simd_buffer512.lt_than_bit512 b s s.begin.toNat i (by omega) hb (by omega),
    decide_eq_true_iff]

set_option maxRecDepth 100000 in
/-- Witness of C8: in the 64-byte example state (`"abc12345"` then bytes `0xC8`,
`begin = 3`) bit 0 of `lt_than<0xC8>()` is set (`'1' < 0xC8`) and bit 5 is clear
(`0xC8 < 0xC8` is false). -/
theorem C8_lt_than512_unsigned_witness :
    (200 ≤ 255 ∧ 0 ≤ exampleState512.begin ∧ exampleState512.end_ ≤ 64 ∧
      ((0 : Nat) : Int) < simd_buffer512.n_left exampleState512) ∧
    ((simd_buffer512.lt_than 200 exampleState512).testBit 0 = true ↔
      simd_buffer512.get exampleState512 ((0 : Nat) : Int) < 200) ∧
    simd_buffer512.get exampleState512 ((0 : Nat) : Int) = 49 :=
  ⟨⟨by decide, by decide, by decide, by decide⟩,
    C8_lt_than512_unsigned 200 0 exampleState512 (by decide) (by decide) (by decide)
      (by decide),
    by decide⟩

/-- C9: for every state of the packed 7-byte buffer reached from a default-constructed
buffer by `fill_from(u, 7)` and `consume(k)`, `0 ≤ k ≤ 7`, and every constant `b` in
`0..254`: bit `t` of the mask of `equal_to<b>()` is set if and only if `t` is the guard bit
`9 * (7 - i)` of a lane `i < n_left()` with `get(i) = b`; `popcount()` is the number of
`i < n_left()` with `get(i) = b`; `countl_zero()` is 7 when no byte matches and is the
index of the first matching byte otherwise. -/
theorem C9_equal_to64_mask (u k b : Nat) (hk : k ≤ 7) (hb : b ≤ 254) :
    (∀ t : Nat,
      (simd_buffer64.equal_to b
          (simd_buffer64.consume (simd_buffer64.fill_from simd_buffer64.init u 7).2
            (k : Int)).2).m.testBit t = true ↔
        ∃ i : Nat,
          (i : Int) < simd_buffer64.n_left
            (simd_buffer64.consume (simd_buffer64.fill_from simd_buffer64.init u 7).2
              (k : Int)).2 ∧
          t = 9 * (7 - i) ∧
          simd_buffer64.get
            (simd_buffer64.consume (simd_buffer64.fill_from simd_buffer64.init u 7).2
              (k : Int)).2 (i : Int) = b) ∧
    (simd_buffer64.equal_to b
        (simd_buffer64.consume (simd_buffer64.fill_from simd_buffer64.init u 7).2
          (k : Int)).2).popcount
      = (List.range (simd_buffer64.n_left
            (simd_buffer64.consume (simd_buffer64.fill_from simd_buffer64.init u 7).2
              (k : Int)).2).toNat).countP
          (fun i : Nat => decide (simd_buffer64.get
            (simd_buffer64.consume (simd_buffer64.fill_from simd_buffer64.init u 7).2
              (k : Int)).2 (i : Int) = b)) ∧
    ((∀ i : Nat,
        (i : Int) < simd_buffer64.n_left
          (simd_buffer64.consume (simd_buffer64.fill_from simd_buffer64.init u 7).2
            (k : Int)).2 →
        simd_buffer64.get
          (simd_buffer64.consume (simd_buffer64.fill_from simd_buffer64.init u 7).2
            (k : Int)).2 (i : Int) ≠ b) →
      (simd_buffer64.equal_to b
        (simd_buffer64.consume (simd_buffer64.fill_from simd_buffer64.init u 7).2
          (k : Int)).2).countl_zero = 7) ∧
    (∀ i : Nat,
      (i : Int) < simd_buffer64.n_left
        (simd_buffer64.consume (simd_buffer64.fill_from simd_buffer64.init u 7).2
          (k : Int)).2 →
      simd_buffer64.get
        (simd_buffer64.consume (simd_buffer64.fill_from simd_buffer64.init u 7).2
          (k : Int)).2 (i : Int) = b →
      (∀ j : Nat, j < i →
        simd_buffer64.get
          (simd_buffer64.consume (simd_buffer64.fill_from simd_buffer64.init u 7).2
            (k : Int)).2 (j : Int) ≠ b) →
      (simd_buffer64.equal_to b
        (simd_buffer64.consume (simd_buffer64.fill_from simd_buffer64.init u 7).2
          (k : Int)).2).countl_zero = i) :=
  ⟨fun t => simd_buffer64.equal_to_bits u k b t hk hb,
    simd_buffer64.equal_to_popcount u k b hk hb,
    simd_buffer64.equal_to_countl_zero_none u k b hk hb,
    fun i hi hm hfirst => simd_buffer64.equal_to_countl_zero_first u k b i hk hb hi hm hfirst⟩

/-- Witness of C9: loaded with `"9999999"`, `equal_to<'9'>()` has popcount 7. -/
theorem C9_equal_to64_mask_witness :
    (0 ≤ 7 ∧ 57 ≤ 254) ∧
    (simd_buffer64.equal_to 57
        (simd_buffer64.consume (simd_buffer64.fill_from simd_buffer64.init
          (ofBytes [57, 57, 57, 57, 57, 57, 57]) 7).2 ((0 : Nat) : Int)).2).popcount = 7 :=
  ⟨⟨by decide, by decide⟩,
    (C9_equal_to64_mask (ofBytes [57, 57, 57, 57, 57, 57, 57]) 0 57 (by decide)
      (by decide)).2.1.trans (by decide)⟩

/-- C10, failing input: the packed 7-byte buffer loaded with `"1234567"` by
`fill_from(u, 7)` (then `consume(0)`), constant `b = '5'`.  The lane-0 bit (bit 63) of
`lt_than<'5'>()` is clear although `get(0) = '1' < '5'`, and the lane-6 bit (bit 9) is set
although `get(6) = '7'` is not below `'5'`; the mask returned by `sub<'5'>()` on the same
state has the two bits the other way round. -/
theorem C10_lt_than64_inverted :
    simd_buffer64.get
        (simd_buffer64.consume (simd_buffer64.fill_from simd_buffer64.init
          (ofBytes [49, 50, 51, 52, 53, 54, 55]) 7).2 ((0 : Nat) : Int)).2 ((0 : Nat) : Int)
      = 49 ∧
    (simd_buffer64.lt_than 53
        (simd_buffer64.consume (simd_buffer64.fill_from simd_buffer64.init
          (ofBytes [49, 50, 51, 52, 53, 54, 55]) 7).2 ((0 : Nat) : Int)).2).m.testBit 63
      = false ∧
    simd_buffer64.get
        (simd_buffer64.consume (simd_buffer64.fill_from simd_buffer64.init
          (ofBytes [49, 50, 51, 52, 53, 54, 55]) 7).2 ((0 : Nat) : Int)).2 ((6 : Nat) : Int)
      = 55 ∧
    (simd_buffer64.lt_than 53
        (simd_buffer64.consume (simd_buffer64.fill_from simd_buffer64.init
          (ofBytes [49, 50, 51, 52, 53, 54, 55]) 7).2 ((0 : Nat) : Int)).2).m.testBit 9
      = true ∧
    (simd_buffer64.sub 53
        (simd_buffer64.consume (simd_buffer64.fill_from simd_buffer64.init
          (ofBytes [49, 50, 51, 52, 53, 54, 55]) 7).2 ((0 : Nat) : Int)).2).1.m.testBit 63
      = true ∧
    (simd_buffer64.sub 53
        (simd_buffer64.consume (simd_buffer64.fill_from simd_buffer64.init
          (ofBytes [49, 50, 51, 52, 53, 54, 55]) 7).2 ((0 : Nat) : Int)).2).1.m.testBit 9
      = false := by
  refine ⟨by decide, by decide, by decide, by decide, by decide, by decide⟩

/-- C11: for the 16-, 32- and 64-byte buffers, every state and every constant `b` in
`0..255`: `sub<b>()` returns the mask that `lt_than<b>()` returns on the state before the
call, leaves `begin` and `end` unchanged, and every physical byte lane `i` below the
capacity holds `(x - b) mod 256` afterwards, where `x` is its value before. -/
theorem C11_sub_mask_and_lanes (b : Nat) (hb : b ≤ 255) :
    (∀ s : simd_buffer128,
      (simd_buffer128.sub b s).1 = simd_buffer128.lt_than b s ∧
      (simd_buffer128.sub b s).2.begin = s.begin ∧
      (simd_buffer128.sub b s).2.end_ = s.end_ ∧
      ∀ i : Nat, i < 16 →
        ((lane 8 i (simd_buffer128.sub b s).2.data : Nat) : Int)
          = (((lane 8 i s.data : Nat) : Int) - (b : Int)) % 256) ∧
    (∀ (avx512 : Bool) (s : simd_buffer256),
      (simd_buffer256.sub avx512 b s).1 = simd_buffer256.lt_than avx512 b s ∧
      (simd_buffer256.sub avx512 b s).2.begin = s.begin ∧
      (simd_buffer256.sub avx512 b s).2.end_ = s.end_ ∧
      ∀ i : Nat, i < 32 →
        ((lane 8 i (simd_buffer256.sub avx512 b s).2.data : Nat) : Int)
          = (((lane 8 i s.data : Nat) : Int) - (b : Int)) % 256) ∧
    (∀ s : simd_buffer512,
      (simd_buffer512.sub b s).1 = simd_buffer512.lt_than b s ∧
      (simd_buffer512.sub b s).2.begin = s.begin ∧
      (simd_buffer512.sub b s).2.end_ = s.end_ ∧
      ∀ i : Nat, i < 64 →
        ((lane 8 i (simd_buffer512.sub b s).2.data : Nat) : Int)
          = (((lane 8 i s.data : Nat) : Int) - (b : Int)) % 256) :=
  ⟨fun s => ⟨simd_buffer128.sub_mask128 b s, (simd_buffer128.sub_cursors128 b s).1,
      (simd_buffer128.sub_cursors128 b s).2.1, fun i hi => by
        rw [(simd_buffer128.sub_cursors128 b s).2.2]
        exact lane_sub_set1 16 s.data b i hi hb⟩,
    fun avx512 s => ⟨simd_buffer256.sub_mask256 avx512 b s,
      (simd_buffer256.sub_cursors256 avx512 b s).1,
      (simd_buffer256.sub_cursors256 avx512 b s).2.1, fun i hi => by
        rw [(simd_buffer256.sub_cursors256 avx512 b s).2.2]
        exact lane_sub_set1 32 s.data b i hi hb⟩,
    fun s => ⟨simd_buffer512.sub_mask512 b s, (simd_buffer512.sub_cursors512 b s).1,
      (simd_buffer512.sub_cursors512 b s).2.1, fun i hi => by
        rw [(simd_buffer512.sub_cursors512 b s).2.2]
        exact lane_sub_set1 64 s.data b i hi hb⟩⟩

set_option maxRecDepth 100000 in
/-- Witness of C11: `sub<'0'>()` on the 16-byte example state turns the byte `'1'` in
physical lane 3 into 1. -/
theorem C11_sub_mask_and_lanes_witness :
    48 ≤ 255 ∧
    (simd_buffer128.sub 48 exampleState128).1 = simd_buffer128.lt_than 48 exampleState128 ∧
    lane 8 3 exampleState128.data = 49 ∧
    ((lane 8 3 (simd_buffer128.sub 48 exampleState128).2.data : Nat) : Int) = 1 :=
  ⟨by decide, ((C11_sub_mask_and_lanes 48 (by decide)).1 exampleState128).1, by decide,
    (((C11_sub_mask_and_lanes 48 (by decide)).1 exampleState128).2.2.2 3 (by decide)).trans
      (by decide)⟩

/-- C12, failing input: the 1-byte buffer holding `x = 5`, constant `b = 3`.
`lt_than<3>()` is false (`5 < 3` fails) but `sub<3>()` returns true; with `x = 0`, `b = 1`,
`lt_than<1>()` is true but `sub<1>()` returns false.  The stored byte is `(x - b) mod 256`
in both cases. -/
theorem C12_sub8_flag_differs :
    simd_buffer8.lt_than 3 { data := 5, n_bytes := 1 } = false ∧
    (simd_buffer8.sub 3 { data := 5, n_bytes := 1 }).1 = true ∧
    (simd_buffer8.sub 3 { data := 5, n_bytes := 1 }).2.data = 2 ∧
    simd_buffer8.lt_than 1 { data := 0, n_bytes := 1 } = true ∧
    (simd_buffer8.sub 1 { data := 0, n_bytes := 1 }).1 = false ∧
    (simd_buffer8.sub 1 { data := 0, n_bytes := 1 }).2.data = 255 := by
  refine ⟨by decide, by decide, by decide, by decide, by decide, by decide⟩

/-- C13 (guard-bit carry stopper): for every state of the packed 7-byte buffer with
`0 ≤ n_bytes ≤ 7` in which the guard bit `9 * (7 - i)` of every lane `i` in `0..6` is set,
and every constant `b` in `0..255`: after `sub<b>()` the data bits of every lane
`i < n_left()` hold `(old_i - b) mod 256`, the data bits of every lane `i ≥ n_left()` are
unchanged, and the returned mask has the guard bit of lane `i < n_left()` set if and only
if `old_i < b`. -/
theorem C13_sub64_guard_stops_borrow (s : simd_buffer64) (b : Nat) (hb : b ≤ 255)
    (hx : s.data < 2 ^ 64) (h0 : 0 ≤ s.n_bytes) (h7 : s.n_bytes ≤ 7)
    (hg : ∀ i : Nat, i ≤ 6 → s.data.testBit (9 * (7 - i)) = true) :
    (∀ i : Nat, (i : Int) < simd_buffer64.n_left s →
      ((simd_buffer64.get (simd_buffer64.sub b s).2 (i : Int) : Nat) : Int)
        = (((simd_buffer64.get s (i : Int) : Nat) : Int) - (b : Int)) % 256) ∧
    (∀ i : Nat, simd_buffer64.n_left s ≤ (i : Int) → i ≤ 6 →
      simd_buffer64.get (simd_buffer64.sub b s).2 (i : Int) = simd_buffer64.get s (i : Int)) ∧
    (∀ i : Nat, (i : Int) < simd_buffer64.n_left s →
      ((simd_buffer64.sub b s).1.m.testBit (9 * (7 - i)) = true ↔
        simd_buffer64.get s (i : Int) < b)) := by
  have hg2 : ∀ j, 1 ≤ j → j ≤ 7 → s.data.testBit (9 * j) = true := by
    intro j h1 h2
    have := hg (7 - j) (by omega)
    have e : 7 - (7 - j) = j := by omega
    rwa [e] at this
  obtain ⟨p1, p2, p3, p4⟩ :=
    simd_buffer64.sub_guarded s b s.n_bytes.toNat (by omega) (by omega) hx hb hg2
  unfold simd_buffer64.n_left
  refine ⟨fun i hi => ?_, fun i h1 h2 => p3 i (by omega) h2, fun i hi => p4 i (by omega)⟩
  have q1 := p1 i (by omega)
  have q2 := p2 i (by omega)
  have q3 : simd_buffer64.get s (i : Int) < 256 := by
    rw [simd_buffer64.get_eq_cell _ i (by omega)]
    exact Nat.mod_lt _ (by norm_num)
  omega

/-- Witness of C13: the buffer loaded with `"1234567"`, `sub<'5'>()`: lane 0 (`'1'`) becomes
`('1' - '5') mod 256 = 252`. -/
theorem C13_sub64_guard_stops_borrow_witness :
    (53 ≤ 255 ∧
      (simd_buffer64.fill_from simd_buffer64.init (ofBytes [49, 50, 51, 52, 53, 54, 55]) 7).2.data
        < 2 ^ 64 ∧
      ((0 : Nat) : Int) < simd_buffer64.n_left
        (simd_buffer64.fill_from simd_buffer64.init (ofBytes [49, 50, 51, 52, 53, 54, 55]) 7).2) ∧
    ((simd_buffer64.get (simd_buffer64.sub 53
        (simd_buffer64.fill_from simd_buffer64.init (ofBytes [49, 50, 51, 52, 53, 54, 55]) 7).2).2
        ((0 : Nat) : Int) : Nat) : Int) = 252 :=
  ⟨⟨by decide, by decide, by decide⟩,
    ((C13_sub64_guard_stops_borrow
      (simd_buffer64.fill_from simd_buffer64.init (ofBytes [49, 50, 51, 52, 53, 54, 55]) 7).2 53
      (by decide) (by decide) (by decide) (by decide)
      (fun i hi => by interval_cases i <;> decide)).1 0 (by decide)).trans (by decide)⟩

set_option maxRecDepth 100000 in
/-- C15, failing input: the 16-byte buffer `A` holding `"12345"` (`begin = 3`, `end = 8`)
and the 16-byte example state `B`.  `A.fill_from(B)` stores the 16 bytes of `A.data` into
the local array `uint8_t a[8]`: the store leaves the array, and the call has no defined
result.  The same call on the 32-byte sibling, whose arrays have 32 elements, is defined. -/
theorem C15_merge128_leaves_array :
    vector_store (List.replicate 8 0) 16 exampleRegister128 = none ∧
    simd_buffer128.fill_from_other { data := exampleRegister128, begin := 3, end_ := 8 }
      exampleState128 = none ∧
    (simd_buffer256.fill_from_other { data := exampleRegister256, begin := 3, end_ := 8 }
      exampleState256).isSome = true := by
  refine ⟨by decide, by decide, by decide⟩

set_option maxRecDepth 100000 in
/-- C16, failing input: an empty 16-byte buffer `A` (`begin = end = 0`) and the 16-byte
example state `B` (13 bytes left).  `A.fill_from(B)` has no defined result (its 16-byte
stores and load go through 8-element arrays), so nothing is established about `B` or the
number of bytes copied; on the 32- and 64-byte siblings the same call is defined, returns
`B` unchanged and raises `n_left()` by `min(capacity - 0, B.n_left())`. -/
theorem C16_fill_from_other128_undefined :
    simd_buffer128.fill_from_other (simd_buffer128.init 0) exampleState128 = none ∧
    (simd_buffer256.fill_from_other (simd_buffer256.init 0) exampleState256).map
        (fun r => (r.2, simd_buffer256.n_left r.1))
      = some (exampleState256, min (32 - 0) (simd_buffer256.n_left exampleState256)) ∧
    (simd_buffer512.fill_from_other (simd_buffer512.init 0) exampleState512).map
        (fun r => (r.2, simd_buffer512.n_left r.1))
      = some (exampleState512, min (64 - 0) (simd_buffer512.n_left exampleState512)) := by
  refine ⟨by decide, by decide, by decide⟩

/-- C17: for the 16-, 32- and 64-byte buffers and every register `p`: when
`n_left() ≠ 0`, `fill_from(p)` returns `true` and leaves the state unchanged; when
`n_left() = 0` it returns `false` and afterwards `begin = 0`, `end = capacity` and
`get(i)` is byte `i` of `p` for every `i` below the capacity; a default-constructed buffer
has `n_left() = 0`. -/
theorem C17_fill_from_register (p : Nat) :
    ((∀ s : simd_buffer128,
        (simd_buffer128.n_left s ≠ 0 → simd_buffer128.fill_from s p = (true, s)) ∧
        (simd_buffer128.n_left s = 0 →
          (simd_buffer128.fill_from s p).1 = false ∧
          (simd_buffer128.fill_from s p).2.begin = 0 ∧
          (simd_buffer128.fill_from s p).2.end_ = 16 ∧
          ∀ i : Nat, i < 16 →
            simd_buffer128.get (simd_buffer128.fill_from s p).2 (i : Int) = lane 8 i p)) ∧
      ∀ d : Nat, simd_buffer128.n_left (simd_buffer128.init d) = 0) ∧
    ((∀ s : simd_buffer256,
        (simd_buffer256.n_left s ≠ 0 → simd_buffer256.fill_from s p = (true, s)) ∧
        (simd_buffer256.n_left s = 0 →
          (simd_buffer256.fill_from s p).1 = false ∧
          (simd_buffer256.fill_from s p).2.begin = 0 ∧
          (simd_buffer256.fill_from s p).2.end_ = 32 ∧
          ∀ i : Nat, i < 32 →
            simd_buffer256.get (simd_buffer256.fill_from s p).2 (i : Int) = lane 8 i p)) ∧
      ∀ d : Nat, simd_buffer256.n_left (simd_buffer256.init d) = 0) ∧
    ((∀ s : simd_buffer512,
        (simd_buffer512.n_left s ≠ 0 → simd_buffer512.fill_from s p = (true, s)) ∧
        (simd_buffer512.n_left s = 0 →
          (simd_buffer512.fill_from s p).1 = false ∧
          (simd_buffer512.fill_from s p).2.begin = 0 ∧
          (simd_buffer512.fill_from s p).2.end_ = 64 ∧
          ∀ i : Nat, i < 64 →
            simd_buffer512.get (simd_buffer512.fill_from s p).2 (i : Int) = lane 8 i p)) ∧
      ∀ d : Nat, simd_buffer512.n_left (simd_buffer512.init d) = 0) := by
  refine ⟨⟨fun s => ⟨fun h => ?_, fun h => ?_⟩, fun d => ?_⟩,
    ⟨fun s => ⟨fun h => ?_, fun h => ?_⟩, fun d => ?_⟩,
    ⟨fun s => ⟨fun h => ?_, fun h => ?_⟩, fun d => ?_⟩⟩
  · unfold simd_buffer128.n_left at h
    unfold simd_buffer128.fill_from
    rw [if_pos (by omega)]
  · unfold simd_buffer128.n_left at h
    unfold simd_buffer128.fill_from
    rw [if_neg (by omega)]
    refine ⟨rfl, rfl, rfl, fun i _ => ?_⟩
    simp [simd_buffer128.get]
  · simp [simd_buffer128.n_left, simd_buffer128.init]
  · unfold simd_buffer256.n_left at h
    unfold simd_buffer256.fill_from
    rw [if_pos (by omega)]
  · unfold simd_buffer256.n_left at h
    unfold simd_buffer256.fill_from
    rw [if_neg (by omega)]
    refine ⟨rfl, rfl, rfl, fun i _ => ?_⟩
    simp [simd_buffer256.get]
  · simp [simd_buffer256.n_left, simd_buffer256.init]
  · unfold simd_buffer512.n_left at h
    unfold simd_buffer512.fill_from
    rw [if_pos (by omega)]
  · unfold simd_buffer512.n_left at h
    unfold simd_buffer512.fill_from
    rw [if_neg (by omega)]
    refine ⟨rfl, rfl, rfl, fun i _ => ?_⟩
    simp [simd_buffer512.get]
  · simp [simd_buffer512.n_left, simd_buffer512.init]

set_option maxRecDepth 100000 in
/-- Witness of C17: the 16-byte example state is not drained and refuses the register; a
default-constructed buffer accepts it and then `get(3)` is byte 3 of the register. -/
theorem C17_fill_from_register_witness :
    simd_buffer128.fill_from exampleState128 exampleRegister128 = (true, exampleState128) ∧
    simd_buffer128.get (simd_buffer128.fill_from (simd_buffer128.init 0) exampleRegister128).2
      ((3 : Nat) : Int) = 49 :=
  ⟨((C17_fill_from_register exampleRegister128).1.1 exampleState128).1 (by decide),
    ((((C17_fill_from_register exampleRegister128).1.1 (simd_buffer128.init 0)).2
      (by decide)).2.2.2 3 (by decide)).trans (by decide)⟩

/-- C19 (round trip, packed 7-byte buffer): for every 64-bit word `u`, `fill_from(u, 7)`
on a default-constructed buffer returns 0 and sets `n_left()` to 7; afterwards `get(i)` is
byte `i` of `u` for `i` in `0..6`, and `store(dst, n)` with `n ≤ 7` writes bytes
`0..n-1` of `u` to the start of the destination; `consume(7)` then gives back the
default-constructed state, so the same holds on a buffer drained this way; a word `v`
with the same low seven bytes gives the same buffer (byte 7 has no influence). -/
theorem C19_fill_store64 (u : Nat) :
    (simd_buffer64.fill_from simd_buffer64.init u 7).1 = 0 ∧
    simd_buffer64.n_left (simd_buffer64.fill_from simd_buffer64.init u 7).2 = 7 ∧
    (∀ i : Nat, i ≤ 6 →
      simd_buffer64.get (simd_buffer64.fill_from simd_buffer64.init u 7).2 (i : Int)
        = lane 8 i u) ∧
    (∀ (dst : List Nat) (n : Nat), n ≤ 7 → n ≤ dst.length →
      simd_buffer64.store (simd_buffer64.fill_from simd_buffer64.init u 7).2 dst (n : Int)
        = some ((List.range n).map (fun i => lane 8 i u) ++ dst.drop n)) ∧
    simd_buffer64.consume (simd_buffer64.fill_from simd_buffer64.init u 7).2 7
      = (0, simd_buffer64.init) ∧
    (∀ v : Nat, v % 2 ^ 56 = u % 2 ^ 56 →
      simd_buffer64.fill_from simd_buffer64.init v 7
        = simd_buffer64.fill_from simd_buffer64.init u 7) := by
  refine ⟨simd_buffer64.fill_returns u, simd_buffer64.fill_n_bytes u,
    fun i hi => simd_buffer64.get_fill u i hi, fun dst n h7 hn => ?_,
    simd_buffer64.consume_all u, fun v hv => simd_buffer64.fill_from_low_bytes u v hv⟩
  rw [simd_buffer64.store_eq _ dst n hn]
  congr 2
  apply List.map_congr_left
  intro i hi
  rw [List.mem_range] at hi
  exact simd_buffer64.get_fill u i (by omega)

/-- Witness of C19: the word with bytes `"1234567"` and a stray eighth byte `0x63`: `get(0)`
is `'1'` and `store(dst, 3)` writes `"123"`. -/
theorem C19_fill_store64_witness :
    simd_buffer64.get (simd_buffer64.fill_from simd_buffer64.init
        (ofBytes [49, 50, 51, 52, 53, 54, 55, 99]) 7).2 ((0 : Nat) : Int) = 49 ∧
    simd_buffer64.store (simd_buffer64.fill_from simd_buffer64.init
        (ofBytes [49, 50, 51, 52, 53, 54, 55, 99]) 7).2 [0, 0, 0, 0] ((3 : Nat) : Int)
      = some [49, 50, 51, 0] :=
  ⟨((C19_fill_store64 (ofBytes [49, 50, 51, 52, 53, 54, 55, 99])).2.2.1 0 (by decide)).trans
      (by decide),
    ((C19_fill_store64 (ofBytes [49, 50, 51, 52, 53, 54, 55, 99])).2.2.2.1 [0, 0, 0, 0] 3
      (by decide) (by decide)).trans (by decide)⟩

/-- C20: for the 7-, 16-, 32- and 64-byte buffers, every state and every `n` with
`0 ≤ n ≤ n_left()` (for the packed 7-byte buffer with `n_left() ≤ 7`): `consume(n)` returns
the new `n_left()`, which is the old `n_left()` minus `n` and not negative, and
afterwards `get(i)` is what `get(i + n)` was before, for every `i` below the new
`n_left()`. -/
theorem C20_consume (n : Int) (hn : 0 ≤ n) :
    (∀ s : simd_buffer64, n ≤ simd_buffer64.n_left s → simd_buffer64.n_left s ≤ 7 →
      (simd_buffer64.consume s n).1 = simd_buffer64.n_left (simd_buffer64.consume s n).2 ∧
      simd_buffer64.n_left (simd_buffer64.consume s n).2 = simd_buffer64.n_left s - n ∧
      0 ≤ simd_buffer64.n_left (simd_buffer64.consume s n).2 ∧
      ∀ i : Nat, (i : Int) < simd_buffer64.n_left (simd_buffer64.consume s n).2 →
        simd_buffer64.get (simd_buffer64.consume s n).2 (i : Int)
          = simd_buffer64.get s ((i : Int) + n)) ∧
    (∀ s : simd_buffer128, n ≤ simd_buffer128.n_left s →
      (simd_buffer128.consume s n).1 = simd_buffer128.n_left (simd_buffer128.consume s n).2 ∧
      simd_buffer128.n_left (simd_buffer128.consume s n).2 = simd_buffer128.n_left s - n ∧
      0 ≤ simd_buffer128.n_left (simd_buffer128.consume s n).2 ∧
      ∀ i : Nat, (i : Int) < simd_buffer128.n_left (simd_buffer128.consume s n).2 →
        simd_buffer128.get (simd_buffer128.consume s n).2 (i : Int)
          = simd_buffer128.get s ((i : Int) + n)) ∧
    (∀ s : simd_buffer256, n ≤ simd_buffer256.n_left s →
      (simd_buffer256.consume s n).1 = simd_buffer256.n_left (simd_buffer256.consume s n).2 ∧
      simd_buffer256.n_left (simd_buffer256.consume s n).2 = simd_buffer256.n_left s - n ∧
      0 ≤ simd_buffer256.n_left (simd_buffer256.consume s n).2 ∧
      ∀ i : Nat, (i : Int) < simd_buffer256.n_left (simd_buffer256.consume s n).2 →
        simd_buffer256.get (simd_buffer256.consume s n).2 (i : Int)
          = simd_buffer256.get s ((i : Int) + n)) ∧
    (∀ s : simd_buffer512, n ≤ simd_buffer512.n_left s →
      (simd_buffer512.consume s n).1 = simd_buffer512.n_left (simd_buffer512.consume s n).2 ∧
      simd_buffer512.n_left (simd_buffer512.consume s n).2 = simd_buffer512.n_left s - n ∧
      0 ≤ simd_buffer512.n_left (simd_buffer512.consume s n).2 ∧
      ∀ i : Nat, (i : Int) < simd_buffer512.n_left (simd_buffer512.consume s n).2 →
        simd_buffer512.get (simd_buffer512.consume s n).2 (i : Int)
          = simd_buffer512.get s ((i : Int) + n)) := by
  refine ⟨fun s h1 h7 => ?_, fun s h1 => ?_, fun s h1 => ?_, fun s h1 => ?_⟩
  · simp only [simd_buffer64.n_left] at h1 h7
    refine ⟨rfl, rfl, ?_, fun i hi => ?_⟩
    · simp only [simd_buffer64.n_left, simd_buffer64.consume]
      omega
    · simp only [simd_buffer64.n_left, simd_buffer64.consume] at hi
      have e : n = ((n.toNat : Nat) : Int) := by omega
      rw [e]
      exact simd_buffer64.get_consume64 s n.toNat i (by omega)
  · simp only [simd_buffer128.n_left] at h1
    refine ⟨rfl, ?_, ?_, fun i _ => ?_⟩
    · simp only [simd_buffer128.n_left, simd_buffer128.consume]; omega
    · simp only [simd_buffer128.n_left, simd_buffer128.consume]; omega
    · simp only [simd_buffer128.get, simd_buffer128.consume]
      congr 2
      omega
  · simp only [simd_buffer256.n_left] at h1
    refine ⟨rfl, ?_, ?_, fun i _ => ?_⟩
    · simp only [simd_buffer256.n_left, simd_buffer256.consume]; omega
    · simp only [simd_buffer256.n_left, simd_buffer256.consume]; omega
    · simp only [simd_buffer256.get, simd_buffer256.consume]
      congr 2
      omega
  · simp only [simd_buffer512.n_left] at h1
    refine ⟨rfl, ?_, ?_, fun i _ => ?_⟩
    · simp only [simd_buffer512.n_left, simd_buffer512.consume]; omega
    · simp only [simd_buffer512.n_left, simd_buffer512.consume]; omega
    · simp only [simd_buffer512.get, simd_buffer512.consume]
      congr 2
      omega

set_option maxRecDepth 100000 in
/-- Witness of C20: `consume(2)` on the 16-byte example state (13 bytes left, logical bytes
`"12345..."`) returns 11 and then `get(0)` is `'3'`. -/
theorem C20_consume_witness :
    (0 : Int) ≤ 2 ∧ (2 : Int) ≤ simd_buffer128.n_left exampleState128 ∧
    (simd_buffer128.consume exampleState128 2).1 = 11 ∧
    simd_buffer128.get (simd_buffer128.consume exampleState128 2).2 ((0 : Nat) : Int) = 51 :=
  ⟨by decide, by decide,
    ((C20_consume 2 (by decide)).2.1 exampleState128 (by decide)).1.trans (by decide),
    (((C20_consume 2 (by decide)).2.1 exampleState128 (by decide)).2.2.2 0 (by decide)).trans
      (by decide)⟩

set_option maxRecDepth 100000 in
/-- C21, failing input: the 16-byte buffer holding `"abc12345"` followed by eight bytes
`0xC8`, with `begin = 0`, and the compile-time index `idx = 1`.  `get(1)` is `'b'` (98), but
`get<1>()` shifts the low 32 bits by one bit instead of one byte and returns 48; the same
happens for every `idx` in `1..7`, while `get<0>()` and `get<8>()` agree with `get`. -/
theorem C21_get_const_shifts_bits :
    simd_buffer128.get { data := exampleRegister128, begin := 0, end_ := 16 } ((1 : Nat) : Int)
      = 98 ∧
    simd_buffer128.get_const 1 { data := exampleRegister128, begin := 0, end_ := 16 } = 48 ∧
    simd_buffer128.get { data := exampleRegister128, begin := 0, end_ := 16 } ((5 : Nat) : Int)
      = 51 ∧
    simd_buffer128.get_const 5 { data := exampleRegister128, begin := 0, end_ := 16 } ≠ 51 ∧
    simd_buffer128.get_const 0 { data := exampleRegister128, begin := 0, end_ := 16 } = 97 ∧
    simd_buffer128.get_const 8 { data := exampleRegister128, begin := 0, end_ := 16 } = 200 := by
  refine ⟨by decide, by decide, by decide, by decide, by decide, by decide⟩

set_option maxRecDepth 100000 in
/-- C23, failing input: the 16-byte example state (`begin = 3`) and `idx = 4`, so that the
byte to erase is physical byte 7, the last byte of the first 64-bit word; likewise the
32-byte example state.  The mask `u2 = (UINT64_C(1) << idx) - 1` is then computed with a
shift count of 64, which is undefined, and the call has no defined result.  At `idx = 3`
(physical byte 6) both calls are defined, and the 64-byte sibling is defined at `idx = 4`
as well. -/
theorem C23_erase_shift_by_64 :
    simd_buffer128.erase_and_shift_left exampleState128 ((4 : Nat) : Int) = none ∧
    simd_buffer256.erase_and_shift_left exampleState256 ((4 : Nat) : Int) = none ∧
    shl64_checked 1 64 = none ∧
    (simd_buffer128.erase_and_shift_left exampleState128 ((3 : Nat) : Int)).map
        (fun r => simd_buffer128.logical r 5) = some [49, 50, 51, 53, 200] ∧
    (simd_buffer256.erase_and_shift_left exampleState256 ((3 : Nat) : Int)).map
        (fun r => simd_buffer256.logical r 5) = some [49, 50, 51, 53, 200] ∧
    simd_buffer512.logical (simd_buffer512.erase_and_shift_left exampleState512 ((4 : Nat) : Int))
      5 = [49, 50, 51, 52, 200] := by
  refine ⟨by decide, by decide, by decide, by decide, by decide, by decide⟩

/-- C24 (erase, packed 7-byte buffer): for every state `s` reached by `fill_from(u, 7)` and
`consume(k)` and every `idx` with `0 ≤ idx < n_left()`: after `erase_and_shift_left(idx)`
`n_left()` is one less, `get(i)` is unchanged for `i < idx`, `get(i)` is the old
`get(i + 1)` for `idx ≤ i` below the new `n_left()`, the window is the old one with
position `idx` left out, and the guard bit of every remaining valid lane is set. -/
theorem C24_erase64 (u k idx : Nat) (s : simd_buffer64)
    (hs : s = (simd_buffer64.consume (simd_buffer64.fill_from simd_buffer64.init u 7).2
      (k : Int)).2)
    (hk : k ≤ 7) (hidx : (idx : Int) < simd_buffer64.n_left s) :
    simd_buffer64.n_left (simd_buffer64.erase_and_shift_left s (idx : Int))
      = simd_buffer64.n_left s - 1 ∧
    (∀ i : Nat, i < idx →
      simd_buffer64.get (simd_buffer64.erase_and_shift_left s (idx : Int)) (i : Int)
        = simd_buffer64.get s (i : Int)) ∧
    (∀ i : Nat, idx ≤ i →
      (i : Int) < simd_buffer64.n_left (simd_buffer64.erase_and_shift_left s (idx : Int)) →
      simd_buffer64.get (simd_buffer64.erase_and_shift_left s (idx : Int)) (i : Int)
        = simd_buffer64.get s ((i : Int) + 1)) ∧
    simd_buffer64.logical (simd_buffer64.erase_and_shift_left s (idx : Int))
        ((simd_buffer64.n_left s).toNat - 1)
      = (simd_buffer64.logical s (simd_buffer64.n_left s).toNat).eraseIdx idx ∧
    (∀ i : Nat,
      (i : Int) < simd_buffer64.n_left (simd_buffer64.erase_and_shift_left s (idx : Int)) →
      (simd_buffer64.erase_and_shift_left s (idx : Int)).data.testBit (9 * (7 - i)) = true) := by
  have hn : s.n_bytes = 7 - (k : Int) := by rw [hs, simd_buffer64.state_n_bytes]
  have hx : s.data < 2 ^ 64 := by rw [hs]; exact simd_buffer64.state_data_lt u _
  have hg : ∀ i : Nat, (i : Int) < s.n_bytes → s.data.testBit (9 * (7 - i)) = true := by
    intro i hi
    rw [hs]
    exact simd_buffer64.state_guards u k i (by omega)
  have hn2 : (simd_buffer64.erase_and_shift_left s (idx : Int)).n_bytes = s.n_bytes - 1 := rfl
  unfold simd_buffer64.n_left at hidx ⊢
  have hlow : ∀ i : Nat, i < idx →
      simd_buffer64.get (simd_buffer64.erase_and_shift_left s (idx : Int)) (i : Int)
        = simd_buffer64.get s (i : Int) :=
    fun i hi => simd_buffer64.get_erase_below s idx i (by omega) hi hx
  have hhigh : ∀ i : Nat, idx ≤ i → (i : Int) < s.n_bytes - 1 →
      simd_buffer64.get (simd_buffer64.erase_and_shift_left s (idx : Int)) (i : Int)
        = simd_buffer64.get s ((i : Int) + 1) :=
    fun i h1 h2 => simd_buffer64.get_erase_above s idx i h1 (by omega) hx
  refine ⟨hn2, hlow, fun i h1 h2 => hhigh i h1 (by rw [hn2] at h2; exact h2), ?_,
    fun i hi => simd_buffer64.guards_erase s idx hidx (by omega) hx hg i hi⟩
  unfold simd_buffer64.logical
  have hn3 : s.n_bytes.toNat = (s.n_bytes.toNat - 1) + 1 := by omega
  rw [hn3, Nat.add_sub_cancel]
  apply map_range_eraseIdx _ _ _ idx _ (by omega)
  intro i hi
  by_cases h : i < idx
  · rw [if_pos h, hlow i h]
  · rw [if_neg h, hhigh i (by omega) (by omega)]
    push_cast
    rfl

/-- Witness of C24: the buffer loaded with `"1234567"`, `consume(2)`, then
`erase_and_shift_left(1)`: the window `"34567"` becomes `"3567"`. -/
theorem C24_erase64_witness :
    (2 ≤ 7 ∧ ((1 : Nat) : Int) < simd_buffer64.n_left
      (simd_buffer64.consume (simd_buffer64.fill_from simd_buffer64.init
        (ofBytes [49, 50, 51, 52, 53, 54, 55]) 7).2 ((2 : Nat) : Int)).2) ∧
    simd_buffer64.logical (simd_buffer64.erase_and_shift_left
      (simd_buffer64.consume (simd_buffer64.fill_from simd_buffer64.init
        (ofBytes [49, 50, 51, 52, 53, 54, 55]) 7).2 ((2 : Nat) : Int)).2 ((1 : Nat) : Int)) 4
      = [51, 53, 54, 55] :=
  ⟨⟨by decide, by decide⟩,
    ((C24_erase64 (ofBytes [49, 50, 51, 52, 53, 54, 55]) 2 1 _ rfl (by decide)
      (by decide)).2.2.2.1).trans (by decide)⟩

/-- C26, failing input: the packed 7-byte buffer filled by `fill_from(u, 7)` with
`u = "1234567"` (so `n_left() = 7`), then `fill_from(v, 8)`.  The call returns 8 (nothing
fits) but `n_bytes` becomes `7 + (0 - 8) = -1`: the count of rejected bytes is subtracted
twice.  With `n_available = 1` the full buffer drops to `n_left() = 6`. -/
theorem C26_fill_from_breaks_occupancy :
    simd_buffer64.n_left
      (simd_buffer64.fill_from simd_buffer64.init (ofBytes [49, 50, 51, 52, 53, 54, 55]) 7).2
      = 7 ∧
    (simd_buffer64.fill_from
      (simd_buffer64.fill_from simd_buffer64.init (ofBytes [49, 50, 51, 52, 53, 54, 55]) 7).2
      (ofBytes [65, 66, 67, 68, 69, 70, 71, 72]) 8).1 = 8 ∧
    simd_buffer64.n_left (simd_buffer64.fill_from
      (simd_buffer64.fill_from simd_buffer64.init (ofBytes [49, 50, 51, 52, 53, 54, 55]) 7).2
      (ofBytes [65, 66, 67, 68, 69, 70, 71, 72]) 8).2 = -1 ∧
    simd_buffer64.n_left (simd_buffer64.fill_from
      (simd_buffer64.fill_from simd_buffer64.init (ofBytes [49, 50, 51, 52, 53, 54, 55]) 7).2
      (ofBytes [65, 66, 67, 68, 69, 70, 71, 72]) 1).2 = 6 := by
  refine ⟨by decide, by decide, by decide, by decide⟩

/-- C27: for the 16-, 32- and 64-byte buffers and every state, `wanna_fill()` is true if
and only if `n_left()` is below 8, 16 and 32 respectively; it is a `const` member that
returns only the flag. -/
theorem C27_wanna_fill :
    (∀ s : simd_buffer128, simd_buffer128.wanna_fill s = true ↔ simd_buffer128.n_left s < 8) ∧
    (∀ s : simd_buffer256, simd_buffer256.wanna_fill s = true ↔ simd_buffer256.n_left s < 16) ∧
    (∀ s : simd_buffer512, simd_buffer512.wanna_fill s = true ↔ simd_buffer512.n_left s < 32) :=
  ⟨fun s => by simp [simd_buffer128.wanna_fill, simd_buffer128.n_left],
    fun s => by simp [simd_buffer256.wanna_fill, simd_buffer256.n_left],
    fun s => by simp [simd_buffer512.wanna_fill, simd_buffer512.n_left]⟩

set_option maxRecDepth 100000 in
/-- C28, failing input: the packed 7-byte buffer filled by `fill_from(u, 7)` with
`u = "1234567"`, then `sub<'5'>()`.  `n_left()` is still 7 and the bytes are
252, 253, 254, 255, 0, 1, 2, but the guard bits of lanes 0 to 3, the lanes that borrowed,
are clear.  A later `equal_to<253>()` returns the empty mask although `get(1)` is 253, and
a later `sub<254>()` leaves 253 in lane 0 instead of `(252 - 254) mod 256 = 254`: the
borrow of lane 1 has crossed into lane 0.  On the 16-byte buffer the same calls give bit 1
of the mask and the byte 254.  After every sequence of `consume`, `erase_and_shift_left`
and `sub` calls in which no `sub` borrows, the guard bit of every lane `i < n_left()` is
set. -/
theorem C28_sub_clears_guard_bits :
    simd_buffer64.run_calls exampleFilled64 [simd_buffer64.Call.sub 53]
      = some (simd_buffer64.sub 53 exampleFilled64).2 ∧
    simd_buffer64.n_left (simd_buffer64.sub 53 exampleFilled64).2 = 7 ∧
    simd_buffer64.logical (simd_buffer64.sub 53 exampleFilled64).2 7
      = [252, 253, 254, 255, 0, 1, 2] ∧
    (List.range 7).map
        (fun i => (simd_buffer64.sub 53 exampleFilled64).2.data.testBit (9 * (7 - i)))
      = [false, false, false, false, true, true, true] ∧
    (simd_buffer64.get (simd_buffer64.sub 53 exampleFilled64).2 1 = 253 ∧
      (simd_buffer64.equal_to 253 (simd_buffer64.sub 53 exampleFilled64).2).m = 0) ∧
    simd_buffer64.logical
        (simd_buffer64.sub 254 (simd_buffer64.sub 53 exampleFilled64).2).2 7
      = [253, 255, 0, 1, 2, 3, 4] ∧
    (simd_buffer128.logical (simd_buffer128.sub 53 exampleFilled128).2 7
        = [252, 253, 254, 255, 0, 1, 2] ∧
      Int.testBit (simd_buffer128.equal_to 253 (simd_buffer128.sub 53 exampleFilled128).2) 1
        = true ∧
      simd_buffer128.logical
          (simd_buffer128.sub 254 (simd_buffer128.sub 53 exampleFilled128).2).2 7
        = [254, 255, 0, 1, 2, 3, 4]) ∧
    (∀ (u : Nat) (calls : List simd_buffer64.Call) (s : simd_buffer64),
      simd_buffer64.subs_without_borrow
        (simd_buffer64.fill_from simd_buffer64.init u 7).2 calls = true →
      simd_buffer64.run_calls (simd_buffer64.fill_from simd_buffer64.init u 7).2 calls
        = some s →
      ∀ i : Nat, (i : Int) < simd_buffer64.n_left s →
        s.data.testBit (9 * (7 - i)) = true) := by
  refine ⟨by decide, by decide, by decide, by decide, ⟨by decide, by decide⟩, by decide,
    ⟨by decide, by decide, by decide⟩, fun u calls s hnb h => ?_⟩
  exact (simd_buffer64.run_calls_inv calls
    (simd_buffer64.fill_from simd_buffer64.init u 7).2 (simd_buffer64.fill_data_lt u)
    (by rw [simd_buffer64.fill_n_bytes]; decide) (by rw [simd_buffer64.fill_n_bytes])
    (fun i hi => simd_buffer64.fill_guards u i (by
      rw [simd_buffer64.fill_n_bytes] at hi; omega)) hnb s h).2.2.2

/-- C29, failing input: the packed 7-byte buffer filled with `"1234567"`, `consume(1)` (six
bytes `"234567"` left), then `fill_from(v, 1)` with `v = "ABCDEFGH"`.  `n_left()` becomes 7
and `get(0..5)` are unchanged, but `get(6)` is 0 instead of `'A'`: the new byte is shifted
out of the word.  On an empty buffer `fill_from(v, 6)` puts `'B'`, not `'A'`, at
`get(0)`. -/
theorem C29_top_up_misplaces_bytes :
    simd_buffer64.n_left (simd_buffer64.fill_from
      (simd_buffer64.consume (simd_buffer64.fill_from simd_buffer64.init
        (ofBytes [49, 50, 51, 52, 53, 54, 55]) 7).2 1).2
      (ofBytes [65, 66, 67, 68, 69, 70, 71, 72]) 1).2 = 7 ∧
    simd_buffer64.logical (simd_buffer64.fill_from
      (simd_buffer64.consume (simd_buffer64.fill_from simd_buffer64.init
        (ofBytes [49, 50, 51, 52, 53, 54, 55]) 7).2 1).2
      (ofBytes [65, 66, 67, 68, 69, 70, 71, 72]) 1).2 7 = [50, 51, 52, 53, 54, 55, 0] ∧
    lane 8 0 (ofBytes [65, 66, 67, 68, 69, 70, 71, 72]) = 65 ∧
    simd_buffer64.get (simd_buffer64.fill_from simd_buffer64.init
      (ofBytes [65, 66, 67, 68, 69, 70, 71, 72]) 6).2 ((0 : Nat) : Int) = 66 := by
  refine ⟨by decide, by decide, by decide, by decide⟩

/-- C30, failing input: the packed 7-byte buffer filled with `"1234567"`, `consume(2)`
(`n_left() = 5`), then `fill_from(v, 7)`.  The call returns `r = 5 = max(0, 5 + 7 - 7)` as
claimed, but `n_left()` becomes 2 instead of `5 + (7 - 5) = 7`: `n_bytes` grows by
`n_available - 2 r`. -/
theorem C30_fill_from_subtracts_twice :
    simd_buffer64.n_left
      (simd_buffer64.consume (simd_buffer64.fill_from simd_buffer64.init
        (ofBytes [49, 50, 51, 52, 53, 54, 55]) 7).2 2).2 = 5 ∧
    (simd_buffer64.fill_from
      (simd_buffer64.consume (simd_buffer64.fill_from simd_buffer64.init
        (ofBytes [49, 50, 51, 52, 53, 54, 55]) 7).2 2).2
      (ofBytes [65, 66, 67, 68, 69, 70, 71, 72]) 7).1 = 5 ∧
    simd_buffer64.n_left (simd_buffer64.fill_from
      (simd_buffer64.consume (simd_buffer64.fill_from simd_buffer64.init
        (ofBytes [49, 50, 51, 52, 53, 54, 55]) 7).2 2).2
      (ofBytes [65, 66, 67, 68, 69, 70, 71, 72]) 7).2 = 2 := by
  refine ⟨by decide, by decide, by decide⟩

set_option maxRecDepth 100000 in
/-- C32, failing input: the 64-byte state whose register holds 64 digits (`begin = 0`),
`atoi(40)`, in a build that places the local array `tmp_value` at a multiple of 16 that is
not a multiple of 64, or `result` at a multiple of 16 that is not a multiple of 32: the
aligned stores `_mm512_store_si512` and `_mm256_store_si256` into them have no defined
result.  When the two arrays are aligned, `atoi(length)` is the value of the last
`min(length, 32)` digits modulo `2 ^ 64`, for every state with `0 ≤ begin`,
`begin + length ≤ 64` whose logical bytes `0 .. length-1` are digits, `length = 0`
included. -/
theorem C32_atoi512_last_32_unaligned_scratch :
    simd_buffer512.atoi 16 32 exampleDigits512 40 = none ∧
    simd_buffer512.atoi 64 16 exampleDigits512 40 = none ∧
    (∀ (tmp_value result : Nat) (s : simd_buffer512) (len : Nat),
      tmp_value % 64 = 0 → result % 32 = 0 → 0 ≤ s.begin → s.begin + (len : Int) ≤ 64 →
      allDigits (simd_buffer512.logical s len) →
      simd_buffer512.atoi tmp_value result s (len : Int)
        = some (decimalValue ((simd_buffer512.logical s len).drop (len - min len 32))
            % 2 ^ 64)) := by
  refine ⟨by decide, by decide, fun tmp_value result s len h1 h2 hb hk hd => ?_⟩
  have e : len - min len 32 = len - 32 := by omega
  rw [e, simd_buffer512.atoi_eq512 _ _ _ _ h1 h2,
    simd_buffer512.atoi_last32 s s.begin.toNat len (by omega) (by omega) hd]

set_option maxRecDepth 100000 in
/-- C33, failing input: the 16-byte and the 32-byte example states with `length = 0`.
On the 16-byte buffer `length < 9` makes `length = (16 - 8) << 3 = 64`, on the 32-byte
buffer `32 - length = 32` leaves `length = 8`, `length <<= 3 = 64`: both then shift a
`uint64_t` by 64 bits, so `atoi(0)` has no defined result, for every state and wherever the
local arrays are placed.  The packed 7-byte buffer (shift by 63 bits) returns 0 for every
state, and so does the 64-byte buffer (shifts guarded by `small_shift > 0`) when its local
arrays are aligned. -/
theorem C33_atoi_zero_length_shifts_by_64 :
    simd_buffer128.atoi_checked true exampleState128 0 = none ∧
    simd_buffer256.atoi true 64 128 exampleState256 0 = none ∧
    (∀ (ssse3 : Bool) (s : simd_buffer128), simd_buffer128.atoi_checked ssse3 s 0 = none) ∧
    (∀ (avx512 : Bool) (tmp_value intermediate_storage : Nat) (s : simd_buffer256),
      simd_buffer256.atoi avx512 tmp_value intermediate_storage s 0 = none) ∧
    (∀ s : simd_buffer64, simd_buffer64.atoi s 0 = 0) ∧
    (∀ (tmp_value result : Nat) (s : simd_buffer512), tmp_value % 64 = 0 → result % 32 = 0 →
      simd_buffer512.atoi tmp_value result s 0 = some 0) :=
  ⟨simd_buffer128.atoi_checked_zero_length128 _ _,
    simd_buffer256.atoi_zero_length256 _ _ _ _,
    simd_buffer128.atoi_checked_zero_length128, simd_buffer256.atoi_zero_length256,
    simd_buffer64.atoi_zero_length64,
    fun tmp_value result s h1 h2 => by
      rw [simd_buffer512.atoi_eq512 _ _ _ _ h1 h2, simd_buffer512.atoi_value_zero_length512]⟩

set_option maxRecDepth 100000 in
/-- C34, failing input: the 32-byte example state (`begin = 3`, bytes 8 to 31 equal to 200).
Without `__AVX512VL__ && __AVX512BW__` the `int` of `_mm256_movemask_epi8` has bit 31 set
(lane 31 satisfies the comparison), is negative, and `>> begin` replicates the sign: the
masks of `equal_to<200>()` and `lt_than<201>()` have bits 29, 30 and 31 set, positions
`≥ 32 - begin`.  With the mask intrinsics of the other alternative these bits are clear. -/
theorem C34_mask_sign_bits_smeared :
    exampleState256.begin = 3 ∧ lane 8 31 exampleState256.data = 200 ∧
    simd_buffer256.equal_to false 200 exampleState256 = 0xFFFFFFE0 ∧
    (simd_buffer256.equal_to false 200 exampleState256).testBit 29 = true ∧
    (simd_buffer256.equal_to false 200 exampleState256).testBit 31 = true ∧
    simd_buffer256.lt_than false 201 exampleState256 = 0xFFFFFFE0 ∧
    (simd_buffer256.lt_than false 201 exampleState256).testBit 29 = true ∧
    (simd_buffer256.lt_than false 201 exampleState256).testBit 31 = true ∧
    simd_buffer256.equal_to true 200 exampleState256 = 0x1FFFFFE0 ∧
    simd_buffer256.lt_than true 201 exampleState256 = 0x1FFFFFE0 := by
  refine ⟨by decide, by decide, by decide, by decide, by decide, by decide, by decide,
    by decide, by decide, by decide⟩

set_option maxRecDepth 100000 in
/-- C35, failing input: the 16-byte example state merged with itself
(`0 ≤ begin = 3 ≤ end = 16`).  The scratch arrays are declared with 8 elements; the first
statement of `fill_from(other)` stores the 16 bytes of the register into `a`, so bytes
8 to 15 are written outside the array and the call has no defined result, for every pair
of buffers.  The 32-byte sibling declares arrays of 32 elements and is defined. -/
theorem C35_scratch_arrays_too_short :
    (List.replicate 8 0).length = 8 ∧
    vector_store (List.replicate 8 0) 16 exampleState128.data = none ∧
    simd_buffer128.fill_from_other exampleState128 exampleState128 = none ∧
    (∀ A B : simd_buffer128, simd_buffer128.fill_from_other A B = none) ∧
    (simd_buffer256.fill_from_other exampleState256 exampleState256).isSome = true :=
  ⟨by decide, by decide, simd_buffer128.fill_from_other_undefined _ _,
    simd_buffer128.fill_from_other_undefined, by decide⟩

/-- C36: for all 64-bit unsigned `a` and `b`, the words `low` and `high` left by
`umult64x64_default(a, b, low, high)` on a little-endian target satisfy
`high * 2 ^ 64 + low = a * b`, `low = (a * b) mod 2 ^ 64` and
`high = floor(a * b / 2 ^ 64)`. -/
theorem C36_umult64x64_default_exact (a b : Nat) (ha : a < 2 ^ 64) (hb : b < 2 ^ 64) :
    (umult64x64_default a b).2 * 2 ^ 64 + (umult64x64_default a b).1 = a * b ∧
    (umult64x64_default a b).1 = (a * b) % 2 ^ 64 ∧
    (umult64x64_default a b).2 = (a * b) / 2 ^ 64 := by
  obtain ⟨h1, h2⟩ := umult64x64_default_eq a b ha hb
  refine ⟨h1, ?_, ?_⟩
  · rw [← h1]
    omega
  · rw [← h1]
    omega

/-- Witness of C36: the largest operands, `a = b = 2 ^ 64 - 1`. -/
theorem C36_umult64x64_default_exact_witness :
    (18446744073709551615 < 2 ^ 64) ∧
    (umult64x64_default 18446744073709551615 18446744073709551615).2 * 2 ^ 64
        + (umult64x64_default 18446744073709551615 18446744073709551615).1
      = 18446744073709551615 * 18446744073709551615 :=
  ⟨by decide,
    (C36_umult64x64_default_exact 18446744073709551615 18446744073709551615
      (by decide) (by decide)).1⟩

/-- C37, failing input: the `int64_t` value `2 ^ 32` for `OutputT = uint8_t` and the
`uint64_t` value `2 ^ 32 + 5` for `OutputT = int8_t`.  The casts `unsigned(value)` and
`signed(value)` reduce the value to 32 bits (to 0 and to 5), so `is_representable` returns
true for values far above `numeric_limits<OutputT>::max()`, and the assertion of
`narrow_cast` passes; the cast then yields 0 and 5. -/
theorem C37_is_representable_truncates :
    (int64_t.lowest ≤ 2 ^ 32 ∧ 2 ^ 32 ≤ int64_t.max) ∧
    is_representable int64_t uint8_t (2 ^ 32) = true ∧
    ¬ (uint8_t.lowest ≤ 2 ^ 32 ∧ 2 ^ 32 ≤ uint8_t.max) ∧
    narrow_cast int64_t uint8_t (2 ^ 32) = some 0 ∧
    (uint64_t.lowest ≤ 2 ^ 32 + 5 ∧ 2 ^ 32 + 5 ≤ uint64_t.max) ∧
    is_representable uint64_t int8_t (2 ^ 32 + 5) = true ∧
    ¬ (int8_t.lowest ≤ 2 ^ 32 + 5 ∧ 2 ^ 32 + 5 ≤ int8_t.max) ∧
    narrow_cast uint64_t int8_t (2 ^ 32 + 5) = some 5 := by
  refine ⟨by decide, by decide, by decide, by decide, by decide, by decide, by decide,
    by decide⟩

/-- C38, failing input: a callable that completes and a callable that throws, passed to the
one-argument overload `presume_throws(l)`.  Its body calls `presume_no_throw`, so it returns
normally when `l()` completes and throws `assumption_failed` when `l()` throws, the reverse of
the two overloads that take a reason or a file and a line. -/
theorem C38_presume_throws_default_inverted :
    presume_throws_default (fun _ => (Except.ok () : Except String Unit)) = Except.ok () ∧
    presume_throws_default (fun _ => (Except.error "boom" : Except String Unit))
      = Except.error { reason := "\x27throws\x27 assumption failed" } ∧
    presume_throws (fun _ => (Except.ok () : Except String Unit)) "reason"
      = Except.error { reason := "reason" } ∧
    presume_throws (fun _ => (Except.error "boom" : Except String Unit)) "reason"
      = Except.ok () ∧
    presume_throws_at (fun _ => (Except.ok () : Except String Unit)) "test.cpp" 7
      = Except.error
        { reason := "file \x22test.cpp\x22, line 7: \x27throws\x27 assumption failed" } ∧
    presume_throws_at (fun _ => (Except.error "boom" : Except String Unit)) "test.cpp" 7
      = Except.ok () := by
  refine ⟨rfl, rfl, rfl, rfl, ?_, rfl⟩
  have e : "file \x22" ++ "test.cpp" ++ "\x22, line " ++ toString 7
      ++ ": \x27throws\x27 assumption failed"
      = "file \x22test.cpp\x22, line 7: \x27throws\x27 assumption failed" := by decide
  unfold presume_throws_at
  simp only []
  rw [e]
  rfl

end Sixit
